import Mathlib

/-!
Verification of the rply-codec replay container and its state-stream
checkpoint codec.  The Rust sources (`src/rply.rs`, `src/statestream.rs`,
`src/statestream/blockindex.rs`) are shallowly embedded: bytes are `Nat`
values, streams are `List Nat`, fallible operations return `Option` or
`Except`, and Rust panics (`assert_eq!`, `unwrap`, slice-index panics) are
modelled as `Option.none` / a dedicated fatal error.  Machine-integer
widths are enforced with explicit bounds and `% 2 ^ w` arithmetic.
-/

set_option maxHeartbeats 1000000

/-! ## Little-endian and big-endian byte strings -/

/-- Little-endian byte string of `n`, exactly `k` bytes (low byte first). -/
def toLE : Nat → Nat → List Nat
  | 0, _ => []
  | k + 1, n => n % 256 :: toLE k (n / 256)

/-- Value of a little-endian byte string (low byte first). -/
def fromLE : List Nat → Nat
  | [] => 0
  | b :: bs => b + 256 * fromLE bs

/-- Big-endian byte string of `n`, exactly `k` bytes (high byte first). -/
def toBE (k n : Nat) : List Nat := (toLE k n).reverse

/-- Value of a big-endian byte string (high byte first). -/
def fromBE (bs : List Nat) : Nat := fromLE bs.reverse

theorem toLE_length (k n : Nat) : (toLE k n).length = k := by
  induction k generalizing n with
  | zero => rfl
  | succ k ih => simp [toLE, ih]

theorem toBE_length (k n : Nat) : (toBE k n).length = k := by
  simp [toBE, toLE_length]

theorem fromLE_toLE (k n : Nat) : fromLE (toLE k n) = n % 256 ^ k := by
  induction k generalizing n with
  | zero => simp [toLE, fromLE, Nat.mod_one]
  | succ k ih =>
    simp only [toLE, fromLE, ih]
    rw [pow_succ', Nat.mod_mul]

theorem fromLE_toLE_of_lt {k n : Nat} (h : n < 256 ^ k) : fromLE (toLE k n) = n := by
  rw [fromLE_toLE, Nat.mod_eq_of_lt h]

theorem fromBE_toBE (k n : Nat) : fromBE (toBE k n) = n % 256 ^ k := by
  simp [fromBE, toBE, fromLE_toLE]

theorem fromBE_toBE_of_lt {k n : Nat} (h : n < 256 ^ k) : fromBE (toBE k n) = n := by
  rw [fromBE_toBE, Nat.mod_eq_of_lt h]

/-! ## Reader primitives over byte lists -/

/-- Read one byte; `none` models an unexpected end of stream. -/
def readByte : List Nat → Option (Nat × List Nat)
  | [] => none
  | b :: rest => some (b, rest)

/-- Read exactly `k` bytes (the semantics of `read_exact`). -/
def readBytes (k : Nat) (input : List Nat) : Option (List Nat × List Nat) :=
  if k ≤ input.length then some (input.take k, input.drop k) else none

/-- Read a `k`-byte little-endian unsigned integer. -/
def readLE (k : Nat) (input : List Nat) : Option (Nat × List Nat) :=
  (readBytes k input).map fun (bs, rest) => (fromLE bs, rest)

/-- Read a `k`-byte big-endian unsigned integer. -/
def readBE (k : Nat) (input : List Nat) : Option (Nat × List Nat) :=
  (readBytes k input).map fun (bs, rest) => (fromBE bs, rest)

theorem readBytes_append {xs : List Nat} {k : Nat} (h : xs.length = k) (rest : List Nat) :
    readBytes k (xs ++ rest) = some (xs, rest) := by
  subst h
  simp [readBytes, List.take_append, List.drop_append]

theorem readLE_append {k n : Nat} (rest : List Nat) :
    readLE k (toLE k n ++ rest) = some (n % 256 ^ k, rest) := by
  simp [readLE, readBytes_append (toLE_length k n), fromLE_toLE]

theorem readLE_append_of_lt {k n : Nat} (h : n < 256 ^ k) (rest : List Nat) :
    readLE k (toLE k n ++ rest) = some (n, rest) := by
  rw [readLE_append, Nat.mod_eq_of_lt h]

theorem readBE_append {k n : Nat} (rest : List Nat) :
    readBE k (toBE k n ++ rest) = some (n % 256 ^ k, rest) := by
  simp [readBE, readBytes_append (toBE_length k n), fromBE_toBE]

theorem readBE_append_of_lt {k n : Nat} (h : n < 256 ^ k) (rest : List Nat) :
    readBE k (toBE k n ++ rest) = some (n, rest) := by
  rw [readBE_append, Nat.mod_eq_of_lt h]

/-! ## BlockIndex (`src/statestream/blockindex.rs`)

The Rust `BlockIndex<T>` keeps a dense object list plus an xxh3-keyed
collision-chain map used only to speed up the equality search in `insert`.
Because equal objects always share a hash and a chain holds exactly the
ids carrying that hash in insertion order, `insert`'s observable behaviour
is "return the earliest equal object's id, else append"; the model
therefore searches the object list directly and omits the hash map.  Both
instantiations (`u8` byte blocks and `u32` superblocks) store `Nat`
elements here.  Rust panics (`assert_eq!` on the object size, `u32`
id-overflow `unwrap`, out-of-bounds `get`) are modelled as `none`. -/

structure BlockIndex where
  objects : List (List Nat)
  object_size : Nat
deriving Repr, DecidableEq

/-- Mirrors `BlockIndex::new`: one all-zero object pre-inserted at ID 0. -/
def BlockIndex.new (object_size : Nat) : BlockIndex :=
  ⟨[List.replicate object_size 0], object_size⟩

/-- Mirrors `BlockIndex::insert`: dedup on equality (earliest equal id),
else append; `none` models the size assert and the u32 id overflow. -/
def BlockIndex.insert (bi : BlockIndex) (obj : List Nat) :
    Option (BlockIndex × Nat × Bool) :=
  if obj.length ≠ bi.object_size then none
  else
    match bi.objects.findIdx? (· = obj) with
    | some i => some (bi, i, false)
    | none =>
        if bi.objects.length < 2 ^ 32 then
          some (⟨bi.objects ++ [obj], bi.object_size⟩, bi.objects.length, true)
        else none

/-- Mirrors `BlockIndex::insert_exact`: `none` models the
`assert_eq!(obj.len(), self.object_size)` panic; `some (bi, false)` when
the current length is not the expected id; otherwise append (no dedup). -/
def BlockIndex.insert_exact (bi : BlockIndex) (idx : Nat) (obj : List Nat) :
    Option (BlockIndex × Bool) :=
  if obj.length ≠ bi.object_size then none
  else if bi.objects.length ≠ idx then some (bi, false)
  else some (⟨bi.objects ++ [obj], bi.object_size⟩, true)

/-- Mirrors `BlockIndex::get`; `none` models the slice-index panic. -/
def BlockIndex.get (bi : BlockIndex) (which : Nat) : Option (List Nat) :=
  bi.objects[which]?

/-- Mirrors `BlockIndex::clear`: truncate to the zero object at ID 0. -/
def BlockIndex.clear (bi : BlockIndex) : BlockIndex :=
  ⟨bi.objects.take 1, bi.object_size⟩

/-- Mirrors `BlockIndex::len`. -/
def BlockIndex.len (bi : BlockIndex) : Nat := bi.objects.length

/-- An operation on a `BlockIndex`, for stating reachability invariants. -/
inductive BOp
  | ins (obj : List Nat)
  | insx (idx : Nat) (obj : List Nat)
  | clr
deriving Repr, DecidableEq

/-- Apply one operation (`none` propagates a modelled panic). -/
def BlockIndex.applyOp (bi : BlockIndex) : BOp → Option BlockIndex
  | .ins obj => (bi.insert obj).map (·.1)
  | .insx idx obj => (bi.insert_exact idx obj).map (·.1)
  | .clr => some bi.clear

/-- Apply a sequence of operations left to right. -/
def BlockIndex.applyOps (bi : BlockIndex) : List BOp → Option BlockIndex
  | [] => some bi
  | op :: ops => (bi.applyOp op).bind fun bi2 => bi2.applyOps ops

theorem BlockIndex.applyOp_head {bi bi2 : BlockIndex} {op : BOp} {z : List Nat}
    (hhead : bi.objects.head? = some z) (h : bi.applyOp op = some bi2) :
    bi2.objects.head? = some z := by
  cases op with
  | ins obj =>
    simp only [applyOp, insert, Option.map_eq_some'] at h
    obtain ⟨⟨bi3, i, b⟩, h1, rfl⟩ := h
    split at h1
    · exact absurd h1 (by simp)
    · split at h1
      · simp only [Option.some.injEq, Prod.mk.injEq] at h1
        rw [← h1.1]
        exact hhead
      · split at h1
        · simp only [Option.some.injEq, Prod.mk.injEq] at h1
          rw [← h1.1]
          cases ho : bi.objects with
          | nil => simp [ho] at hhead
          | cons x xs => simpa [ho] using hhead
        · exact absurd h1 (by simp)
  | insx idx obj =>
    simp only [applyOp, insert_exact, Option.map_eq_some'] at h
    obtain ⟨⟨bi3, b⟩, h1, rfl⟩ := h
    split at h1
    · exact absurd h1 (by simp)
    · split at h1
      · simp only [Option.some.injEq, Prod.mk.injEq] at h1
        rw [← h1.1]
        exact hhead
      · simp only [Option.some.injEq, Prod.mk.injEq] at h1
        rw [← h1.1]
        cases ho : bi.objects with
        | nil => simp [ho] at hhead
        | cons x xs => simpa [ho] using hhead
  | clr =>
    simp only [applyOp, Option.some.injEq] at h
    rw [← h]
    cases ho : bi.objects with
    | nil => simp [ho] at hhead
    | cons x xs => simpa [clear, ho] using hhead

theorem BlockIndex.applyOps_head {bi bi2 : BlockIndex} {ops : List BOp} {z : List Nat}
    (hhead : bi.objects.head? = some z) (h : bi.applyOps ops = some bi2) :
    bi2.objects.head? = some z := by
  induction ops generalizing bi with
  | nil =>
    simp only [applyOps, Option.some.injEq] at h
    rw [← h]
    exact hhead
  | cons op ops ih =>
    simp only [applyOps, Option.bind_eq_some] at h
    obtain ⟨bi3, h1, h2⟩ := h
    exact ih (applyOp_head hhead h1) h2

/-! ## MessagePack framing (the subset used by `rmp` in `statestream.rs`)

The decoder uses `rmp::decode::{read_int, read_bin_len, read_array_len}`
and the encoder `rmp::encode::{write_uint, write_bin, write_array_len}`.
`write_uint` emits the canonical shortest unsigned form; `read_int`
accepts every msgpack integer format but fails (`OutOfRange`) when the
value is negative or exceeds the target integer type, modelled by the
`max` bound. -/

/-- Canonical msgpack unsigned-integer encoding (rmp `write_uint`). -/
def writeUint (n : Nat) : List Nat :=
  if n < 128 then [n]
  else if n < 256 then 0xcc :: toBE 1 n
  else if n < 65536 then 0xcd :: toBE 2 n
  else if n < 4294967296 then 0xce :: toBE 4 n
  else 0xcf :: toBE 8 n

/-- Read any msgpack integer format, yielding a non-negative value
(reads into unsigned Rust targets reject negative values). -/
def readIntRaw : List Nat → Option (Nat × List Nat)
  | [] => none
  | b :: rest =>
    if b < 128 then some (b, rest)
    else if b = 0xcc then readBE 1 rest
    else if b = 0xcd then readBE 2 rest
    else if b = 0xce then readBE 4 rest
    else if b = 0xcf then readBE 8 rest
    else if b = 0xd0 then
      (readBE 1 rest).bind fun (n, r) => if n < 128 then some (n, r) else none
    else if b = 0xd1 then
      (readBE 2 rest).bind fun (n, r) => if n < 32768 then some (n, r) else none
    else if b = 0xd2 then
      (readBE 4 rest).bind fun (n, r) => if n < 2147483648 then some (n, r) else none
    else if b = 0xd3 then
      (readBE 8 rest).bind fun (n, r) => if n < 9223372036854775808 then some (n, r) else none
    else none

/-- Mirrors `rmp::decode::read_int` into an unsigned target of maximum
value `max` (`OutOfRange` when the value does not fit). -/
def readInt (max : Nat) (input : List Nat) : Option (Nat × List Nat) :=
  (readIntRaw input).bind fun (n, r) => if n ≤ max then some (n, r) else none

/-- Mirrors `rmp::encode::write_bin_len` (canonical shortest bin header). -/
def writeBinLen (len : Nat) : List Nat :=
  if len < 256 then 0xc4 :: toBE 1 len
  else if len < 65536 then 0xc5 :: toBE 2 len
  else 0xc6 :: toBE 4 len

/-- Mirrors `rmp::encode::write_bin`: bin header then the raw bytes. -/
def writeBin (data : List Nat) : List Nat := writeBinLen data.length ++ data

/-- Mirrors `rmp::decode::read_bin_len`. -/
def readBinLen : List Nat → Option (Nat × List Nat)
  | 0xc4 :: rest => readBE 1 rest
  | 0xc5 :: rest => readBE 2 rest
  | 0xc6 :: rest => readBE 4 rest
  | _ => none

/-- Mirrors `rmp::encode::write_array_len` (canonical shortest form). -/
def writeArrayLen (len : Nat) : List Nat :=
  if len < 16 then [0x90 + len]
  else if len < 65536 then 0xdc :: toBE 2 len
  else 0xdd :: toBE 4 len

/-- Mirrors `rmp::decode::read_array_len`. -/
def readArrayLen : List Nat → Option (Nat × List Nat)
  | [] => none
  | b :: rest =>
    if 0x90 ≤ b ∧ b ≤ 0x9f then some (b - 0x90, rest)
    else if b = 0xdc then readBE 2 rest
    else if b = 0xdd then readBE 4 rest
    else none

theorem readIntRaw_writeUint {n : Nat} (h64 : n < 2 ^ 64) (rest : List Nat) :
    readIntRaw (writeUint n ++ rest) = some (n, rest) := by
  unfold writeUint
  by_cases h1 : n < 128
  · simp [readIntRaw, h1]
  · by_cases h2 : n < 256
    · simp [h1, h2, readIntRaw, readBE_append_of_lt (show n < 256 ^ 1 by simpa using h2)]
    · by_cases h3 : n < 65536
      · simp [h1, h2, h3, readIntRaw,
          readBE_append_of_lt (show n < 256 ^ 2 by norm_num; omega)]
      · by_cases h4 : n < 4294967296
        · simp [h1, h2, h3, h4, readIntRaw,
            readBE_append_of_lt (show n < 256 ^ 4 by norm_num; omega)]
        · simp [h1, h2, h3, h4, readIntRaw,
            readBE_append_of_lt (show n < 256 ^ 8 by norm_num; omega)]

theorem readInt_writeUint {n max : Nat} (hmax : n ≤ max) (h64 : n < 2 ^ 64)
    (rest : List Nat) : readInt max (writeUint n ++ rest) = some (n, rest) := by
  simp [readInt, readIntRaw_writeUint h64, hmax]

theorem readBinLen_writeBinLen {len : Nat} (h : len < 2 ^ 32) (rest : List Nat) :
    readBinLen (writeBinLen len ++ rest) = some (len, rest) := by
  unfold writeBinLen
  by_cases h1 : len < 256
  · simp [h1, readBinLen, readBE_append_of_lt (show len < 256 ^ 1 by simpa using h1)]
  · by_cases h2 : len < 65536
    · simp [h1, h2, readBinLen, readBE_append_of_lt (show len < 256 ^ 2 by norm_num; omega)]
    · simp [h1, h2, readBinLen, readBE_append_of_lt (show len < 256 ^ 4 by norm_num; omega)]

theorem readArrayLen_writeArrayLen {len : Nat} (h : len < 2 ^ 32) (rest : List Nat) :
    readArrayLen (writeArrayLen len ++ rest) = some (len, rest) := by
  unfold writeArrayLen
  by_cases h1 : len < 16
  · have hb : 0x90 ≤ 0x90 + len ∧ 0x90 + len ≤ 0x9f := by omega
    simp [h1, readArrayLen, hb]
  · by_cases h2 : len < 65536
    · have hb : ¬(0x90 ≤ 0xdc ∧ (0xdc : Nat) ≤ 0x9f) := by omega
      simp [h1, h2, readArrayLen, hb,
        readBE_append_of_lt (show len < 256 ^ 2 by norm_num; omega)]
    · have hb : ¬(0x90 ≤ 0xdd ∧ (0xdd : Nat) ≤ 0x9f) := by omega
      simp [h1, h2, readArrayLen, hb,
        readBE_append_of_lt (show len < 256 ^ 4 by norm_num; omega)]

/-! ## State-stream context and decoder (`src/statestream.rs`) -/

/-- Mirrors `statestream::Ctx`. -/
structure Ctx where
  block_size : Nat
  superblock_size : Nat
  last_state : List Nat
  last_superseq : List Nat
  block_index : BlockIndex
  superblock_index : BlockIndex
deriving Repr, DecidableEq

/-- Mirrors `Ctx::new`. -/
def Ctx.new (block_size superblock_size : Nat) : Ctx :=
  ⟨block_size, superblock_size, [], [],
    BlockIndex.new block_size, BlockIndex.new superblock_size⟩

/-- Error outcomes of the state-stream decoder.  The Rust code wraps every
failure in an opaque `io::Error`; the constructors follow `SSError` plus
`eof` for reader failures, `fatal` for modelled panics, and `outOfFuel`
for exhausted recursion fuel (never hit with fuel `> ` the token count). -/
inductive SSErr
  | eof
  | invalidToken (t : Nat)
  | tooManyStarts
  | parseErr
  | blockWrongSize (n : Nat)
  | superblockWrongSize (n : Nat)
  | badBlockInsert
  | badSuperblockInsert
  | fatal
  | outOfFuel
deriving Repr, DecidableEq

/-- Read `count` msgpack integers bounded by `max` (superblock elements). -/
def readInts (max : Nat) : Nat → List Nat → Option (List Nat × List Nat)
  | 0, input => some ([], input)
  | k + 1, input =>
    (readInt max input).bind fun (n, r) =>
      (readInts max k r).map fun (ns, r2) => (n :: ns, r2)

/-- Mirrors `Vec::resize(n, 0)`: keep the prefix, zero-pad to length `n`. -/
def resizeTo (n : Nat) (xs : List Nat) : List Nat :=
  xs.take n ++ List.replicate (n - xs.length) 0

/-- Overwrite `st[start .. start + seg.length)` with `seg` (callers keep
`start + seg.length ≤ st.length`). -/
def overwriteAt (st : List Nat) (start : Nat) (seg : List Nat) : List Nat :=
  st.take start ++ seg ++ st.drop (start + seg.length)

/-- Inner block-copy loop of the `SuperblockSeq` arm (one superblock):
for block position `j`, copy `min(block_size, state_size - offset)` bytes
of the block at `id` into the state; stop at the state boundary.  The
`get` happens before the boundary test, as in the source. -/
def ssCopySuper (bindex : BlockIndex) (state_size bs base : Nat) :
    List Nat → Nat → List Nat → Except SSErr (List Nat)
  | [], _, st => .ok st
  | id :: ids, j, st =>
    match bindex.get id with
    | none => .error .fatal
    | some bytes =>
      if min (min (base + j * bs) state_size + bs) state_size
          ≤ min (base + j * bs) state_size then .ok st
      else if bytes.length < min (min (base + j * bs) state_size + bs) state_size
          - min (base + j * bs) state_size then .error .fatal
      else
        ssCopySuper bindex state_size bs base ids (j + 1)
          (overwriteAt st (min (base + j * bs) state_size)
            (bytes.take (min (min (base + j * bs) state_size + bs) state_size
              - min (base + j * bs) state_size)))

/-- Outer loop of the `SuperblockSeq` arm: read `k` superblock ids, copy
each superblock's blocks, and collect the id sequence in order. -/
def ssSuperSeq (sindex bindex : BlockIndex) (state_size bs sbs : Nat) :
    Nat → Nat → List Nat → List Nat → List Nat →
    Except SSErr (List Nat × List Nat × List Nat)
  | 0, _, seqAcc, st, input => .ok (seqAcc.reverse, st, input)
  | k + 1, i, seqAcc, st, input =>
    match readInt (2 ^ 32 - 1) input with
    | none => .error .eof
    | some (sid, r1) =>
      match sindex.get sid with
      | none => .error .fatal
      | some blockIds =>
        match ssCopySuper bindex state_size bs (i * (sbs * bs)) blockIds 0 st with
        | .error e => .error e
        | .ok st2 =>
            ssSuperSeq sindex bindex state_size bs sbs k (i + 1) (sid :: seqAcc) st2 r1

/-- Token loop of `Decoder::read`: `started` is `true` in state
`WaitForSuperblockSeq`, `false` in `WaitForStart`; returns the updated
context and the unread input once `SuperblockSeq` finishes. -/
def ssLoop (ctx : Ctx) (state_size : Nat) :
    Nat → Nat → Bool → List Nat → Except SSErr (Ctx × List Nat)
  | 0, _, _, _ => .error .outOfFuel
  | fuel + 1, frame, started, input =>
    match readInt 255 input with
    | none => .error .eof
    | some (tok, r1) =>
      if tok = 0 then
        if started then .error .tooManyStarts
        else
          match readInt (2 ^ 64 - 1) r1 with
          | none => .error .eof
          | some (fr, r2) => ssLoop ctx state_size fuel fr true r2
      else if tok = 1 then
        if started = false then .error .parseErr
        else
          match readInt (2 ^ 32 - 1) r1 with
          | none => .error .eof
          | some (idx, r2) =>
            match readBinLen r2 with
            | none => .error .eof
            | some (blen, r3) =>
              if blen ≠ ctx.block_size then .error (.blockWrongSize blen)
              else
                match readBytes ctx.block_size r3 with
                | none => .error .eof
                | some (bytes, r4) =>
                  match ctx.block_index.insert_exact idx bytes with
                  | none => .error .fatal
                  | some (bi2, ok) =>
                    if ok then
                      ssLoop { ctx with block_index := bi2 } state_size fuel frame true r4
                    else .error .badBlockInsert
      else if tok = 2 then
        if started = false then .error .parseErr
        else
          match readInt (2 ^ 32 - 1) r1 with
          | none => .error .eof
          | some (idx, r2) =>
            match readArrayLen r2 with
            | none => .error .eof
            | some (alen, r3) =>
              if alen ≠ ctx.superblock_size then .error (.superblockWrongSize alen)
              else
                match readInts (2 ^ 32 - 1) ctx.superblock_size r3 with
                | none => .error .eof
                | some (elts, r4) =>
                  match ctx.superblock_index.insert_exact idx elts with
                  | none => .error .fatal
                  | some (si2, ok) =>
                    if ok then
                      ssLoop { ctx with superblock_index := si2 } state_size fuel frame true r4
                    else .error .badSuperblockInsert
      else if tok = 3 then
        if started = false then .error .parseErr
        else
          match readArrayLen r1 with
          | none => .error .eof
          | some (k, r2) =>
            match ssSuperSeq ctx.superblock_index ctx.block_index state_size
                ctx.block_size ctx.superblock_size k 0 []
                (resizeTo state_size ctx.last_state) r2 with
            | .error e => .error e
            | .ok (seq, st, r3) =>
                .ok ({ ctx with last_state := st, last_superseq := seq }, r3)
      else .error (.invalidToken tok)

/-- One full `Decoder::read` pass to the `Finished` state: parse a
complete state-stream record from `input` (the fuel `input.length + 1`
dominates the token count, each token consuming at least one byte).  The
bytes the decoder then yields are `(result ctx).last_state`. -/
def ssDecode (ctx : Ctx) (state_size : Nat) (input : List Nat) :
    Except SSErr (Ctx × List Nat) :=
  ssLoop ctx state_size (input.length + 1) 0 false input

/-! ## State-stream encoder

Modelled from the spec: the body of `statestream::Encoder::encode_checkpoint`
is missing from the source (`todo!()` after the `Start` token), so the
block/superblock encoding algorithm below follows §4.B "Encoder algorithm"
of the specification: partition into zero-padded blocks, group into
superblocks padded with all-zero blocks, insert each block and superblock
in address order emitting `NewBlock`/`NewSuperblock` tokens for fresh
inserts, then emit the `SuperblockSeq`. -/

/-- Zero-pad a list on the right to length `n`. -/
def padTo (n : Nat) (xs : List Nat) : List Nat :=
  xs ++ List.replicate (n - xs.length) 0

/-- Modelled from the spec: the state partitioned into `ceil(N / bs)`
blocks of `bs` bytes, the trailing block zero-padded to full size. -/
def blocksOf (bs : Nat) (S : List Nat) : List (List Nat) :=
  (List.range ((S.length + bs - 1) / bs)).map fun i => padTo bs ((S.drop (i * bs)).take bs)

/-- Modelled from the spec: the block list padded with all-zero blocks to
fill `K = ceil(N / (bs * sbs))` whole superblocks. -/
def blocksPadded (bs sbs : Nat) (S : List Nat) : List (List Nat) :=
  let K := (S.length + bs * sbs - 1) / (bs * sbs)
  blocksOf bs S ++
    List.replicate (K * sbs - (blocksOf bs S).length) (List.replicate bs 0)

/-- Group a flat id list into consecutive groups of `sbs` ids. -/
def groupIds (sbs k : Nat) (ids : List Nat) : List (List Nat) :=
  (List.range k).map fun i => (ids.drop (i * sbs)).take sbs

/-- Insert objects in address order into a `BlockIndex`, returning the id
assigned to each object and the `(id, object)` pairs that were new, in
insertion order (`none` propagates a modelled panic). -/
def insertObjs (bi : BlockIndex) : List (List Nat) →
    Option (BlockIndex × List Nat × List (Nat × List Nat))
  | [] => some (bi, [], [])
  | obj :: objs =>
    (bi.insert obj).bind fun r =>
      (insertObjs r.1 objs).map fun r2 =>
        (r2.1, r.2.1 :: r2.2.1, if r.2.2 then (r.2.1, obj) :: r2.2.2 else r2.2.2)

/-- Serialization of the emitted `NewBlock` tokens. -/
def newBlockTokenBytes (toks : List (Nat × List Nat)) : List Nat :=
  toks.flatMap fun t => writeUint 1 ++ writeUint t.1 ++ writeBin t.2

/-- Serialization of the emitted `NewSuperblock` tokens. -/
def newSuperblockTokenBytes (toks : List (Nat × List Nat)) : List Nat :=
  toks.flatMap fun t =>
    writeUint 2 ++ writeUint t.1 ++ writeArrayLen t.2.length ++ t.2.flatMap writeUint

/-- Serialization of the final `SuperblockSeq` token. -/
def superSeqBytes (sids : List Nat) : List Nat :=
  writeUint 3 ++ writeArrayLen sids.length ++ sids.flatMap writeUint

/-- Modelled from the spec: `Encoder::encode_checkpoint` (§4.B).  Returns
the updated context and the bytes written; `none` models the panics /
unencodable cases (id overflow in `insert`, or a count that cannot fit the
`u32` wire fields). -/
def encodeCheckpointSS (ctx : Ctx) (checkpoint : List Nat) (frame : Nat) :
    Option (Ctx × List Nat) :=
  let bs := ctx.block_size
  let sbs := ctx.superblock_size
  let K := (checkpoint.length + bs * sbs - 1) / (bs * sbs)
  if frame < 2 ^ 64 ∧ bs < 2 ^ 32 ∧ sbs < 2 ^ 32 ∧ K < 2 ^ 32 then
    (insertObjs ctx.block_index (blocksPadded bs sbs checkpoint)).bind fun rb =>
      (insertObjs ctx.superblock_index (groupIds sbs K rb.2.1)).bind fun rs =>
        let bytes := writeUint 0 ++ writeUint frame ++
          newBlockTokenBytes rb.2.2 ++ newSuperblockTokenBytes rs.2.2 ++
          superSeqBytes rs.2.1
        if bytes.length < 2 ^ 32 then
          some (Ctx.mk ctx.block_size ctx.superblock_size ctx.last_state
            rs.2.1 rb.1 rs.1, bytes)
        else none
  else none

/-! ## Properties of `insert` and `insertObjs` -/

theorem getElemQ_some_lt {l : List (List Nat)} {i : Nat} {o : List Nat}
    (h : l[i]? = some o) : i < l.length := by
  by_contra hc
  rw [List.getElem?_eq_none (by omega)] at h
  simp at h

theorem findIdxQ_getElem_aux {obj : List Nat} {l : List (List Nat)} {s i : Nat}
    (h : List.findIdx? (fun x => decide (x = obj)) l s = some i) :
    s ≤ i ∧ l[i - s]? = some obj := by
  induction l generalizing s with
  | nil => simp [List.findIdx?] at h
  | cons x xs ih =>
    rw [List.findIdx?_cons] at h
    split at h
    · rename_i hx
      simp only [decide_eq_true_eq] at hx
      simp only [Option.some.injEq] at h
      subst h
      simp [hx]
    · obtain ⟨hs, hg⟩ := ih h
      refine ⟨by omega, ?_⟩
      have hd : i - s = (i - (s + 1)) + 1 := by omega
      rw [hd]
      simpa using hg

theorem findIdxQ_getElem {l : List (List Nat)} {obj : List Nat} {i : Nat}
    (h : l.findIdx? (· = obj) = some i) : l[i]? = some obj := by
  have := findIdxQ_getElem_aux (l := l) (s := 0) (i := i) h
  simpa using this.2

theorem BlockIndex.insert_eq_some {bi bi1 : BlockIndex} {obj : List Nat} {idx : Nat}
    {isNew : Bool} (h : bi.insert obj = some (bi1, idx, isNew)) :
    obj.length = bi.object_size ∧ bi1.object_size = bi.object_size ∧
      ((isNew = false ∧ bi1 = bi ∧ idx < bi.objects.length ∧ bi.objects[idx]? = some obj) ∨
        (isNew = true ∧ idx = bi.objects.length ∧ idx < 2 ^ 32 ∧
          bi1.objects = bi.objects ++ [obj])) := by
  unfold insert at h
  split at h
  · exact absurd h (by simp)
  · rename_i hlen
    rw [not_ne_iff] at hlen
    refine ⟨hlen, ?_⟩
    split at h
    · rename_i i hfind
      simp only [Option.some.injEq, Prod.mk.injEq] at h
      obtain ⟨h1, h2, h3⟩ := h
      subst h1 h2 h3
      have hg := findIdxQ_getElem hfind
      exact ⟨rfl, Or.inl ⟨rfl, rfl, getElemQ_some_lt hg, hg⟩⟩
    · split at h
      · rename_i hlt
        simp only [Option.some.injEq, Prod.mk.injEq] at h
        obtain ⟨h1, h2, h3⟩ := h
        subst h1 h2 h3
        exact ⟨rfl, Or.inr ⟨rfl, rfl, hlt, rfl⟩⟩
      · exact absurd h (by simp)

theorem BlockIndex.insert_get {bi bi1 : BlockIndex} {obj : List Nat} {idx : Nat}
    {isNew : Bool} (h : bi.insert obj = some (bi1, idx, isNew)) :
    bi1.get idx = some obj := by
  obtain ⟨-, -, hc⟩ := insert_eq_some h
  rcases hc with ⟨-, rfl, hi, hg⟩ | ⟨-, rfl, -, hobj⟩
  · exact hg
  · show bi1.objects[bi.objects.length]? = some obj
    rw [hobj, List.getElem?_append, if_neg (by omega)]
    simp

theorem BlockIndex.insert_ext {bi bi1 : BlockIndex} {obj : List Nat} {idx : Nat}
    {isNew : Bool} (h : bi.insert obj = some (bi1, idx, isNew)) :
    ∃ ext, bi1.objects = bi.objects ++ ext := by
  obtain ⟨-, -, hc⟩ := insert_eq_some h
  rcases hc with ⟨-, rfl, -, -⟩ | ⟨-, -, -, hobj⟩
  · exact ⟨[], by simp⟩
  · exact ⟨[obj], hobj⟩

theorem BlockIndex.get_mono {bi bi1 : BlockIndex} {i : Nat} {o : List Nat}
    (hext : ∃ ext, bi1.objects = bi.objects ++ ext) (h : bi.get i = some o) :
    bi1.get i = some o := by
  obtain ⟨ext, he⟩ := hext
  have hlt : i < bi.objects.length := getElemQ_some_lt h
  show bi1.objects[i]? = some o
  rw [he, List.getElem?_append, if_pos hlt]
  exact h

/-- Validity of a decoder replay script: each `(id, obj)` pair names the
next dense id with a correctly sized object, ending in index `bi2`. -/
def ReplayOk : BlockIndex → List (Nat × List Nat) → BlockIndex → Prop
  | bi, [], bi2 => bi2 = bi
  | bi, t :: toks, bi2 =>
      t.1 = bi.objects.length ∧ t.1 < 2 ^ 32 ∧ t.2.length = bi.object_size ∧
        ReplayOk ⟨bi.objects ++ [t.2], bi.object_size⟩ toks bi2

theorem insertObjs_spec {objs : List (List Nat)} {bi bi2 : BlockIndex} {ids : List Nat}
    {toks : List (Nat × List Nat)} (hlen32 : bi.objects.length ≤ 2 ^ 32)
    (h : insertObjs bi objs = some (bi2, ids, toks)) :
    ids.length = objs.length ∧
      bi2.object_size = bi.object_size ∧
      bi2.objects.length ≤ 2 ^ 32 ∧
      (∃ ext, bi2.objects = bi.objects ++ ext) ∧
      (∀ p, p < objs.length →
        ids.getD p 0 < 2 ^ 32 ∧ bi2.get (ids.getD p 0) = some (objs.getD p [])) ∧
      ReplayOk bi toks bi2 := by
  induction objs generalizing bi ids toks with
  | nil =>
    simp only [insertObjs, Option.some.injEq, Prod.mk.injEq] at h
    obtain ⟨h1, h2, h3⟩ := h
    subst h1 h2 h3
    exact ⟨rfl, rfl, hlen32, ⟨[], by simp⟩, by simp, rfl⟩
  | cons obj objs ih =>
    simp only [insertObjs, Option.bind_eq_some, Option.map_eq_some'] at h
    obtain ⟨⟨bi1, idx, isNew⟩, hins, ⟨bi2x, ids2, toks2⟩, hrec, heq⟩ := h
    simp only [Prod.mk.injEq] at heq
    obtain ⟨he1, he2, he3⟩ := heq
    subst he1 he2 he3
    obtain ⟨hob, hsz, hc⟩ := BlockIndex.insert_eq_some hins
    have hlen1 : bi1.objects.length ≤ 2 ^ 32 := by
      rcases hc with ⟨-, rfl, -, -⟩ | ⟨-, hidx, hlt, hobj⟩
      · exact hlen32
      · rw [hobj, List.length_append, List.length_singleton]; omega
    obtain ⟨hlenids, hsz2, hlen2, hext2, hget2, hreplay2⟩ := ih hlen1 hrec
    have hext : ∃ ext, bi2x.objects = bi.objects ++ ext := by
      obtain ⟨e1, he1⟩ := BlockIndex.insert_ext hins
      obtain ⟨e2, he2⟩ := hext2
      exact ⟨e1 ++ e2, by rw [he2, he1, List.append_assoc]⟩
    refine ⟨by simp [hlenids], by rw [hsz2, hsz], hlen2, hext, ?_, ?_⟩
    · intro p hp
      cases p with
      | zero =>
        refine ⟨?_, ?_⟩
        · rcases hc with ⟨-, -, hi, -⟩ | ⟨-, -, hlt, -⟩
          · simpa using lt_of_lt_of_le hi hlen32
          · simpa using hlt
        · have := BlockIndex.get_mono hext2 (BlockIndex.insert_get hins)
          simpa using this
      | succ p =>
        have := hget2 p (by simpa using hp)
        simpa using this
    · rcases hc with ⟨hnew, hbi1, hi, -⟩ | ⟨hnew, hidx, hlt, hobj⟩
      · subst hnew hbi1
        simpa [ReplayOk] using hreplay2
      · subst hnew
        refine ⟨hidx, hlt, hob, ?_⟩
        have : bi1 = ⟨bi.objects ++ [obj], bi.object_size⟩ := by
          cases bi1
          simp only [BlockIndex.mk.injEq]
          exact ⟨hobj, hsz⟩
        rw [← this]
        exact hreplay2

/-! ## Block layout arithmetic -/

theorem resizeTo_length (n : Nat) (xs : List Nat) : (resizeTo n xs).length = n := by
  simp [resizeTo]
  omega

theorem overwriteAt_length {st seg : List Nat} {start : Nat}
    (h : start + seg.length ≤ st.length) :
    (overwriteAt st start seg).length = st.length := by
  simp [overwriteAt]
  omega

theorem overwriteAt_getElem_lt {st seg : List Nat} {start q : Nat}
    (hq : q < start) (hse : start + seg.length ≤ st.length) :
    (overwriteAt st start seg)[q]? = st[q]? := by
  unfold overwriteAt
  have htl : (st.take start).length = start := by
    rw [List.length_take]
    omega
  rw [List.getElem?_append, if_pos (by simp only [List.length_append, htl]; omega)]
  rw [List.getElem?_append, if_pos (by rw [htl]; omega)]
  rw [List.getElem?_take, if_pos hq]

theorem overwriteAt_getElem_in {st seg : List Nat} {start q : Nat}
    (h1 : start ≤ q) (h2 : q < start + seg.length)
    (hse : start + seg.length ≤ st.length) :
    (overwriteAt st start seg)[q]? = seg[q - start]? := by
  unfold overwriteAt
  have htl : (st.take start).length = start := by
    rw [List.length_take]
    omega
  rw [List.getElem?_append, if_pos (by simp only [List.length_append, htl]; omega)]
  rw [List.getElem?_append, if_neg (by rw [htl]; omega), htl]

theorem le_ceilDiv_mul (N m : Nat) (hm : 0 < m) : N ≤ ((N + m - 1) / m) * m := by
  rcases Nat.eq_zero_or_pos N with rfl | hN
  · simp
  · have h2 : (N + m - 1) / m = (N - 1) / m + 1 := by
      have he : N + m - 1 = (N - 1) + m := by omega
      rw [he, Nat.add_div_right _ hm]
    have h3 : N - 1 < ((N + m - 1) / m) * m := by
      rw [h2]
      exact (Nat.div_lt_iff_lt_mul hm).mp (by omega)
    omega

theorem nb_le_K_mul (N bs sbs : Nat) (hbs : 0 < bs) (hsbs : 0 < sbs) :
    (N + bs - 1) / bs ≤ ((N + bs * sbs - 1) / (bs * sbs)) * sbs := by
  have h1 : N ≤ ((N + bs * sbs - 1) / (bs * sbs)) * (bs * sbs) :=
    le_ceilDiv_mul N (bs * sbs) (by positivity)
  rw [Nat.div_le_iff_le_mul_add_pred hbs]
  have h2 : bs * (((N + bs * sbs - 1) / (bs * sbs)) * sbs)
      = ((N + bs * sbs - 1) / (bs * sbs)) * (bs * sbs) := by ring
  omega

theorem blocksOf_length (bs : Nat) (S : List Nat) :
    (blocksOf bs S).length = (S.length + bs - 1) / bs := by
  simp [blocksOf]

theorem blocksPadded_length {bs sbs : Nat} (S : List Nat) (hbs : 0 < bs) (hsbs : 0 < sbs) :
    (blocksPadded bs sbs S).length = ((S.length + bs * sbs - 1) / (bs * sbs)) * sbs := by
  have h := nb_le_K_mul S.length bs sbs hbs hsbs
  simp [blocksPadded, blocksOf]
  omega

theorem getD_eq_getElemQ {l : List Nat} {i : Nat} (h : i < l.length) :
    l[i]? = some (l.getD i 0) := by
  rw [List.getElem?_eq_getElem h, List.getD_eq_getElem l 0 h]

theorem blocksPadded_get {bs sbs : Nat} {S : List Nat} (hbs : 0 < bs) (hsbs : 0 < sbs)
    {p : Nat} (hp : p < ((S.length + bs * sbs - 1) / (bs * sbs)) * sbs) :
    ((blocksPadded bs sbs S).getD p []).length = bs ∧
      ∀ off, off < bs →
        ((blocksPadded bs sbs S).getD p [])[off]? =
          some (if p * bs + off < S.length then S.getD (p * bs + off) 0 else 0) := by
  have hnb : (blocksOf bs S).length = (S.length + bs - 1) / bs := blocksOf_length bs S
  by_cases hpnb : p < (S.length + bs - 1) / bs
  · have hget : (blocksPadded bs sbs S).getD p [] =
        padTo bs ((S.drop (p * bs)).take bs) := by
      rw [List.getD_eq_getElem?_getD, blocksPadded,
        List.getElem?_append, if_pos (by omega)]
      rw [blocksOf, List.getElem?_map]
      rw [List.getElem?_range (by omega)]
      rfl
    have hxl : ((S.drop (p * bs)).take bs).length = min bs (S.length - p * bs) := by
      simp
    have hxle : min bs (S.length - p * bs) ≤ bs := by omega
    constructor
    · rw [hget]
      simp only [padTo, List.length_append, List.length_replicate,
        List.length_take, List.length_drop]
      omega
    · intro off hoff
      rw [hget]
      unfold padTo
      by_cases hin : off < min bs (S.length - p * bs)
      · rw [List.getElem?_append, if_pos (by omega)]
        rw [List.getElem?_take, if_pos hoff, List.getElem?_drop]
        have hq : p * bs + off < S.length := by omega
        rw [getD_eq_getElemQ hq, if_pos hq]
      · rw [List.getElem?_append, if_neg (by omega)]
        rw [hxl, List.getElem?_replicate, if_pos (by omega)]
        have hq : ¬(p * bs + off < S.length) := by omega
        rw [if_neg hq]
  · have hnbN : S.length ≤ (S.length + bs - 1) / bs * bs := le_ceilDiv_mul S.length bs hbs
    have hget : (blocksPadded bs sbs S).getD p [] = List.replicate bs 0 := by
      rw [List.getD_eq_getElem?_getD, blocksPadded,
        List.getElem?_append, if_neg (by omega)]
      rw [List.getElem?_replicate, if_pos (by omega)]
      rfl
    constructor
    · rw [hget, List.length_replicate]
    · intro off hoff
      rw [hget, List.getElem?_replicate, if_pos hoff]
      have hple : (S.length + bs - 1) / bs * bs ≤ p * bs :=
        Nat.mul_le_mul_right bs (by omega)
      have hq : ¬(p * bs + off < S.length) := by omega
      rw [if_neg hq]

theorem groupIds_length (sbs k : Nat) (ids : List Nat) :
    (groupIds sbs k ids).length = k := by
  simp [groupIds]

theorem groupIds_get {sbs K : Nat} {ids : List Nat} (hlen : ids.length = K * sbs)
    {i : Nat} (hi : i < K) :
    ((groupIds sbs K ids).getD i []).length = sbs ∧
      ∀ j, j < sbs →
        ((groupIds sbs K ids).getD i [])[j]? = some (ids.getD (i * sbs + j) 0) := by
  have hget : (groupIds sbs K ids).getD i [] = (ids.drop (i * sbs)).take sbs := by
    rw [List.getD_eq_getElem?_getD, groupIds, List.getElem?_map,
      List.getElem?_range hi]
    rfl
  have hmul : (i + 1) * sbs ≤ K * sbs := Nat.mul_le_mul_right sbs (by omega)
  have hd : i * sbs + sbs = (i + 1) * sbs := by ring
  constructor
  · rw [hget]
    simp
    omega
  · intro j hj
    rw [hget, List.getElem?_take, if_pos hj, List.getElem?_drop]
    exact getD_eq_getElemQ (by omega)

/-! ## Correctness of the SuperblockSeq copy loops -/

theorem ssCopySuper_run {bindex : BlockIndex} {S : List Nat} {bs : Nat} (hbs : 0 < bs)
    {base : Nat} {idsL : List Nat} {j p0 : Nat} {st : List Nat}
    (hbase : base + j * bs = p0 * bs)
    (hst : st.length = S.length)
    (hids : ∀ m, m < idsL.length →
      ∃ blk, bindex.get (idsL.getD m 0) = some blk ∧ blk.length = bs ∧
        ∀ off, off < bs →
          blk[off]? = some (if (p0 + m) * bs + off < S.length
            then S.getD ((p0 + m) * bs + off) 0 else 0)) :
    ∃ st2, ssCopySuper bindex S.length bs base idsL j st = .ok st2 ∧
      st2.length = S.length ∧
      ∀ q, q < S.length →
        (q < p0 * bs → st2[q]? = st[q]?) ∧
        (p0 * bs ≤ q → q < (p0 + idsL.length) * bs → st2[q]? = some (S.getD q 0)) := by
  induction idsL generalizing j p0 st with
  | nil =>
    refine ⟨st, rfl, hst, ?_⟩
    intro q hq
    refine ⟨fun _ => rfl, fun hlo hhi => ?_⟩
    simp only [List.length_nil, Nat.add_zero] at hhi
    exact absurd hhi (by omega)
  | cons id ids ih =>
    obtain ⟨blk, hblk, hblen, hcontent⟩ := hids 0 (by simp)
    have hid0 : (id :: ids).getD 0 0 = id := rfl
    rw [hid0] at hblk
    simp only [Nat.add_zero] at hcontent
    by_cases hcase : S.length ≤ p0 * bs
    · -- boundary reached: break immediately, state untouched
      have hb1 : min (base + j * bs) S.length = S.length := by
        rw [hbase]; omega
      have hbreak : min (min (base + j * bs) S.length + bs) S.length
          ≤ min (base + j * bs) S.length := by
        rw [hb1]; omega
      refine ⟨st, ?_, hst, ?_⟩
      · simp only [ssCopySuper, hblk, if_pos hbreak]
      · intro q hq
        exact ⟨fun _ => rfl, fun hlo _ => absurd hlo (by omega)⟩
    · -- copy this block, then recurse
      have hb1 : min (base + j * bs) S.length = p0 * bs := by
        rw [hbase]; omega
      have hnobreak : ¬(min (min (base + j * bs) S.length + bs) S.length
          ≤ min (base + j * bs) S.length) := by
        rw [hb1]; omega
      have hnofatal : ¬(blk.length < min (min (base + j * bs) S.length + bs) S.length
          - min (base + j * bs) S.length) := by
        rw [hb1, hblen]; omega
      have hseglen : (blk.take (min (min (base + j * bs) S.length + bs) S.length
          - min (base + j * bs) S.length)).length
          = min (p0 * bs + bs) S.length - p0 * bs := by
        rw [hb1, List.length_take, hblen]
        omega
      have hstep : ssCopySuper bindex S.length bs base (id :: ids) j st
          = ssCopySuper bindex S.length bs base ids (j + 1)
            (overwriteAt st (min (base + j * bs) S.length)
              (blk.take (min (min (base + j * bs) S.length + bs) S.length
                - min (base + j * bs) S.length))) := by
        simp only [ssCopySuper, hblk, if_neg hnobreak, if_neg hnofatal]
      set st1 := overwriteAt st (min (base + j * bs) S.length)
        (blk.take (min (min (base + j * bs) S.length + bs) S.length
          - min (base + j * bs) S.length)) with hst1def
      have hst1len : st1.length = S.length := by
        rw [hst1def, overwriteAt_length]
        · exact hst
        · rw [hseglen, hb1, hst]
          omega
      have hbase2 : base + (j + 1) * bs = (p0 + 1) * bs := by
        have : base + (j + 1) * bs = base + j * bs + bs := by ring
        rw [this, hbase]
        ring
      have hids2 : ∀ m, m < ids.length →
          ∃ blk2, bindex.get (ids.getD m 0) = some blk2 ∧ blk2.length = bs ∧
            ∀ off, off < bs →
              blk2[off]? = some (if (p0 + 1 + m) * bs + off < S.length
                then S.getD ((p0 + 1 + m) * bs + off) 0 else 0) := by
        intro m hm
        obtain ⟨blk2, h1, h2, h3⟩ := hids (m + 1) (by simp; omega)
        have hidx : (id :: ids).getD (m + 1) 0 = ids.getD m 0 := rfl
        rw [hidx] at h1
        have hrw : p0 + (m + 1) = p0 + 1 + m := by omega
        rw [hrw] at h3
        exact ⟨blk2, h1, h2, h3⟩
      obtain ⟨st2, hrun, hlen2, hpt⟩ := ih hbase2 hst1len hids2
      refine ⟨st2, by rw [hstep]; exact hrun, hlen2, ?_⟩
      have hmul1 : (p0 + 1) * bs = p0 * bs + bs := by ring
      intro q hq
      constructor
      · intro hqlt
        have h1 := (hpt q hq).1 (by omega)
        rw [h1, hst1def, overwriteAt_getElem_lt]
        · rw [hb1]; exact hqlt
        · rw [hseglen, hb1, hst]
          omega
      · intro hlo hhi
        have hmul2 : (p0 + (ids.length + 1)) * bs = (p0 + 1 + ids.length) * bs := by
          ring
        by_cases hqbend : q < min (p0 * bs + bs) S.length
        · have h1 := (hpt q hq).1 (by omega)
          rw [h1, hst1def, overwriteAt_getElem_in]
          · rw [hb1, List.getElem?_take, if_pos (by omega)]
            have := hcontent (q - p0 * bs) (by omega)
            have hqi : p0 * bs + (q - p0 * bs) = q := by omega
            rw [hqi] at this
            rw [this, if_pos hq]
          · rw [hb1]; omega
          · rw [hseglen, hb1]; omega
          · rw [hseglen, hb1, hst]; omega
        · have hqge : (p0 + 1) * bs ≤ q := by omega
          have h2 := (hpt q hq).2 hqge (by
            simp only [List.length_cons] at hhi
            omega)
          exact h2

theorem ssSuperSeq_run {sindex bindex : BlockIndex} {S : List Nat} {bs sbs : Nat}
    (hbs : 0 < bs)
    {sids : List Nat} {i : Nat} {seqAcc st rest : List Nat}
    (hst : st.length = S.length)
    (hpre : ∀ q, q < S.length → q < i * (sbs * bs) → st[q]? = some (S.getD q 0))
    (hsids : ∀ m, m < sids.length →
      sids.getD m 0 < 2 ^ 32 ∧
      ∃ g, sindex.get (sids.getD m 0) = some g ∧ g.length = sbs ∧
        ∀ j, j < sbs →
          ∃ blk, bindex.get (g.getD j 0) = some blk ∧ blk.length = bs ∧
            ∀ off, off < bs →
              blk[off]? = some (if ((i + m) * sbs + j) * bs + off < S.length
                then S.getD (((i + m) * sbs + j) * bs + off) 0 else 0)) :
    ∃ st2, ssSuperSeq sindex bindex S.length bs sbs sids.length i seqAcc st
        (sids.flatMap writeUint ++ rest)
        = .ok (seqAcc.reverse ++ sids, st2, rest) ∧
      st2.length = S.length ∧
      ∀ q, q < S.length → q < (i + sids.length) * (sbs * bs) →
        st2[q]? = some (S.getD q 0) := by
  induction sids generalizing i seqAcc st with
  | nil =>
    refine ⟨st, ?_, hst, ?_⟩
    · simp [ssSuperSeq]
    · intro q hq hqlt
      simp only [List.length_nil, Nat.add_zero] at hqlt
      exact hpre q hq hqlt
  | cons sid sids ih =>
    obtain ⟨hsid32, g, hg, hglen, hgblk⟩ := hsids 0 (by simp)
    have hid0 : (sid :: sids).getD 0 0 = sid := rfl
    rw [hid0] at hsid32 hg
    simp only [Nat.add_zero] at hgblk
    -- run the copy loop for this superblock
    have hbase0 : i * (sbs * bs) + 0 * bs = (i * sbs) * bs := by ring
    have hids0 : ∀ m, m < g.length →
        ∃ blk, bindex.get (g.getD m 0) = some blk ∧ blk.length = bs ∧
          ∀ off, off < bs →
            blk[off]? = some (if (i * sbs + m) * bs + off < S.length
              then S.getD ((i * sbs + m) * bs + off) 0 else 0) :=
      fun m hm => hgblk m (by omega)
    obtain ⟨st1, hcopy, hst1len, hst1pt⟩ := ssCopySuper_run hbs hbase0 hst hids0
    have hA : (i * sbs) * bs = i * (sbs * bs) := by ring
    have hB : (i * sbs + g.length) * bs = (i + 1) * (sbs * bs) := by
      rw [hglen]; ring
    -- one step of ssSuperSeq
    have hread : readInt (2 ^ 32 - 1) (writeUint sid ++ (sids.flatMap writeUint ++ rest))
        = some (sid, sids.flatMap writeUint ++ rest) :=
      readInt_writeUint (by omega) (by omega) _
    have hstep : ssSuperSeq sindex bindex S.length bs sbs (sid :: sids).length i seqAcc st
        ((sid :: sids).flatMap writeUint ++ rest)
        = ssSuperSeq sindex bindex S.length bs sbs sids.length (i + 1) (sid :: seqAcc) st1
          (sids.flatMap writeUint ++ rest) := by
      have hflat : (sid :: sids).flatMap writeUint ++ rest
          = writeUint sid ++ (sids.flatMap writeUint ++ rest) := by
        simp [List.flatMap_cons, List.append_assoc]
      rw [hflat]
      simp only [List.length_cons, ssSuperSeq, hread, hg, hcopy]
    have hpre1 : ∀ q, q < S.length → q < (i + 1) * (sbs * bs) →
        st1[q]? = some (S.getD q 0) := by
      intro q hq hqlt
      by_cases hqi : q < i * (sbs * bs)
      · rw [(hst1pt q hq).1 (by rw [hA]; omega)]
        exact hpre q hq hqi
      · exact (hst1pt q hq).2 (by rw [hA]; omega) (by rw [hB]; omega)
    have hsids1 : ∀ m, m < sids.length →
        sids.getD m 0 < 2 ^ 32 ∧
        ∃ g2, sindex.get (sids.getD m 0) = some g2 ∧ g2.length = sbs ∧
          ∀ j, j < sbs →
            ∃ blk, bindex.get (g2.getD j 0) = some blk ∧ blk.length = bs ∧
              ∀ off, off < bs →
                blk[off]? = some (if ((i + 1 + m) * sbs + j) * bs + off < S.length
                  then S.getD (((i + 1 + m) * sbs + j) * bs + off) 0 else 0) := by
      intro m hm
      have h := hsids (m + 1) (by simp; omega)
      have hidx : (sid :: sids).getD (m + 1) 0 = sids.getD m 0 := rfl
      rw [hidx] at h
      have hrw : i + (m + 1) = i + 1 + m := by omega
      rw [hrw] at h
      exact h
    obtain ⟨st2, hrun, hlen2, hpt2⟩ := ih hst1len hpre1 hsids1
    refine ⟨st2, ?_, hlen2, ?_⟩
    · rw [hstep, hrun]
      simp [List.append_assoc]
    · intro q hq hqlt
      apply hpt2 q hq
      have hC : (i + 1 + sids.length) = i + (sid :: sids).length := by
        simp
        omega
      rw [hC]
      exact hqlt

/-! ## Decoding the encoder's token stream -/

theorem ssLoop_start {ctx : Ctx} {state_size fuel frame : Nat} {rest : List Nat}
    (hframe : frame < 2 ^ 64) :
    ssLoop ctx state_size (fuel + 1) 0 false (writeUint 0 ++ (writeUint frame ++ rest))
      = ssLoop ctx state_size fuel frame true rest := by
  have h0 : readInt 255 (writeUint 0 ++ (writeUint frame ++ rest))
      = some (0, writeUint frame ++ rest) := readInt_writeUint (by omega) (by omega) _
  have h1 : readInt 18446744073709551615 (writeUint frame ++ rest) = some (frame, rest) :=
    readInt_writeUint (by omega) hframe _
  simp [ssLoop, h0, h1]

theorem ssLoop_newBlock {ctx : Ctx} {state_size fuel frame idx : Nat} {obj rest : List Nat}
    (hsz : ctx.block_index.object_size = ctx.block_size)
    (hbs32 : ctx.block_size < 2 ^ 32)
    (hidx : idx = ctx.block_index.objects.length)
    (hidx32 : idx < 2 ^ 32)
    (holen : obj.length = ctx.block_size) :
    ssLoop ctx state_size (fuel + 1) frame true
        (writeUint 1 ++ (writeUint idx ++ (writeBin obj ++ rest)))
      = ssLoop { ctx with block_index :=
            ⟨ctx.block_index.objects ++ [obj], ctx.block_index.object_size⟩ }
          state_size fuel frame true rest := by
  have h0 : readInt 255 (writeUint 1 ++ (writeUint idx ++ (writeBin obj ++ rest)))
      = some (1, writeUint idx ++ (writeBin obj ++ rest)) :=
    readInt_writeUint (by omega) (by omega) _
  have h1 : readInt 4294967295 (writeUint idx ++ (writeBin obj ++ rest))
      = some (idx, writeBin obj ++ rest) :=
    readInt_writeUint (by omega) (by omega) _
  have h2 : readBinLen (writeBin obj ++ rest) = some (obj.length, obj ++ rest) := by
    unfold writeBin
    rw [List.append_assoc]
    exact readBinLen_writeBinLen (by omega) _
  have h3 : readBytes ctx.block_size (obj ++ rest) = some (obj, rest) :=
    readBytes_append holen _
  have hins : ctx.block_index.insert_exact idx obj
      = some (⟨ctx.block_index.objects ++ [obj], ctx.block_index.object_size⟩, true) := by
    unfold BlockIndex.insert_exact
    rw [if_neg (by rw [holen, hsz]; exact not_ne_iff.mpr rfl),
      if_neg (by omega)]
  simp [ssLoop, h0, h1, h2, h3, hins, holen]

theorem readInts_flatMap {ids : List Nat} {max : Nat}
    (hmax : ∀ x ∈ ids, x ≤ max) (h64 : ∀ x ∈ ids, x < 2 ^ 64) (rest : List Nat) :
    readInts max ids.length (ids.flatMap writeUint ++ rest) = some (ids, rest) := by
  induction ids with
  | nil => simp [readInts]
  | cons x xs ih =>
    have hx : readInt max (writeUint x ++ (xs.flatMap writeUint ++ rest))
        = some (x, xs.flatMap writeUint ++ rest) :=
      readInt_writeUint (hmax x (by simp)) (h64 x (by simp)) _
    have hxs := ih (fun y hy => hmax y (by simp [hy])) (fun y hy => h64 y (by simp [hy]))
    simp [readInts, List.flatMap_cons, List.append_assoc, hx, hxs]

theorem ssLoop_newSuperblock {ctx : Ctx} {state_size fuel frame idx : Nat}
    {elts rest : List Nat}
    (hsz : ctx.superblock_index.object_size = ctx.superblock_size)
    (hsbs32 : ctx.superblock_size < 2 ^ 32)
    (hidx : idx = ctx.superblock_index.objects.length)
    (hidx32 : idx < 2 ^ 32)
    (helen : elts.length = ctx.superblock_size)
    (helts : ∀ x ∈ elts, x < 2 ^ 32) :
    ssLoop ctx state_size (fuel + 1) frame true
        (writeUint 2 ++ (writeUint idx ++ (writeArrayLen ctx.superblock_size
          ++ (elts.flatMap writeUint ++ rest))))
      = ssLoop { ctx with superblock_index :=
            ⟨ctx.superblock_index.objects ++ [elts], ctx.superblock_index.object_size⟩ }
          state_size fuel frame true rest := by
  have h0 : readInt 255 (writeUint 2 ++ (writeUint idx ++ (writeArrayLen ctx.superblock_size
      ++ (elts.flatMap writeUint ++ rest))))
      = some (2, writeUint idx ++ (writeArrayLen ctx.superblock_size
        ++ (elts.flatMap writeUint ++ rest))) :=
    readInt_writeUint (by omega) (by omega) _
  have h1 : readInt 4294967295 (writeUint idx ++ (writeArrayLen ctx.superblock_size
      ++ (elts.flatMap writeUint ++ rest)))
      = some (idx, writeArrayLen ctx.superblock_size ++ (elts.flatMap writeUint ++ rest)) :=
    readInt_writeUint (by omega) (by omega) _
  have h2 : readArrayLen (writeArrayLen ctx.superblock_size
      ++ (elts.flatMap writeUint ++ rest))
      = some (ctx.superblock_size, elts.flatMap writeUint ++ rest) :=
    readArrayLen_writeArrayLen (by omega) _
  have h3 : readInts 4294967295 ctx.superblock_size (elts.flatMap writeUint ++ rest)
      = some (elts, rest) := by
    rw [← helen]
    exact readInts_flatMap (fun x hx => by have := helts x hx; omega)
      (fun x hx => by have := helts x hx; omega) _
  have hins : ctx.superblock_index.insert_exact idx elts
      = some (⟨ctx.superblock_index.objects ++ [elts],
          ctx.superblock_index.object_size⟩, true) := by
    unfold BlockIndex.insert_exact
    rw [if_neg (by rw [helen, hsz]; exact not_ne_iff.mpr rfl),
      if_neg (by omega)]
  simp [ssLoop, h0, h1, h2, h3, hins]

theorem insertObjs_toks_sub {objs : List (List Nat)} {bi bi2 : BlockIndex}
    {ids : List Nat} {toks : List (Nat × List Nat)}
    (h : insertObjs bi objs = some (bi2, ids, toks)) :
    ∀ t ∈ toks, t.2 ∈ objs := by
  induction objs generalizing bi ids toks with
  | nil =>
    simp only [insertObjs, Option.some.injEq, Prod.mk.injEq] at h
    obtain ⟨-, -, h3⟩ := h
    subst h3
    simp
  | cons obj objs ih =>
    simp only [insertObjs, Option.bind_eq_some, Option.map_eq_some'] at h
    obtain ⟨⟨bi1, idx, isNew⟩, hins, ⟨bi2x, ids2, toks2⟩, hrec, heq⟩ := h
    simp only [Prod.mk.injEq] at heq
    obtain ⟨he1, he2, he3⟩ := heq
    subst he1 he2 he3
    intro t ht
    have ht2 : t ∈ toks2 ∨ t = (idx, obj) := by
      by_cases hn : isNew = true
      · rw [if_pos hn] at ht
        rcases List.mem_cons.mp ht with h | h
        · exact Or.inr h
        · exact Or.inl h
      · rw [if_neg hn] at ht
        exact Or.inl ht
    rcases ht2 with h | rfl
    · exact List.mem_cons_of_mem _ (ih hrec t h)
    · simp

theorem insertObjs_ids_lt {objs : List (List Nat)} {bi bi2 : BlockIndex}
    {ids : List Nat} {toks : List (Nat × List Nat)}
    (hlen32 : bi.objects.length ≤ 2 ^ 32)
    (h : insertObjs bi objs = some (bi2, ids, toks)) :
    ∀ x ∈ ids, x < 2 ^ 32 := by
  induction objs generalizing bi ids toks with
  | nil =>
    simp only [insertObjs, Option.some.injEq, Prod.mk.injEq] at h
    obtain ⟨-, h2, -⟩ := h
    subst h2
    simp
  | cons obj objs ih =>
    simp only [insertObjs, Option.bind_eq_some, Option.map_eq_some'] at h
    obtain ⟨⟨bi1, idx, isNew⟩, hins, ⟨bi2x, ids2, toks2⟩, hrec, heq⟩ := h
    simp only [Prod.mk.injEq] at heq
    obtain ⟨he1, he2, he3⟩ := heq
    subst he1 he2 he3
    obtain ⟨-, -, hc⟩ := BlockIndex.insert_eq_some hins
    have hlen1 : bi1.objects.length ≤ 2 ^ 32 := by
      rcases hc with ⟨-, rfl, -, -⟩ | ⟨-, hidx, hlt, hobj⟩
      · exact hlen32
      · rw [hobj, List.length_append, List.length_singleton]
        omega
    intro x hx
    simp only [List.mem_cons] at hx
    rcases hx with rfl | hx
    · rcases hc with ⟨-, -, hi, -⟩ | ⟨-, -, hlt, -⟩
      · omega
      · exact hlt
    · exact ih hlen1 hrec x hx

theorem ssLoop_newBlocks {toks : List (Nat × List Nat)} {ctx : Ctx}
    {state_size frame : Nat} {bi2 : BlockIndex} {rest : List Nat}
    (hsz : ctx.block_index.object_size = ctx.block_size)
    (hbs32 : ctx.block_size < 2 ^ 32)
    (hreplay : ReplayOk ctx.block_index toks bi2) :
    ∀ fuel, ssLoop ctx state_size (toks.length + fuel) frame true
        (newBlockTokenBytes toks ++ rest)
      = ssLoop { ctx with block_index := bi2 } state_size fuel frame true rest := by
  induction toks generalizing ctx with
  | nil =>
    intro fuel
    simp only [ReplayOk] at hreplay
    subst hreplay
    simp [newBlockTokenBytes]
  | cons t toks ih =>
    intro fuel
    obtain ⟨hidx, hidx32, hlen, hrep⟩ := hreplay
    have hbytes : newBlockTokenBytes (t :: toks) ++ rest
        = writeUint 1 ++ (writeUint t.1 ++ (writeBin t.2
          ++ (newBlockTokenBytes toks ++ rest))) := by
      simp [newBlockTokenBytes, List.flatMap_cons, List.append_assoc]
    have hflen : (t :: toks).length + fuel = (toks.length + fuel) + 1 := by
      simp only [List.length_cons]
      omega
    rw [hbytes, hflen, ssLoop_newBlock hsz hbs32 hidx hidx32 (hlen.trans hsz)]
    exact @ih { ctx with block_index :=
      ⟨ctx.block_index.objects ++ [t.2], ctx.block_index.object_size⟩ } hsz hbs32 hrep fuel

theorem ssLoop_newSuperblocks {toks : List (Nat × List Nat)} {ctx : Ctx}
    {state_size frame : Nat} {si2 : BlockIndex} {rest : List Nat}
    (hsz : ctx.superblock_index.object_size = ctx.superblock_size)
    (hsbs32 : ctx.superblock_size < 2 ^ 32)
    (helts : ∀ t ∈ toks, ∀ x ∈ t.2, x < 2 ^ 32)
    (hreplay : ReplayOk ctx.superblock_index toks si2) :
    ∀ fuel, ssLoop ctx state_size (toks.length + fuel) frame true
        (newSuperblockTokenBytes toks ++ rest)
      = ssLoop { ctx with superblock_index := si2 } state_size fuel frame true rest := by
  induction toks generalizing ctx with
  | nil =>
    intro fuel
    simp only [ReplayOk] at hreplay
    subst hreplay
    simp [newSuperblockTokenBytes]
  | cons t toks ih =>
    intro fuel
    obtain ⟨hidx, hidx32, hlen, hrep⟩ := hreplay
    have hbytes : newSuperblockTokenBytes (t :: toks) ++ rest
        = writeUint 2 ++ (writeUint t.1 ++ (writeArrayLen ctx.superblock_size
          ++ (t.2.flatMap writeUint ++ (newSuperblockTokenBytes toks ++ rest)))) := by
      simp [newSuperblockTokenBytes, List.flatMap_cons, List.append_assoc,
        hlen.trans hsz]
    have hflen : (t :: toks).length + fuel = (toks.length + fuel) + 1 := by
      simp only [List.length_cons]
      omega
    rw [hbytes, hflen, ssLoop_newSuperblock hsz hsbs32 hidx hidx32 (hlen.trans hsz)
      (helts t (by simp))]
    exact @ih { ctx with superblock_index :=
        ⟨ctx.superblock_index.objects ++ [t.2], ctx.superblock_index.object_size⟩ }
      hsz hsbs32 (fun t2 ht2 => helts t2 (by simp [ht2])) hrep fuel

theorem ssLoop_superSeq {ctx : Ctx} {S : List Nat} {fuel frame : Nat} {sids rest : List Nat}
    (hbs : 0 < ctx.block_size)
    (hK32 : sids.length < 2 ^ 32)
    (hsids : ∀ m, m < sids.length →
      sids.getD m 0 < 2 ^ 32 ∧
      ∃ g, ctx.superblock_index.get (sids.getD m 0) = some g ∧
        g.length = ctx.superblock_size ∧
        ∀ j, j < ctx.superblock_size →
          ∃ blk, ctx.block_index.get (g.getD j 0) = some blk ∧
            blk.length = ctx.block_size ∧
            ∀ off, off < ctx.block_size →
              blk[off]? = some (if (m * ctx.superblock_size + j) * ctx.block_size + off
                  < S.length
                then S.getD ((m * ctx.superblock_size + j) * ctx.block_size + off) 0
                else 0))
    (hcover : S.length ≤ sids.length * (ctx.superblock_size * ctx.block_size)) :
    ssLoop ctx S.length (fuel + 1) frame true (superSeqBytes sids ++ rest)
      = .ok ({ ctx with last_state := S, last_superseq := sids }, rest) := by
  have hsids0 : ∀ m, m < sids.length →
      sids.getD m 0 < 2 ^ 32 ∧
      ∃ g, ctx.superblock_index.get (sids.getD m 0) = some g ∧
        g.length = ctx.superblock_size ∧
        ∀ j, j < ctx.superblock_size →
          ∃ blk, ctx.block_index.get (g.getD j 0) = some blk ∧
            blk.length = ctx.block_size ∧
            ∀ off, off < ctx.block_size →
              blk[off]? = some (if ((0 + m) * ctx.superblock_size + j) * ctx.block_size + off
                  < S.length
                then S.getD (((0 + m) * ctx.superblock_size + j) * ctx.block_size + off) 0
                else 0) := by
    intro m hm
    have h := hsids m hm
    simpa only [Nat.zero_add] using h
  obtain ⟨st2, hrun, hst2len, hst2pt⟩ := @ssSuperSeq_run
    ctx.superblock_index ctx.block_index S ctx.block_size ctx.superblock_size hbs
    sids 0 [] (resizeTo S.length ctx.last_state) rest
    (resizeTo_length S.length ctx.last_state)
    (fun q hq hq0 => absurd hq0 (by simp)) hsids0
  have hst2S : st2 = S := by
    apply List.ext_getElem?
    intro q
    by_cases hq : q < S.length
    · rw [hst2pt q hq (by simp only [Nat.zero_add]; omega)]
      rw [getD_eq_getElemQ hq]
    · rw [List.getElem?_eq_none (by omega), List.getElem?_eq_none (by omega)]
  have h0 : readInt 255 (writeUint 3 ++ (writeArrayLen sids.length
      ++ (sids.flatMap writeUint ++ rest)))
      = some (3, writeArrayLen sids.length ++ (sids.flatMap writeUint ++ rest)) :=
    readInt_writeUint (by omega) (by omega) _
  have h2 : readArrayLen (writeArrayLen sids.length ++ (sids.flatMap writeUint ++ rest))
      = some (sids.length, sids.flatMap writeUint ++ rest) :=
    readArrayLen_writeArrayLen (by omega) _
  have hbytes : superSeqBytes sids ++ rest
      = writeUint 3 ++ (writeArrayLen sids.length ++ (sids.flatMap writeUint ++ rest)) := by
    simp [superSeqBytes, List.append_assoc]
  rw [hbytes]
  simp only [ssLoop, h0, h2]
  rw [hst2S] at hrun
  simp [hrun]

theorem writeUint_length_pos (n : Nat) : 0 < (writeUint n).length := by
  unfold writeUint
  split_ifs <;> simp [toBE_length]

theorem newBlockTokenBytes_length_ge (toks : List (Nat × List Nat)) :
    toks.length ≤ (newBlockTokenBytes toks).length := by
  induction toks with
  | nil => simp [newBlockTokenBytes]
  | cons t toks ih =>
    have h1 := writeUint_length_pos 1
    simp only [newBlockTokenBytes, List.flatMap_cons, List.length_append,
      List.length_cons] at ih ⊢
    omega

theorem newSuperblockTokenBytes_length_ge (toks : List (Nat × List Nat)) :
    toks.length ≤ (newSuperblockTokenBytes toks).length := by
  induction toks with
  | nil => simp [newSuperblockTokenBytes]
  | cons t toks ih =>
    have h1 := writeUint_length_pos 2
    simp only [newSuperblockTokenBytes, List.flatMap_cons, List.length_append,
      List.length_cons] at ih ⊢
    omega

theorem superSeqBytes_length_pos (sids : List Nat) : 0 < (superSeqBytes sids).length := by
  have h1 := writeUint_length_pos 3
  simp only [superSeqBytes, List.length_append]
  omega

/-- Core round-trip: state-stream decoding inverts the (spec-modelled)
state-stream encoding whenever the decoder's context carries the same
sizes and the same block/superblock indices as the encoder's context. -/
theorem ssRoundtrip {ctxE ctxE2 : Ctx} {ls lq S bytes rest : List Nat} {frame : Nat}
    (hbs : 0 < ctxE.block_size) (hsbs : 0 < ctxE.superblock_size)
    (hszb : ctxE.block_index.object_size = ctxE.block_size)
    (hszs : ctxE.superblock_index.object_size = ctxE.superblock_size)
    (hlenb : ctxE.block_index.objects.length ≤ 2 ^ 32)
    (hlens : ctxE.superblock_index.objects.length ≤ 2 ^ 32)
    (henc : encodeCheckpointSS ctxE S frame = some (ctxE2, bytes)) :
    ssDecode (Ctx.mk ctxE.block_size ctxE.superblock_size ls lq
        ctxE.block_index ctxE.superblock_index) S.length (bytes ++ rest)
      = .ok (Ctx.mk ctxE.block_size ctxE.superblock_size S ctxE2.last_superseq
          ctxE2.block_index ctxE2.superblock_index, rest) := by
  simp only [encodeCheckpointSS] at henc
  split at henc
  case isFalse => exact absurd henc (by simp)
  case isTrue hguard =>
    obtain ⟨hframe, hbs32, hsbs32, hK32⟩ := hguard
    simp only [Option.bind_eq_some] at henc
    obtain ⟨⟨bi2, ids, btoks⟩, hrb, ⟨si2, sids, stoks⟩, hrs, henc2⟩ := henc
    split at henc2
    case isFalse => exact absurd henc2 (by simp)
    case isTrue hblen =>
    simp only [Option.some.injEq, Prod.mk.injEq] at henc2
    obtain ⟨hctxE2, hbytes⟩ := henc2
    obtain ⟨hidsLen, hszb2, hlenb2, hextb, hgetb, hrepb⟩ := insertObjs_spec hlenb hrb
    obtain ⟨hsidsLen, hszs2, hlens2, hexts, hgets, hreps⟩ := insertObjs_spec hlens hrs
    have hidsLenK : ids.length
        = ((S.length + ctxE.block_size * ctxE.superblock_size - 1)
          / (ctxE.block_size * ctxE.superblock_size)) * ctxE.superblock_size := by
      rw [hidsLen, blocksPadded_length S hbs hsbs]
    have hsidsLenK : sids.length
        = (S.length + ctxE.block_size * ctxE.superblock_size - 1)
          / (ctxE.block_size * ctxE.superblock_size) := by
      rw [hsidsLen, groupIds_length]
    have hidslt := insertObjs_ids_lt hlenb hrb
    have hstoks_sub := insertObjs_toks_sub hrs
    have helts : ∀ t ∈ stoks, ∀ x ∈ t.2, x < 2 ^ 32 := by
      intro t ht x hx
      have hmem : t.2 ∈ groupIds ctxE.superblock_size
          ((S.length + ctxE.block_size * ctxE.superblock_size - 1)
            / (ctxE.block_size * ctxE.superblock_size)) ids := hstoks_sub t ht
      simp only [groupIds, List.mem_map, List.mem_range] at hmem
      obtain ⟨i, hi, hti⟩ := hmem
      rw [← hti] at hx
      exact hidslt x (List.mem_of_mem_drop (List.mem_of_mem_take hx))
    -- decoder context after replaying the new blocks and superblocks
    have hrepbD : ReplayOk (Ctx.mk ctxE.block_size ctxE.superblock_size ls lq
        ctxE.block_index ctxE.superblock_index).block_index btoks bi2 := hrepb
    have hrepsD : ReplayOk ctxE.superblock_index stoks si2 := hreps
    -- fuel decomposition
    have hlen0 := writeUint_length_pos 0
    have hlenf := writeUint_length_pos frame
    have hlennb := newBlockTokenBytes_length_ge btoks
    have hlennsb := newSuperblockTokenBytes_length_ge stoks
    have hlenseq := superSeqBytes_length_pos sids
    have hbyteslen : btoks.length + stoks.length + 3 ≤ bytes.length := by
      rw [← hbytes]
      simp only [List.length_append]
      omega
    obtain ⟨f3, hf3⟩ : ∃ f3, (bytes ++ rest).length + 1
        = (btoks.length + (stoks.length + (f3 + 1))) + 1 := by
      refine ⟨(bytes ++ rest).length - btoks.length - stoks.length - 1, ?_⟩
      simp only [List.length_append]
      omega
    have hassoc : bytes ++ rest
        = writeUint 0 ++ (writeUint frame ++ (newBlockTokenBytes btoks
          ++ (newSuperblockTokenBytes stoks ++ (superSeqBytes sids ++ rest)))) := by
      rw [← hbytes]
      simp [List.append_assoc]
    -- the superblock-sequence hypotheses, phrased directly in encoder terms
    have hseqhyp : ∀ m, m < sids.length →
        sids.getD m 0 < 2 ^ 32 ∧
        ∃ g, si2.get (sids.getD m 0) = some g ∧ g.length = ctxE.superblock_size ∧
          ∀ j, j < ctxE.superblock_size →
            ∃ blk, bi2.get (g.getD j 0) = some blk ∧ blk.length = ctxE.block_size ∧
              ∀ off, off < ctxE.block_size →
                blk[off]? = some (if (m * ctxE.superblock_size + j) * ctxE.block_size + off
                    < S.length
                  then S.getD ((m * ctxE.superblock_size + j) * ctxE.block_size + off) 0
                  else 0) := by
      intro m hm
      have hmK : m < (groupIds ctxE.superblock_size
          ((S.length + ctxE.block_size * ctxE.superblock_size - 1)
            / (ctxE.block_size * ctxE.superblock_size)) ids).length := by
        rw [groupIds_length]
        omega
      obtain ⟨hsid32, hsget⟩ := hgets m hmK
      have hmK2 : m < (S.length + ctxE.block_size * ctxE.superblock_size - 1)
          / (ctxE.block_size * ctxE.superblock_size) := by omega
      refine ⟨hsid32, (groupIds ctxE.superblock_size
        ((S.length + ctxE.block_size * ctxE.superblock_size - 1)
          / (ctxE.block_size * ctxE.superblock_size)) ids).getD m [], hsget, ?_, ?_⟩
      · exact (groupIds_get hidsLenK hmK2).1
      · intro j hj
        have hgj := (groupIds_get hidsLenK hmK2).2 j hj
        have hgD : ((groupIds ctxE.superblock_size
            ((S.length + ctxE.block_size * ctxE.superblock_size - 1)
              / (ctxE.block_size * ctxE.superblock_size)) ids).getD m []).getD j 0
            = ids.getD (m * ctxE.superblock_size + j) 0 := by
          rw [List.getD_eq_getElem?_getD, hgj]
          rfl
        have hmul : (m + 1) * ctxE.superblock_size
            ≤ ((S.length + ctxE.block_size * ctxE.superblock_size - 1)
              / (ctxE.block_size * ctxE.superblock_size)) * ctxE.superblock_size :=
          Nat.mul_le_mul_right _ (by omega)
        have hmul2 : (m + 1) * ctxE.superblock_size
            = m * ctxE.superblock_size + ctxE.superblock_size := by ring
        have hp : m * ctxE.superblock_size + j
            < (blocksPadded ctxE.block_size ctxE.superblock_size S).length := by
          rw [blocksPadded_length S hbs hsbs]
          omega
        obtain ⟨hblt, hbget⟩ := hgetb (m * ctxE.superblock_size + j) hp
        obtain ⟨hblkLen, hblkGet⟩ := blocksPadded_get hbs hsbs
          (show m * ctxE.superblock_size + j < _ by
            rw [← blocksPadded_length S hbs hsbs]; exact hp)
        refine ⟨(blocksPadded ctxE.block_size ctxE.superblock_size S).getD
          (m * ctxE.superblock_size + j) [], ?_, hblkLen, hblkGet⟩
        rw [hgD]
        exact hbget
    have hcover : S.length ≤ sids.length * (ctxE.superblock_size * ctxE.block_size) := by
      have hc := le_ceilDiv_mul S.length
        (ctxE.block_size * ctxE.superblock_size) (by positivity)
      have hcomm : sids.length * (ctxE.superblock_size * ctxE.block_size)
          = ((S.length + ctxE.block_size * ctxE.superblock_size - 1)
            / (ctxE.block_size * ctxE.superblock_size))
            * (ctxE.block_size * ctxE.superblock_size) := by
        rw [hsidsLenK]
        ring
      omega
    subst hctxE2
    -- the four decode phases
    rw [ssDecode, hf3]
    conv =>
      lhs
      rw [hassoc]
    calc ssLoop (Ctx.mk ctxE.block_size ctxE.superblock_size ls lq
            ctxE.block_index ctxE.superblock_index) S.length
          ((btoks.length + (stoks.length + (f3 + 1))) + 1) 0 false
          (writeUint 0 ++ (writeUint frame ++ (newBlockTokenBytes btoks
            ++ (newSuperblockTokenBytes stoks ++ (superSeqBytes sids ++ rest)))))
        = ssLoop (Ctx.mk ctxE.block_size ctxE.superblock_size ls lq
            ctxE.block_index ctxE.superblock_index) S.length
            (btoks.length + (stoks.length + (f3 + 1))) frame true
            (newBlockTokenBytes btoks
              ++ (newSuperblockTokenBytes stoks ++ (superSeqBytes sids ++ rest))) :=
          ssLoop_start hframe
      _ = ssLoop (Ctx.mk ctxE.block_size ctxE.superblock_size ls lq
            bi2 ctxE.superblock_index) S.length
            (stoks.length + (f3 + 1)) frame true
            (newSuperblockTokenBytes stoks ++ (superSeqBytes sids ++ rest)) :=
          @ssLoop_newBlocks btoks
            (Ctx.mk ctxE.block_size ctxE.superblock_size ls lq
              ctxE.block_index ctxE.superblock_index) S.length frame bi2
            (newSuperblockTokenBytes stoks ++ (superSeqBytes sids ++ rest))
            hszb hbs32 hrepb (stoks.length + (f3 + 1))
      _ = ssLoop (Ctx.mk ctxE.block_size ctxE.superblock_size ls lq
            bi2 si2) S.length (f3 + 1) frame true
            (superSeqBytes sids ++ rest) :=
          @ssLoop_newSuperblocks stoks
            (Ctx.mk ctxE.block_size ctxE.superblock_size ls lq
              bi2 ctxE.superblock_index) S.length frame si2
            (superSeqBytes sids ++ rest)
            hszs hsbs32 helts hreps (f3 + 1)
      _ = .ok (Ctx.mk ctxE.block_size ctxE.superblock_size S sids bi2 si2, rest) :=
          @ssLoop_superSeq
            (Ctx.mk ctxE.block_size ctxE.superblock_size ls lq bi2 si2) S f3 frame
            sids rest hbs (by omega) (by exact hseqhyp) (by exact hcover)

/-! ## Length preservation in the decoder -/

theorem ssCopySuper_ok_length {bindex : BlockIndex} {state_size bs base : Nat} :
    ∀ {idsL : List Nat} {j : Nat} {st st2 : List Nat},
    st.length = state_size →
    ssCopySuper bindex state_size bs base idsL j st = .ok st2 →
    st2.length = state_size := by
  intro idsL
  induction idsL with
  | nil =>
    intro j st st2 hst h
    simp only [ssCopySuper, Except.ok.injEq] at h
    rw [← h]
    exact hst
  | cons id ids ih =>
    intro j st st2 hst h
    simp only [ssCopySuper] at h
    split at h
    · exact absurd h (by simp)
    · rename_i bytes hbytes
      split at h
      · simp only [Except.ok.injEq] at h
        rw [← h]
        exact hst
      · split at h
        · exact absurd h (by simp)
        · rename_i hbrk hfat
          refine ih ?_ h
          rw [overwriteAt_length]
          · exact hst
          · rw [List.length_take]
            omega

theorem ssSuperSeq_ok_length {sindex bindex : BlockIndex} {state_size bs sbs : Nat} :
    ∀ {k i : Nat} {seqAcc st input : List Nat} {seq st2 rem : List Nat},
    st.length = state_size →
    ssSuperSeq sindex bindex state_size bs sbs k i seqAcc st input = .ok (seq, st2, rem) →
    st2.length = state_size := by
  intro k
  induction k with
  | zero =>
    intro i seqAcc st input seq st2 rem hst h
    simp only [ssSuperSeq, Except.ok.injEq, Prod.mk.injEq] at h
    rw [← h.2.1]
    exact hst
  | succ k ih =>
    intro i seqAcc st input seq st2 rem hst h
    simp only [ssSuperSeq] at h
    split at h
    · exact absurd h (by simp)
    · split at h
      · exact absurd h (by simp)
      · split at h
        · exact absurd h (by simp)
        · rename_i st1 hcopy
          exact ih (ssCopySuper_ok_length hst hcopy) h

theorem ssLoop_ok_length {fuel : Nat} :
    ∀ {ctx : Ctx} {state_size frame : Nat} {started : Bool} {input : List Nat}
      {ctx2 : Ctx} {rem : List Nat},
    ssLoop ctx state_size fuel frame started input = .ok (ctx2, rem) →
    ctx2.last_state.length = state_size := by
  induction fuel with
  | zero =>
    intro ctx state_size frame started input ctx2 rem h
    exact absurd h (by simp [ssLoop])
  | succ fuel ih =>
    intro ctx state_size frame started input ctx2 rem h
    simp only [ssLoop] at h
    split at h
    · exact absurd h (by simp)
    · split at h
      · split at h
        · exact absurd h (by simp)
        · split at h
          · exact absurd h (by simp)
          · exact ih h
      · split at h
        · split at h
          · exact absurd h (by simp)
          · split at h
            · exact absurd h (by simp)
            · split at h
              · exact absurd h (by simp)
              · split at h
                · exact absurd h (by simp)
                · split at h
                  · exact absurd h (by simp)
                  · split at h
                    · exact absurd h (by simp)
                    · split at h
                      · exact ih h
                      · exact absurd h (by simp)
        · split at h
          · split at h
            · exact absurd h (by simp)
            · split at h
              · exact absurd h (by simp)
              · split at h
                · exact absurd h (by simp)
                · split at h
                  · exact absurd h (by simp)
                  · split at h
                    · exact absurd h (by simp)
                    · split at h
                      · exact absurd h (by simp)
                      · split at h
                        · exact ih h
                        · exact absurd h (by simp)
          · split at h
            · split at h
              · exact absurd h (by simp)
              · split at h
                · exact absurd h (by simp)
                · split at h
                  · exact absurd h (by simp)
                  · rename_i s1 s2 s3 hseq
                    simp only [Except.ok.injEq, Prod.mk.injEq] at h
                    rw [← h.1]
                    exact ssSuperSeq_ok_length
                      (resizeTo_length state_size ctx.last_state) hseq
            · exact absurd h (by simp)

/-! ## Claims about the BlockIndex and the state-stream codec -/

/-- C3 counterexample: with a well-aligned id but a wrongly sized object
(`BlockIndex::new(2)`, `insert_exact(1, [5])` where the current length is
1 = expected id but `obj.len() = 1 ≠ 2 = object_size`), the claim predicts
a `false` return; the code instead hits the
`assert_eq!(obj.len(), self.object_size)` panic (modelled `none`), so no
boolean is returned at all. -/
theorem claim_C3_counterexample :
    (BlockIndex.new 2).insert_exact 1 [5] = none ∧
    (BlockIndex.new 2).objects.length = 1 := by
  decide

/-- C3 (amended): `insert_exact` returns `false` exactly when the current
number of stored objects differs from `expected_id` (given a correctly
sized object); it appends without deduplication and returns `true`
otherwise; a wrongly sized object is a fatal assertion (panic), not a
`false` return. -/
theorem claim_C3_insert_exact {bi : BlockIndex} {idx : Nat} {obj : List Nat}
    (hlen : obj.length = bi.object_size) :
    (bi.objects.length ≠ idx → bi.insert_exact idx obj = some (bi, false)) ∧
    (bi.objects.length = idx →
      bi.insert_exact idx obj = some (⟨bi.objects ++ [obj], bi.object_size⟩, true)) ∧
    (∀ obj2 : List Nat, obj2.length ≠ bi.object_size → bi.insert_exact idx obj2 = none) := by
  refine ⟨?_, ?_, ?_⟩
  · intro hne
    unfold BlockIndex.insert_exact
    rw [if_neg (by rw [hlen]; exact not_ne_iff.mpr rfl), if_pos hne]
  · intro heq
    unfold BlockIndex.insert_exact
    rw [if_neg (by rw [hlen]; exact not_ne_iff.mpr rfl),
      if_neg (by rw [heq]; exact not_ne_iff.mpr rfl)]
  · intro obj2 hne
    unfold BlockIndex.insert_exact
    rw [if_pos hne]

/-- Witness for C3 at concrete inputs: a fresh index of object size 1,
one aligned append (`true`), one misaligned call (`false`). -/
theorem claim_C3_witness :
    (BlockIndex.new 1).insert_exact 1 [4]
        = some (⟨[[0], [4]], 1⟩, true) ∧
    (BlockIndex.new 1).insert_exact 0 [4] = some (BlockIndex.new 1, false) := by
  constructor
  · exact (claim_C3_insert_exact (by decide)).2.1 (by decide)
  · exact (claim_C3_insert_exact (by decide)).1 (by decide)

/-- C8: in every `BlockIndex` reachable from `new` by any sequence of
`insert`, `insert_exact`, and `clear` operations (this covers both the
byte-block index and the superblock index, which are the same structure
at different object sizes), ID 0 still denotes the all-zero object of
`object_size` elements. -/
theorem claim_C8_zero_invariant {sz : Nat} {ops : List BOp} {bi2 : BlockIndex}
    (h : (BlockIndex.new sz).applyOps ops = some bi2) :
    bi2.get 0 = some (List.replicate sz 0) := by
  have hhead : (BlockIndex.new sz).objects.head? = some (List.replicate sz 0) := rfl
  have h2 := BlockIndex.applyOps_head hhead h
  unfold BlockIndex.get
  cases ho : bi2.objects with
  | nil => rw [ho] at h2; simp at h2
  | cons x xs =>
    rw [ho] at h2
    simp only [List.head?_cons, Option.some.injEq] at h2
    simp [h2]

/-- Witness for C8: a concrete operation sequence (insert, exact insert,
clear, insert) still leaves the all-zero object at ID 0. -/
theorem claim_C8_witness :
    (BlockIndex.new 1).applyOps [.ins [5], .insx 2 [7], .clr, .ins [9]]
        = some ⟨[[0], [9]], 1⟩ ∧
    (⟨[[0], [9]], 1⟩ : BlockIndex).get 0 = some (List.replicate 1 0) :=
  ⟨by decide, @claim_C8_zero_invariant 1 [.ins [5], .insx 2 [7], .clr, .ins [9]]
    ⟨[[0], [9]], 1⟩ (by decide)⟩

/-- C2: state-stream encode (spec-modelled, the source body is `todo!()`)
then state-stream decode from a fresh context with the same block and
superblock sizes and `state_size = S.length` reads out exactly `S`. -/
theorem claim_C2_statestream_roundtrip {bs sbs frame : Nat} {S bytes rest : List Nat}
    {ctxE2 : Ctx} (hbs : 0 < bs) (hsbs : 0 < sbs)
    (henc : encodeCheckpointSS (Ctx.new bs sbs) S frame = some (ctxE2, bytes)) :
    ∃ ctxD2, ssDecode (Ctx.new bs sbs) S.length (bytes ++ rest) = .ok (ctxD2, rest) ∧
      ctxD2.last_state = S := by
  have h := @ssRoundtrip (Ctx.new bs sbs) ctxE2 [] [] S bytes rest frame hbs hsbs rfl rfl
    (show (1 : Nat) ≤ 2 ^ 32 by norm_num) (show (1 : Nat) ≤ 2 ^ 32 by norm_num) henc
  exact ⟨_, h, rfl⟩

/-- Witness for C2: the three-byte state `[1, 2, 3]` with block size 2 and
superblock size 2 goes through the state-stream codec unchanged. -/
theorem claim_C2_witness :
    ∃ ctxD2, ssDecode (Ctx.new 2 2) ([1, 2, 3] : List Nat).length
        ([0, 0, 1, 1, 196, 2, 1, 2, 1, 2, 196, 2, 3, 0, 2, 1, 146, 1, 2, 3, 145, 1]
          ++ [9]) = .ok (ctxD2, [9]) ∧
      ctxD2.last_state = [1, 2, 3] :=
  @claim_C2_statestream_roundtrip 2 2 0 [1, 2, 3]
    [0, 0, 1, 1, 196, 2, 1, 2, 1, 2, 196, 2, 3, 0, 2, 1, 146, 1, 2, 3, 145, 1] [9]
    (Ctx.mk 2 2 [] [1] ⟨[[0, 0], [1, 2], [3, 0]], 2⟩ ⟨[[0, 0], [1, 2]], 2⟩)
    (by decide) (by decide) (by decide)

/-- C7: the decoder's `SuperblockSeq` processing always fills `last_state`
with exactly `state_size` bytes (first conjunct, for every successful
decode of any input); and for state sizes that are not multiples of the
block or superblock granularity, encode-then-decode still reproduces
exactly the original bytes, the trailing padding being discarded (second
conjunct). -/
theorem claim_C7_boundary :
    (∀ (ctx : Ctx) (state_size : Nat) (input : List Nat) (ctx2 : Ctx) (rem : List Nat),
      ssDecode ctx state_size input = .ok (ctx2, rem) →
      ctx2.last_state.length = state_size) ∧
    (∀ (bs sbs frame : Nat) (S bytes rest : List Nat) (ctxE2 : Ctx),
      0 < bs → 0 < sbs →
      (¬ bs ∣ S.length ∨ ¬ (bs * sbs) ∣ S.length) →
      encodeCheckpointSS (Ctx.new bs sbs) S frame = some (ctxE2, bytes) →
      ∃ ctxD2, ssDecode (Ctx.new bs sbs) S.length (bytes ++ rest) = .ok (ctxD2, rest) ∧
        ctxD2.last_state = S) := by
  constructor
  · intro ctx ss input ctx2 rem h
    exact ssLoop_ok_length h
  · intro bs sbs frame S bytes rest ctxE2 hbs hsbs hnm henc
    have h := @ssRoundtrip (Ctx.new bs sbs) ctxE2 [] [] S bytes rest frame hbs hsbs rfl rfl
      (show (1 : Nat) ≤ 2 ^ 32 by norm_num) (show (1 : Nat) ≤ 2 ^ 32 by norm_num) henc
    exact ⟨_, h, rfl⟩

/-- Witness for C7: a one-byte state with block size 1 decodes to exactly
one byte, and the three-byte state `[1, 2, 3]` (not a multiple of block
size 2) round-trips with its padding discarded. -/
theorem claim_C7_witness :
    (Ctx.mk 1 1 [7] [1] ⟨[[0], [7]], 1⟩ ⟨[[0], [1]], 1⟩).last_state.length = 1 ∧
    (∃ ctxD2, ssDecode (Ctx.new 2 2) ([1, 2, 3] : List Nat).length
        ([0, 0, 1, 1, 196, 2, 1, 2, 1, 2, 196, 2, 3, 0, 2, 1, 146, 1, 2, 3, 145, 1]
          ++ []) = .ok (ctxD2, []) ∧
      ctxD2.last_state = [1, 2, 3]) :=
  ⟨claim_C7_boundary.1 (Ctx.new 1 1) 1 [0, 0, 1, 1, 196, 1, 7, 2, 1, 145, 1, 3, 145, 1]
      (Ctx.mk 1 1 [7] [1] ⟨[[0], [7]], 1⟩ ⟨[[0], [1]], 1⟩) [] (by rfl),
    claim_C7_boundary.2 2 2 0 [1, 2, 3]
      [0, 0, 1, 1, 196, 2, 1, 2, 1, 2, 196, 2, 3, 0, 2, 1, 146, 1, 2, 3, 145, 1] []
      (Ctx.mk 2 2 [] [1] ⟨[[0, 0], [1, 2], [3, 0]], 2⟩ ⟨[[0, 0], [1, 2]], 2⟩)
      (by decide) (by decide) (Or.inl (by decide)) (by decide)⟩

/-! ## Replay container (`src/rply.rs`)

Byte compression (zlib via `flate2`, zstd) is an external library treated
by the specification as an opaque byte-in/byte-out streaming transform; it
is modelled by caller-supplied functions: a compressor `List Nat → List
Nat` and a decompressor `List Nat → Option (List Nat × List Nat)` that
consumes the compressed stream from the front of its input and returns the
decompressed bytes plus the unconsumed remainder. -/

/-- Mirrors the `MAGIC` constant `0x4253_5632`. -/
def MAGIC : Nat := 0x42535632

/-- Mirrors `rply::Compression`. -/
inductive Compression
  | none
  | zlib
  | zstd
deriving Repr, DecidableEq

/-- Mirrors `TryFrom<u8> for Compression`. -/
def compressionOfByte : Nat → Option Compression
  | 0 => some .none
  | 1 => some .zlib
  | 2 => some .zstd
  | _ => Option.none

/-- Mirrors `From<Compression> for u8`. -/
def compressionByte : Compression → Nat
  | .none => 0
  | .zlib => 1
  | .zstd => 2

/-- Mirrors `rply::Encoding`. -/
inductive Encoding
  | raw
  | statestream
deriving Repr, DecidableEq

/-- Mirrors `TryFrom<u8> for Encoding`. -/
def encodingOfByte : Nat → Option Encoding
  | 0 => some .raw
  | 1 => some .statestream
  | _ => Option.none

/-- Mirrors `From<Encoding> for u8`. -/
def encodingByte : Encoding → Nat
  | .raw => 0
  | .statestream => 1

/-- Mirrors `rply::HeaderBase`. -/
structure HeaderBase where
  version : Nat
  content_crc : Nat
  initial_state_size : Nat
  identifier : Nat
deriving Repr, DecidableEq

/-- Mirrors `rply::HeaderV2`. -/
structure HeaderV2 where
  base : HeaderBase
  frame_count : Nat
  block_size : Nat
  superblock_size : Nat
  checkpoint_commit_interval : Nat
  checkpoint_commit_threshold : Nat
  checkpoint_compression : Compression
deriving Repr, DecidableEq

/-- Mirrors `rply::Header`. -/
inductive Header
  | v0v1 (b : HeaderBase)
  | v2 (h : HeaderV2)
deriving Repr, DecidableEq

/-- Mirrors `Header::version`. -/
def Header.version : Header → Nat
  | .v0v1 b => b.version
  | .v2 h => h.base.version

/-- Mirrors `Header::content_crc`. -/
def Header.content_crc : Header → Nat
  | .v0v1 b => b.content_crc
  | .v2 h => h.base.content_crc

/-- Mirrors `Header::identifier`. -/
def Header.identifier : Header → Nat
  | .v0v1 b => b.identifier
  | .v2 h => h.base.identifier

/-- Mirrors `Header::initial_state_size`. -/
def Header.initial_state_size : Header → Nat
  | .v0v1 b => b.initial_state_size
  | .v2 h => h.base.initial_state_size

/-- Mirrors `Header::set_initial_state_size` (via `base_mut`). -/
def Header.setInitialStateSize : Header → Nat → Header
  | .v0v1 b, sz => .v0v1 { b with initial_state_size := sz }
  | .v2 h, sz => .v2 { h with base := { h.base with initial_state_size := sz } }

/-- Mirrors `Header::frame_count`. -/
def Header.frame_count : Header → Option Nat
  | .v0v1 _ => Option.none
  | .v2 h => some h.frame_count

/-- Mirrors `Header::upgrade` (promotes to v2, zeroing the new fields;
version stays). -/
def Header.upgrade : Header → HeaderV2
  | .v0v1 b => ⟨b, 0, 0, 0, 0, 0, .none⟩
  | .v2 h => h

/-- Mirrors `Header::set_frame_count`. -/
def Header.setFrameCount (h : Header) (frames : Nat) : Header :=
  .v2 { h.upgrade with frame_count := frames }

/-- Mirrors `Header::block_size`. -/
def Header.block_size : Header → Nat
  | .v0v1 _ => 0
  | .v2 h => h.block_size

/-- Mirrors `Header::superblock_size`. -/
def Header.superblock_size : Header → Nat
  | .v0v1 _ => 0
  | .v2 h => h.superblock_size

/-- Mirrors `Header::checkpoint_commit_interval`. -/
def Header.checkpoint_commit_interval : Header → Nat
  | .v0v1 _ => 0
  | .v2 h => h.checkpoint_commit_interval

/-- Mirrors `Header::checkpoint_commit_threshold`. -/
def Header.checkpoint_commit_threshold : Header → Nat
  | .v0v1 _ => 0
  | .v2 h => h.checkpoint_commit_threshold

/-- Mirrors `Header::checkpoint_compression`. -/
def Header.checkpoint_compression : Header → Compression
  | .v0v1 _ => .none
  | .v2 h => h.checkpoint_compression

/-- Mirrors `rply::ReplayError` (the `IO` variant's payload is dropped;
state-stream failures surface as `io` exactly as the Rust code wraps them
in `io::Error`). -/
inductive ReplayError
  | magic (m : Nat)
  | version (v : Nat)
  | compression (b : Nat)
  | encoding (b : Nat)
  | io
  | tooManyFrames
  | noCoreRead
  | checkpointTooBig
  | frameTooLong
  | tooManyKeyEvents
  | tooManyInputEvents
  | badFrameToken (t : Nat)
deriving Repr, DecidableEq

/-- Mirrors `rply::KeyData`. -/
structure KeyData where
  down : Nat
  modf : Nat
  code : Nat
  chr : Nat
deriving Repr, DecidableEq

/-- Mirrors `rply::InputData` (`val` is an `i16`, kept as an `Int`). -/
structure InputData where
  port : Nat
  device : Nat
  idx : Nat
  id : Nat
  val : Int
deriving Repr, DecidableEq

/-- Mirrors `rply::Frame`. -/
structure Frame where
  key_events : List KeyData
  input_events : List InputData
  checkpoint_bytes : List Nat
  checkpoint_compression : Compression
  checkpoint_encoding : Encoding
deriving Repr, DecidableEq

/-- Mirrors `impl Default for Frame`. -/
instance : Inhabited Frame :=
  ⟨⟨[], [], [], .none, .raw⟩⟩

/-- Semantic content of a frame: the three fields the encoder serializes
(the compression/encoding metadata fields are storage metadata). -/
def Frame.sem (fr : Frame) : List KeyData × List InputData × List Nat :=
  (fr.key_events, fr.input_events, fr.checkpoint_bytes)

/-- Machine-width well-formedness of a frame's event fields (`u16`/`u32`
fields of the Rust structs mapped to `Nat`/`Int`). -/
def Frame.WF (fr : Frame) : Prop :=
  (∀ k ∈ fr.key_events, k.modf < 2 ^ 16 ∧ k.code < 2 ^ 32 ∧ k.chr < 2 ^ 32) ∧
  (∀ i ∈ fr.input_events, i.id < 2 ^ 16 ∧ -(2 ^ 15) ≤ i.val ∧ i.val < 2 ^ 15)

/-- Lift a byte-list reader failure to `ReplayError::IO` (`byteorder`
reads fail with an I/O error on end of stream). -/
def readLEx (k : Nat) (input : List Nat) : Except ReplayError (Nat × List Nat) :=
  match readLE k input with
  | Option.none => .error .io
  | some r => .ok r

/-- Header-parsing phase of `ReplayDecoder::new` (`rply.rs` lines
197-232): magic, version gate, base fields, and for v2 the extended
fields with the packed checkpoint configuration word. -/
def readHeader (input : List Nat) : Except ReplayError (Header × List Nat) :=
  match readLEx 4 input with
  | .error e => .error e
  | .ok (magic, r1) =>
    if magic ≠ MAGIC then .error (.magic magic)
    else
      match readLEx 4 r1 with
      | .error e => .error e
      | .ok (version, r2) =>
        if 2 < version then .error (.version version)
        else
          match readLEx 4 r2 with
          | .error e => .error e
          | .ok (content_crc, r3) =>
            match readLEx 4 r3 with
            | .error e => .error e
            | .ok (initial_state_size, r4) =>
              match readLEx 8 r4 with
              | .error e => .error e
              | .ok (identifier, r5) =>
                if version < 2 then
                  .ok (.v0v1 ⟨version, content_crc, initial_state_size, identifier⟩, r5)
                else
                  match readLEx 4 r5 with
                  | .error e => .error e
                  | .ok (frame_count, r6) =>
                    match readLEx 4 r6 with
                    | .error e => .error e
                    | .ok (block_size, r7) =>
                      match readLEx 4 r7 with
                      | .error e => .error e
                      | .ok (superblock_size, r8) =>
                        match readLEx 4 r8 with
                        | .error e => .error e
                        | .ok (cp_config, r9) =>
                          match compressionOfByte (cp_config / 2 ^ 8 % 2 ^ 8) with
                          | Option.none =>
                              .error (.compression (cp_config / 2 ^ 8 % 2 ^ 8))
                          | some comp =>
                            .ok (.v2 ⟨⟨version, content_crc, initial_state_size, identifier⟩,
                              frame_count, block_size, superblock_size,
                              cp_config / 2 ^ 24, cp_config / 2 ^ 16 % 2 ^ 8, comp⟩, r9)

/-- Mirrors `ReplayDecoder::decode_checkpoint`: record header, then the
routing over (compression, encoding).  `zlibD`/`zstdD` are the opaque
streaming decompressors.  Returns the reconstructed checkpoint bytes, the
updated state-stream context, and the unread input. -/
def decodeCheckpoint (zlibD zstdD : List Nat → Option (List Nat × List Nat))
    (ss : Ctx) (input : List Nat) :
    Except ReplayError (List Nat × Ctx × List Nat) :=
  match readByte input with
  | Option.none => .error .io
  | some (cb, r1) =>
    match compressionOfByte cb with
    | Option.none => .error (.compression cb)
    | some compression =>
      match readByte r1 with
      | Option.none => .error .io
      | some (eb, r2) =>
        match encodingOfByte eb with
        | Option.none => .error (.encoding eb)
        | some encoding =>
          match readLE 4 r2 with
          | Option.none => .error .io
          | some (uc_ue, r3) =>
            match readLE 4 r3 with
            | Option.none => .error .io
            | some (_, r4) =>
              match readLE 4 r4 with
              | Option.none => .error .io
              | some (_, r5) =>
                match compression, encoding with
                | .none, .raw =>
                  match readBytes uc_ue r5 with
                  | Option.none => .error .io
                  | some (bytes, rest) => .ok (bytes, ss, rest)
                | .none, .statestream =>
                  match ssDecode ss uc_ue r5 with
                  | .error _ => .error .io
                  | .ok (ss2, rest) => .ok (ss2.last_state, ss2, rest)
                | .zlib, .raw =>
                  match zlibD r5 with
                  | Option.none => .error .io
                  | some (out, rest) =>
                    if uc_ue < out.length then .error .io
                    else .ok (out ++ List.replicate (uc_ue - out.length) 0, ss, rest)
                | .zlib, .statestream =>
                  match zlibD r5 with
                  | Option.none => .error .io
                  | some (out, rest) =>
                    match ssDecode ss uc_ue out with
                    | .error _ => .error .io
                    | .ok (ss2, _) => .ok (ss2.last_state, ss2, rest)
                | .zstd, .raw =>
                  match zstdD r5 with
                  | Option.none => .error .io
                  | some (out, rest) =>
                    if uc_ue < out.length then .error .io
                    else .ok (out ++ List.replicate (uc_ue - out.length) 0, ss, rest)
                | .zstd, .statestream =>
                  match zstdD r5 with
                  | Option.none => .error .io
                  | some (out, rest) =>
                    match ssDecode ss uc_ue out with
                    | .error _ => .error .io
                    | .ok (ss2, _) => .ok (ss2.last_state, ss2, rest)

/-- Mirrors `rply::ReplayDecoder` (reader state excluded; the unread
input travels alongside). -/
structure ReplayDecoder where
  header : Header
  initial_state : List Nat
  frame_number : Nat
  ss_state : Ctx
deriving Repr, DecidableEq

/-- Mirrors `ReplayDecoder::new`: parse the header; for v0/v1 read the
raw initial state, for v2 decode the initial checkpoint record. -/
def ReplayDecoder.new (zlibD zstdD : List Nat → Option (List Nat × List Nat))
    (input : List Nat) : Except ReplayError (ReplayDecoder × List Nat) :=
  match readHeader input with
  | .error e => .error e
  | .ok (header, r) =>
    match header with
    | .v0v1 b =>
      match readBytes b.initial_state_size r with
      | Option.none => .error .io
      | some (bytes, rest) => .ok (⟨header, bytes, 0, Ctx.new 1 1⟩, rest)
    | .v2 v2 =>
      match decodeCheckpoint zlibD zstdD (Ctx.new v2.block_size v2.superblock_size) r with
      | .error e => .error e
      | .ok (bytes, ctx2, rest) => .ok (⟨header, bytes, 0, ctx2⟩, rest)

/-- Serialization of one key event as written by `write_frame`
(down, padding, modf, code, chr — 12 bytes). -/
def keyEventBytes (k : KeyData) : List Nat :=
  [k.down, 0] ++ toLE 2 k.modf ++ toLE 4 k.code ++ toLE 4 k.chr

/-- Serialization of one input event as written by `write_frame`
(port, device, idx, padding, id, val — 8 bytes, `val` two's-complement). -/
def inputEventBytes (i : InputData) : List Nat :=
  [i.port, i.device, i.idx, 0] ++ toLE 2 i.id ++ toLE 2 (i.val.emod 65536).toNat

/-- Read `n` key events (the loop in `read_frame`). -/
def readKeyEvents : Nat → List Nat → Except ReplayError (List KeyData × List Nat)
  | 0, input => .ok ([], input)
  | n + 1, input =>
    match readBytes 2 input with
    | Option.none => .error .io
    | some (db, r1) =>
      match readLE 2 r1 with
      | Option.none => .error .io
      | some (modf, r2) =>
        match readLE 4 r2 with
        | Option.none => .error .io
        | some (code, r3) =>
          match readLE 4 r3 with
          | Option.none => .error .io
          | some (chr, r4) =>
            match readKeyEvents n r4 with
            | .error e => .error e
            | .ok (ks, rest) => .ok (⟨db.getD 0 0, modf, code, chr⟩ :: ks, rest)

/-- Read `n` input events (the loop in `read_frame`); `val` is read back
as a signed 16-bit value. -/
def readInputEvents : Nat → List Nat → Except ReplayError (List InputData × List Nat)
  | 0, input => .ok ([], input)
  | n + 1, input =>
    match readBytes 4 input with
    | Option.none => .error .io
    | some (pb, r1) =>
      match readLE 2 r1 with
      | Option.none => .error .io
      | some (id, r2) =>
        match readLE 2 r2 with
        | Option.none => .error .io
        | some (v, r3) =>
          match readInputEvents n r3 with
          | .error e => .error e
          | .ok (is, rest) =>
            .ok (⟨pb.getD 0 0, pb.getD 1 0, pb.getD 2 0, id,
              if v < 32768 then (v : Int) else (v : Int) - 65536⟩ :: is, rest)

/-- Mirrors `ReplayDecoder::read_frame`: skip the backref (v2), read key
and input events, then dispatch on the frame token.  Note that the
`Checkpoint2` branch does not touch `checkpoint_compression` or
`checkpoint_encoding` of the caller's frame, exactly as in the source. -/
def readFrame (zlibD zstdD : List Nat → Option (List Nat × List Nat))
    (dec : ReplayDecoder) (frame : Frame) (input : List Nat) :
    Except ReplayError (ReplayDecoder × Frame × List Nat) :=
  if dec.header.version = 0 then .error .noCoreRead
  else
    match (if 1 < dec.header.version
        then (readBytes 4 input).map (fun r => r.2) else some input) with
    | Option.none => .error .io
    | some r0 =>
      match readByte r0 with
      | Option.none => .error .io
      | some (key_count, r1) =>
        match readKeyEvents key_count r1 with
        | .error e => .error e
        | .ok (kevs, r2) =>
          match readLE 2 r2 with
          | Option.none => .error .io
          | some (input_count, r3) =>
            match readInputEvents input_count r3 with
            | .error e => .error e
            | .ok (ievs, r4) =>
              match readByte r4 with
              | Option.none => .error .io
              | some (tok, r5) =>
                if tok = 102 then
                  .ok ({ dec with frame_number := dec.frame_number + 1 },
                    Frame.mk kevs ievs [] .none .raw, r5)
                else if tok = 99 then
                  match readLE 8 r5 with
                  | Option.none => .error .io
                  | some (cp_size, r6) =>
                    match readBytes cp_size r6 with
                    | Option.none => .error .io
                    | some (cp, rest) =>
                      .ok ({ dec with frame_number := dec.frame_number + 1 },
                        Frame.mk kevs ievs cp .none .raw, rest)
                else if tok = 67 then
                  match decodeCheckpoint zlibD zstdD dec.ss_state r5 with
                  | .error e => .error e
                  | .ok (cp, ss2, rest) =>
                    .ok (ReplayDecoder.mk dec.header dec.initial_state
                        (dec.frame_number + 1) ss2,
                      Frame.mk kevs ievs cp frame.checkpoint_compression
                        frame.checkpoint_encoding, rest)
                else .error (.badFrameToken tok)

/-- Read `n` frames in order, passing a fresh default `Frame` each time
and collecting the yielded frames. -/
def readFrames (zlibD zstdD : List Nat → Option (List Nat × List Nat)) :
    ReplayDecoder → List Nat → Nat →
    Except ReplayError (ReplayDecoder × List Frame × List Nat)
  | dec, input, 0 => .ok (dec, [], input)
  | dec, input, n + 1 =>
    match readFrame zlibD zstdD dec default input with
    | .error e => .error e
    | .ok (dec1, fr1, r1) =>
      match readFrames zlibD zstdD dec1 r1 n with
      | .error e => .error e
      | .ok (dec2, frs, r2) => .ok (dec2, fr1 :: frs, r2)

/-! ## Replay encoder model -/

/-- A seekable byte sink: the bytes written so far and the cursor. -/
structure WFile where
  data : List Nat
  pos : Nat
deriving Repr, DecidableEq

/-- Overwrite `data` at `pos` with `bs`, zero-extending if `pos` is past
the end (the encoder only ever seeks within the written region). -/
def storeAt (data : List Nat) (pos : Nat) (bs : List Nat) : List Nat :=
  data.take pos ++ List.replicate (pos - data.length) 0 ++ bs
    ++ data.drop (pos + bs.length)

/-- Write bytes at the cursor, advancing it. -/
def WFile.write (f : WFile) (bs : List Nat) : WFile :=
  ⟨storeAt f.data f.pos bs, f.pos + bs.length⟩

/-- Seek to an absolute position. -/
def WFile.seek (f : WFile) (p : Nat) : WFile :=
  ⟨f.data, p⟩

/-- Mirrors `rply::ReplayEncoder` (writer state excluded; the `WFile`
travels alongside). -/
structure ReplayEncoder where
  header : Header
  frame_number : Nat
  last_pos : Nat
  ss_state : Ctx
  finished : Bool
deriving Repr, DecidableEq

/-- The 40 v2 header bytes written by `ReplayEncoder::write_header`. -/
def headerBytesV2 (v2 : HeaderV2) : List Nat :=
  toLE 4 MAGIC ++ toLE 4 2 ++ toLE 4 v2.base.content_crc
    ++ toLE 4 v2.base.initial_state_size ++ toLE 8 v2.base.identifier
    ++ toLE 4 v2.frame_count ++ toLE 4 v2.block_size ++ toLE 4 v2.superblock_size
    ++ toLE 4 (v2.checkpoint_commit_interval * 2 ^ 24
      + v2.checkpoint_commit_threshold * 2 ^ 16
      + compressionByte v2.checkpoint_compression * 2 ^ 8)

/-- Mirrors `ReplayEncoder::write_header`: store the (possibly truncated,
`unwrap_or_default`) frame number in the header, seek to 0, write the 40
header bytes, seek back.  The `TooManyFrames` branch mirrors the
`u32::try_from(frame_count).map_err(...)` in the source; it is
unreachable because `set_frame_count` already truncated to `u32`. -/
def writeHeader (enc : ReplayEncoder) (f : WFile) :
    Except ReplayError (ReplayEncoder × WFile) :=
  let fc := if enc.frame_number < 2 ^ 32 then enc.frame_number else 0
  let v2 := (enc.header.setFrameCount fc).upgrade
  if v2.frame_count < 2 ^ 32 then
    .ok ({ enc with header := .v2 v2 }, ⟨storeAt f.data 0 (headerBytesV2 v2), f.pos⟩)
  else .error .tooManyFrames

/-- The encode routing of `ReplayEncoder::encode_checkpoint` over
(compression, encoding), with `zlibC`/`zstdC` the opaque compressors.
Errors: `io` stands for the unencodable cases of the spec-modelled
state-stream encoder; `checkpointTooBig` for a compressed size that does
not fit `u32`.  Returns the updated context, the file after the payload
write, and the (encoded, compressed) sizes. -/
def encodeCheckpointRoute (zlibC zstdC : List Nat → List Nat) (ssctx : Ctx)
    (f : WFile) (checkpoint : List Nat) (frame : Nat) :
    Compression → Encoding → Except ReplayError (Ctx × WFile × Nat × Nat)
  | .none, .raw => .ok (ssctx, f.write checkpoint, checkpoint.length, checkpoint.length)
  | .none, .statestream =>
    match encodeCheckpointSS ssctx checkpoint frame with
    | Option.none => .error .io
    | some (ss2, bytes) => .ok (ss2, f.write bytes, bytes.length, bytes.length)
  | .zlib, .raw =>
    if (zlibC checkpoint).length < 2 ^ 32 then
      .ok (ssctx, f.write (zlibC checkpoint), checkpoint.length, (zlibC checkpoint).length)
    else .error .checkpointTooBig
  | .zlib, .statestream =>
    match encodeCheckpointSS ssctx checkpoint frame with
    | Option.none => .error .io
    | some (ss2, bytes) =>
      if (zlibC bytes).length < 2 ^ 32 then
        .ok (ss2, f.write (zlibC bytes), bytes.length, (zlibC bytes).length)
      else .error .checkpointTooBig
  | .zstd, .raw =>
    if (zstdC checkpoint).length < 2 ^ 32 then
      .ok (ssctx, f.write (zstdC checkpoint), checkpoint.length, (zstdC checkpoint).length)
    else .error .checkpointTooBig
  | .zstd, .statestream =>
    match encodeCheckpointSS ssctx checkpoint frame with
    | Option.none => .error .io
    | some (ss2, bytes) =>
      if (zstdC bytes).length < 2 ^ 32 then
        .ok (ss2, f.write (zstdC bytes), bytes.length, (zstdC bytes).length)
      else .error .checkpointTooBig

/-- Mirrors `ReplayEncoder::encode_checkpoint`: compression from the
header, encoding always `Statestream` (source line 507), record header
with placeholder sizes, the routed payload, then the seek-back patch of
the two size fields. -/
def encodeCheckpointW (zlibC zstdC : List Nat → List Nat) (enc : ReplayEncoder)
    (f : WFile) (checkpoint : List Nat) (frame : Nat) :
    Except ReplayError (ReplayEncoder × WFile) :=
  let compression := enc.header.checkpoint_compression
  let f1 := f.write [compressionByte compression, encodingByte Encoding.statestream]
  if checkpoint.length < 2 ^ 32 then
    let f2 := f1.write (toLE 4 checkpoint.length)
    let size_pos := f2.pos
    let f3 := f2.write (toLE 4 0 ++ toLE 4 0)
    match encodeCheckpointRoute zlibC zstdC enc.ss_state f3 checkpoint frame
        compression Encoding.statestream with
    | .error e => .error e
    | .ok (ss2, f4, encoded, compressed) =>
      .ok ({ enc with ss_state := ss2 },
        ⟨storeAt f4.data size_pos (toLE 4 encoded ++ toLE 4 compressed), f4.pos⟩)
  else .error .checkpointTooBig

/-- Mirrors `ReplayEncoder::encode_initial_checkpoint`: seek to byte 40,
write the record, back-patch the header's `initial_state_size`, rewrite
the header, remember `last_pos`. -/
def encodeInitialCheckpoint (zlibC zstdC : List Nat → List Nat)
    (enc : ReplayEncoder) (f : WFile) (checkpoint : List Nat) :
    Except ReplayError (ReplayEncoder × WFile) :=
  match encodeCheckpointW zlibC zstdC enc (f.seek 40) checkpoint 0 with
  | .error e => .error e
  | .ok (enc1, f1) =>
    if f1.pos - 40 < 2 ^ 32 then
      match writeHeader { enc1 with
          header := enc1.header.setInitialStateSize (f1.pos - 40) } f1 with
      | .error e => .error e
      | .ok (enc2, f2) => .ok ({ enc2 with last_pos := f2.pos }, f2)
    else .error .checkpointTooBig

/-- Mirrors `ReplayEncoder::new`: version gate, fresh state-stream
context from the header sizes, header write, optional initial checkpoint,
and `last_pos` capture. -/
def ReplayEncoder.new (zlibC zstdC : List Nat → List Nat) (header : Header)
    (initial_state : List Nat) (f : WFile) :
    Except ReplayError (ReplayEncoder × WFile) :=
  if header.version ≠ 2 then .error (.version header.version)
  else
    match writeHeader ⟨header, 0, 0,
        Ctx.new header.block_size header.superblock_size, false⟩ f with
    | .error e => .error e
    | .ok (enc1, f1) =>
      if initial_state = [] then .ok ({ enc1 with last_pos := f1.pos }, f1)
      else encodeInitialCheckpoint zlibC zstdC enc1 f1 initial_state

/-- Mirrors `ReplayEncoder::write_frame`: backref, key events, input
events, then `Regular` or `Checkpoint2` plus the checkpoint record. -/
def writeFrame (zlibC zstdC : List Nat → List Nat) (enc : ReplayEncoder)
    (f : WFile) (frame : Frame) : Except ReplayError (ReplayEncoder × WFile) :=
  if f.pos - enc.last_pos < 2 ^ 32 then
    let f1 := f.write (toLE 4 (f.pos - enc.last_pos))
    if frame.key_events.length < 2 ^ 8 then
      let f2 := f1.write ([frame.key_events.length]
        ++ frame.key_events.flatMap keyEventBytes)
      if frame.input_events.length < 2 ^ 16 then
        let f3 := f2.write (toLE 2 frame.input_events.length
          ++ frame.input_events.flatMap inputEventBytes)
        if frame.checkpoint_bytes = [] then
          .ok ({ enc with frame_number := enc.frame_number + 1, last_pos := f.pos },
            f3.write [102])
        else
          match encodeCheckpointW zlibC zstdC enc (f3.write [67])
              frame.checkpoint_bytes enc.frame_number with
          | .error e => .error e
          | .ok (enc2, f4) =>
            .ok ({ enc2 with frame_number := enc2.frame_number + 1, last_pos := f.pos }, f4)
      else .error .tooManyInputEvents
    else .error .tooManyKeyEvents
  else .error .frameTooLong

/-- Mirrors `ReplayEncoder::finish`. -/
def ReplayEncoder.finish (enc : ReplayEncoder) (f : WFile) :
    Except ReplayError (ReplayEncoder × WFile) :=
  if enc.finished then .ok (enc, f)
  else
    match writeHeader enc f with
    | .error e => .error e
    | .ok (enc1, f1) => .ok ({ enc1 with finished := true }, f1)

/-- Write a list of frames in order. -/
def writeFrames (zlibC zstdC : List Nat → List Nat) :
    ReplayEncoder → WFile → List Frame → Except ReplayError (ReplayEncoder × WFile)
  | enc, f, [] => .ok (enc, f)
  | enc, f, fr :: frs =>
    match writeFrame zlibC zstdC enc f fr with
    | .error e => .error e
    | .ok (enc1, f1) => writeFrames zlibC zstdC enc1 f1 frs

/-- Encode a whole replay onto a fresh sink: construct the encoder, write
every frame, `finish`. -/
def replayEncode (zlibC zstdC : List Nat → List Nat) (header : Header)
    (initial_state : List Nat) (frames : List Frame) :
    Except ReplayError (ReplayEncoder × WFile) :=
  match ReplayEncoder.new zlibC zstdC header initial_state ⟨[], 0⟩ with
  | .error e => .error e
  | .ok (enc1, f1) =>
    match writeFrames zlibC zstdC enc1 f1 frames with
    | .error e => .error e
    | .ok (enc2, f2) => ReplayEncoder.finish enc2 f2

/-- Identity-style compressor used for concrete witnesses (the stream is
self-delimiting: a msgpack length header followed by the raw bytes). -/
def lenComp (bs : List Nat) : List Nat :=
  writeUint bs.length ++ bs

/-- Decompressor inverse of `lenComp`. -/
def lenDecomp (input : List Nat) : Option (List Nat × List Nat) :=
  match readInt (2 ^ 64 - 1) input with
  | Option.none => Option.none
  | some (n, r) => readBytes n r

/-- Decompressor that always fails (for witnesses that never reach it). -/
def noDecomp : List Nat → Option (List Nat × List Nat) :=
  fun _ => Option.none

/-! ## `storeAt` algebra: how the encoder's seeks and writes compose -/

theorem storeAt_prefix_length (d : List Nat) (p : Nat) :
    (d.take p ++ List.replicate (p - d.length) 0).length = p := by
  simp [List.length_take, List.length_append, List.length_replicate]
  omega

theorem storeAt_length (d : List Nat) (p : Nat) (bs : List Nat) :
    (storeAt d p bs).length = max (p + bs.length) d.length := by
  simp [storeAt, List.length_append, List.length_take, List.length_replicate,
    List.length_drop]
  omega

theorem take_append_exact {l1 l2 : List Nat} {n : Nat} (h : l1.length = n) :
    (l1 ++ l2).take n = l1 := List.take_left' h

theorem drop_append_exact {l1 l2 : List Nat} {n : Nat} (h : l1.length = n) :
    (l1 ++ l2).drop n = l2 := List.drop_left' h

/-- Two consecutive writes are one write of the concatenation. -/
theorem storeAt_storeAt (d : List Nat) (p : Nat) (a b : List Nat) :
    storeAt (storeAt d p a) (p + a.length) b = storeAt d p (a ++ b) := by
  unfold storeAt
  have hpre : (d.take p ++ List.replicate (p - d.length) 0 ++ a).length
      = p + a.length := by
    rw [List.length_append, storeAt_prefix_length]
  rw [take_append_exact hpre]
  have hz : p + a.length -
      (d.take p ++ List.replicate (p - d.length) 0 ++ a
        ++ d.drop (p + a.length)).length = 0 := by
    simp [List.length_append, List.length_take, List.length_replicate,
      List.length_drop]
    omega
  rw [hz, List.replicate_zero]
  have hdrop : (d.take p ++ List.replicate (p - d.length) 0 ++ a
        ++ d.drop (p + a.length)).drop (p + a.length + b.length)
      = d.drop (p + (a ++ b).length) := by
    rw [show p + a.length + b.length
        = (d.take p ++ List.replicate (p - d.length) 0 ++ a).length + b.length by
      rw [hpre]]
    rw [List.drop_append, List.drop_drop]
    exact congrArg (fun i => d.drop i) (by simp [List.length_append]; omega)
  rw [hdrop]
  simp [List.append_assoc]

/-- A seek-back patch of a same-length segment inside one written region
replaces that segment. -/
theorem storeAt_patch (d : List Nat) (p : Nat) (a b b' c : List Nat)
    (hb : b'.length = b.length) :
    storeAt (storeAt d p (a ++ b ++ c)) (p + a.length) b'
      = storeAt d p (a ++ b' ++ c) := by
  unfold storeAt
  have hpre : (d.take p ++ List.replicate (p - d.length) 0 ++ a).length
      = p + a.length := by
    rw [List.length_append, storeAt_prefix_length]
  have hT : d.take p ++ List.replicate (p - d.length) 0 ++ (a ++ b ++ c)
        ++ d.drop (p + (a ++ b ++ c).length)
      = (d.take p ++ List.replicate (p - d.length) 0 ++ a)
        ++ (b ++ (c ++ d.drop (p + (a ++ b ++ c).length))) := by
    simp [List.append_assoc]
  rw [hT]
  rw [take_append_exact hpre]
  have hz : p + a.length -
      ((d.take p ++ List.replicate (p - d.length) 0 ++ a)
        ++ (b ++ (c ++ d.drop (p + (a ++ b ++ c).length)))).length = 0 := by
    simp [List.length_append, List.length_take, List.length_replicate,
      List.length_drop]
    omega
  rw [hz, List.replicate_zero]
  have hdrop : ((d.take p ++ List.replicate (p - d.length) 0 ++ a)
        ++ (b ++ (c ++ d.drop (p + (a ++ b ++ c).length)))).drop
          (p + a.length + b'.length)
      = c ++ d.drop (p + (a ++ b' ++ c).length) := by
    rw [show p + a.length + b'.length
        = (d.take p ++ List.replicate (p - d.length) 0 ++ a).length + b.length by
      rw [hpre, hb]]
    rw [List.drop_append]
    rw [drop_append_exact rfl]
    exact congrArg (fun i => c ++ d.drop i) (by simp [List.length_append]; omega)
  rw [hdrop]
  simp [List.append_assoc]

/-- Writing at the end of the data is appending. -/
theorem storeAt_append_end (d : List Nat) (bs : List Nat) :
    storeAt d d.length bs = d ++ bs := by
  simp [storeAt]

/-- Rewriting a same-length prefix (the header rewrite at position 0). -/
theorem storeAt_replace_front {h h' : List Nat} (t : List Nat)
    (hl : h'.length = h.length) : storeAt (h ++ t) 0 h' = h' ++ t := by
  simp [storeAt]
  rw [drop_append_exact hl.symm]


/-- Joined write: the five stores of `encode_checkpoint` (2-byte
compression/encoding header, 4-byte size, 8 placeholder bytes, payload,
then the 8-byte seek-back patch) are one contiguous record store. -/
theorem write_record_data (d : List Nat) (p : Nat) (x : Nat)
    (l4 pl8 payload patch : List Nat)
    (hl4 : l4.length = 4) (hpl8 : pl8.length = 8) (hpatch : patch.length = 8) :
    storeAt (storeAt (storeAt (storeAt (storeAt d p [x, 1]) (p + 2) l4)
        (p + 2 + 4) pl8) (p + 2 + 4 + 8) payload) (p + 2 + 4) patch
      = storeAt d p ([x, 1] ++ l4 ++ patch ++ payload) := by
  have s2 : storeAt (storeAt d p [x, 1]) (p + 2) l4
      = storeAt d p ([x, 1] ++ l4) := storeAt_storeAt d p [x, 1] l4
  have s3 : storeAt (storeAt d p ([x, 1] ++ l4)) (p + 2 + 4) pl8
      = storeAt d p ([x, 1] ++ l4 ++ pl8) := by
    have h := storeAt_storeAt d p ([x, 1] ++ l4) pl8
    rw [show p + ([x, 1] ++ l4).length = p + 2 + 4 by
      simp only [List.length_append, List.length_cons, List.length_nil, hl4]] at h
    exact h
  have s4 : storeAt (storeAt d p ([x, 1] ++ l4 ++ pl8)) (p + 2 + 4 + 8) payload
      = storeAt d p ([x, 1] ++ l4 ++ pl8 ++ payload) := by
    have h := storeAt_storeAt d p ([x, 1] ++ l4 ++ pl8) payload
    rw [show p + ([x, 1] ++ l4 ++ pl8).length = p + 2 + 4 + 8 by
      simp only [List.length_append, List.length_cons, List.length_nil, hl4, hpl8]] at h
    rw [List.append_assoc ([x, 1] ++ l4) pl8 payload] at h
    rw [← List.append_assoc ([x, 1] ++ l4) pl8 payload] at h
    exact h
  have s5 : storeAt (storeAt d p ([x, 1] ++ l4 ++ pl8 ++ payload)) (p + 2 + 4) patch
      = storeAt d p ([x, 1] ++ l4 ++ patch ++ payload) := by
    have h := storeAt_patch d p ([x, 1] ++ l4) pl8 patch payload
      (by rw [hpatch, hpl8])
    rw [show p + ([x, 1] ++ l4).length = p + 2 + 4 by
      simp only [List.length_append, List.length_cons, List.length_nil, hl4]] at h
    exact h
  rw [s2, s3, s4, s5]

/-- The payload of a checkpoint record (`encode_checkpoint`'s routing for
the statestream encoding): the statestream bytes run through the header's
compressor. -/
def ccPayload (zc zsc : List Nat → List Nat) :
    Compression → List Nat → List Nat
  | .none, bs => bs
  | .zlib, bs => zc bs
  | .zstd, bs => zsc bs

/-- Full characterization of a successful `encode_checkpoint` record
write: the encoding byte is 1 (`Statestream`), the payload is the
statestream bytes through the header's compressor, the size fields are
back-patched, and only the state-stream context of the encoder changes. -/
theorem encodeCheckpointW_spec (zc zsc : List Nat → List Nat)
    (enc enc2 : ReplayEncoder) (f f2 : WFile) (cp : List Nat) (frame : Nat)
    (h : encodeCheckpointW zc zsc enc f cp frame = .ok (enc2, f2)) :
    ∃ ss2 ssBytes,
      encodeCheckpointSS enc.ss_state cp frame = some (ss2, ssBytes) ∧
      enc2 = ReplayEncoder.mk enc.header enc.frame_number enc.last_pos ss2
        enc.finished ∧
      f2.data = storeAt f.data f.pos
        ([compressionByte enc.header.checkpoint_compression, 1]
          ++ toLE 4 cp.length ++ toLE 4 ssBytes.length
          ++ toLE 4 (ccPayload zc zsc enc.header.checkpoint_compression
              ssBytes).length
          ++ ccPayload zc zsc enc.header.checkpoint_compression ssBytes) ∧
      f2.pos = f.pos + 14
        + (ccPayload zc zsc enc.header.checkpoint_compression ssBytes).length := by
  simp only [encodeCheckpointW, WFile.write, encodingByte, List.length_cons,
    List.length_nil, List.length_append, toLE_length] at h
  split at h
  case isFalse => exact absurd h (by simp)
  case isTrue hcp =>
    cases hcomp : enc.header.checkpoint_compression <;> rw [hcomp] at h <;>
      simp only [encodeCheckpointRoute] at h
    case none =>
      cases hss : encodeCheckpointSS enc.ss_state cp frame with
      | none => rw [hss] at h; exact absurd h (by simp)
      | some r =>
        obtain ⟨ss2, bytes⟩ := r
        rw [hss] at h
        simp only [Except.ok.injEq, Prod.mk.injEq] at h
        obtain ⟨henc2, hf2⟩ := h
        refine ⟨ss2, bytes, rfl, ?_, ?_, ?_⟩
        · rw [← henc2]
        · rw [← hf2]
          simp only [WFile.write, ccPayload]
          exact (write_record_data f.data f.pos _ (toLE 4 cp.length)
              (toLE 4 0 ++ toLE 4 0) (bytes)
              (toLE 4 bytes.length ++ toLE 4 (bytes).length)
              (toLE_length 4 _) (by simp [toLE_length])
              (by simp [toLE_length])).trans
            (by simp [List.append_assoc])
        · rw [← hf2]
          simp only [WFile.write, ccPayload]
    case zlib =>
      cases hss : encodeCheckpointSS enc.ss_state cp frame with
      | none => rw [hss] at h; exact absurd h (by simp)
      | some r =>
        obtain ⟨ss2, bytes⟩ := r
        rw [hss] at h
        dsimp only at h
        by_cases hzc : (zc bytes).length < 2 ^ 32
        case neg => rw [if_neg hzc] at h; exact absurd h (by simp)
        rw [if_pos hzc] at h
        simp only [Except.ok.injEq, Prod.mk.injEq] at h
        obtain ⟨henc2, hf2⟩ := h
        refine ⟨ss2, bytes, rfl, ?_, ?_, ?_⟩
        · rw [← henc2]
        · rw [← hf2]
          simp only [WFile.write, ccPayload]
          exact (write_record_data f.data f.pos _ (toLE 4 cp.length)
              (toLE 4 0 ++ toLE 4 0) (zc bytes)
              (toLE 4 bytes.length ++ toLE 4 (zc bytes).length)
              (toLE_length 4 _) (by simp [toLE_length])
              (by simp [toLE_length])).trans
            (by simp [List.append_assoc])
        · rw [← hf2]
          simp only [WFile.write, ccPayload]
    case zstd =>
      cases hss : encodeCheckpointSS enc.ss_state cp frame with
      | none => rw [hss] at h; exact absurd h (by simp)
      | some r =>
        obtain ⟨ss2, bytes⟩ := r
        rw [hss] at h
        dsimp only at h
        by_cases hzc : (zsc bytes).length < 2 ^ 32
        case neg => rw [if_neg hzc] at h; exact absurd h (by simp)
        rw [if_pos hzc] at h
        simp only [Except.ok.injEq, Prod.mk.injEq] at h
        obtain ⟨henc2, hf2⟩ := h
        refine ⟨ss2, bytes, rfl, ?_, ?_, ?_⟩
        · rw [← henc2]
        · rw [← hf2]
          simp only [WFile.write, ccPayload]
          exact (write_record_data f.data f.pos _ (toLE 4 cp.length)
              (toLE 4 0 ++ toLE 4 0) (zsc bytes)
              (toLE 4 bytes.length ++ toLE 4 (zsc bytes).length)
              (toLE_length 4 _) (by simp [toLE_length])
              (by simp [toLE_length])).trans
            (by simp [List.append_assoc])
        · rw [← hf2]
          simp only [WFile.write, ccPayload]


/-- Key events parse back from their serialization. -/
theorem readKeyEvents_append (kevs : List KeyData) (rest : List Nat)
    (h : ∀ k ∈ kevs, k.modf < 2 ^ 16 ∧ k.code < 2 ^ 32 ∧ k.chr < 2 ^ 32) :
    readKeyEvents kevs.length (kevs.flatMap keyEventBytes ++ rest)
      = .ok (kevs, rest) := by
  induction kevs with
  | nil => simp [readKeyEvents]
  | cons k ks ih =>
    obtain ⟨hm, hc, hh⟩ := h k (by simp)
    have hks : ∀ x ∈ ks, x.modf < 2 ^ 16 ∧ x.code < 2 ^ 32 ∧ x.chr < 2 ^ 32 :=
      fun x hx => h x (by simp [hx])
    show readKeyEvents (ks.length + 1)
      ((keyEventBytes k ++ ks.flatMap keyEventBytes) ++ rest) = _
    simp only [keyEventBytes, List.append_assoc]
    simp only [readKeyEvents]
    rw [readBytes_append (show ([k.down, 0] : List Nat).length = 2 from rfl)]
    dsimp only
    rw [readLE_append_of_lt hm]
    dsimp only
    rw [readLE_append_of_lt hc]
    dsimp only
    rw [readLE_append_of_lt hh]
    dsimp only
    rw [ih hks]
    rfl

/-- Input events parse back from their serialization: the two's-complement
`val` byte pair decodes to the original signed value. -/
theorem readInputEvents_append (ievs : List InputData) (rest : List Nat)
    (h : ∀ i ∈ ievs, i.id < 2 ^ 16 ∧ -(2 ^ 15) ≤ i.val ∧ i.val < 2 ^ 15) :
    readInputEvents ievs.length (ievs.flatMap inputEventBytes ++ rest)
      = .ok (ievs, rest) := by
  induction ievs with
  | nil => simp [readInputEvents]
  | cons i is ih =>
    obtain ⟨hid, hlo, hhi⟩ := h i (by simp)
    have his : ∀ x ∈ is, x.id < 2 ^ 16 ∧ -(2 ^ 15) ≤ x.val ∧ x.val < 2 ^ 15 :=
      fun x hx => h x (by simp [hx])
    have h1 : (0 : Int) ≤ i.val.emod 65536 := Int.emod_nonneg _ (by norm_num)
    have h2 : i.val.emod 65536 < 65536 := Int.emod_lt_of_pos _ (by norm_num)
    have key : i.val.emod 65536 = i.val ∨ i.val.emod 65536 = i.val + 65536 := by
      rcases le_or_lt 0 i.val with hp | hn
      · left
        exact Int.emod_eq_of_lt hp (by omega)
      · right
        calc i.val.emod 65536
            = (i.val + 65536 * 1).emod 65536 := (Int.add_mul_emod_self_left i.val 65536 1).symm
          _ = i.val + 65536 := by
              rw [mul_one]
              exact Int.emod_eq_of_lt (by omega) (by omega)
    show readInputEvents (is.length + 1)
      ((inputEventBytes i ++ is.flatMap inputEventBytes) ++ rest) = _
    simp only [inputEventBytes, List.append_assoc]
    simp only [readInputEvents]
    rw [readBytes_append
      (show ([i.port, i.device, i.idx, 0] : List Nat).length = 4 from rfl)]
    dsimp only
    rw [readLE_append_of_lt hid]
    dsimp only
    rw [readLE_append_of_lt (show (i.val.emod 65536).toNat < 256 ^ 2 by omega)]
    dsimp only
    rw [ih his]
    dsimp only
    have hval : (if (i.val.emod 65536).toNat < 32768
        then ((i.val.emod 65536).toNat : Int)
        else ((i.val.emod 65536).toNat : Int) - 65536) = i.val := by
      split <;> omega
    rw [hval]
    rfl

/-- A successful exact read returns exactly `k` bytes. -/
theorem readBytes_ok {k : Nat} {input bs r : List Nat}
    (h : readBytes k input = some (bs, r)) : bs.length = k := by
  unfold readBytes at h
  split at h
  case isTrue hle =>
    simp only [Option.some.injEq, Prod.mk.injEq] at h
    obtain ⟨hbs, -⟩ := h
    rw [← hbs, List.length_take]
    omega
  case isFalse => exact absurd h (by simp)

/-- The reconstructed checkpoint of a well-formed `Checkpoint2` record has
exactly the `uncompressed_unencoded_size` bytes stored in the record, for
every compression/encoding routing that succeeds. -/
theorem decodeCheckpoint_ok_length
    (zd1 zd2 : List Nat → Option (List Nat × List Nat)) (ss : Ctx)
    (cb eb n a b : Nat) (payload cp : List Nat) (ss2 : Ctx) (rest : List Nat)
    (hn : n < 2 ^ 32) (ha : a < 2 ^ 32) (hb : b < 2 ^ 32)
    (h : decodeCheckpoint zd1 zd2 ss
      ([cb, eb] ++ toLE 4 n ++ toLE 4 a ++ toLE 4 b ++ payload)
      = .ok (cp, ss2, rest)) :
    cp.length = n := by
  have h256 : (256 : Nat) ^ 4 = 2 ^ 32 := by norm_num
  simp only [List.append_assoc, List.cons_append, List.nil_append] at h
  simp only [decodeCheckpoint, readByte] at h
  cases hc : compressionOfByte cb with
  | none => rw [hc] at h; exact absurd h (by simp)
  | some comp =>
    rw [hc] at h
    dsimp only at h
    cases he : encodingOfByte eb with
    | none => rw [he] at h; exact absurd h (by simp)
    | some enc =>
      rw [he] at h
      dsimp only at h
      rw [readLE_append_of_lt (by omega)] at h
      dsimp only at h
      rw [readLE_append_of_lt (by omega)] at h
      dsimp only at h
      rw [readLE_append_of_lt (by omega)] at h
      dsimp only at h
      cases comp <;> cases enc
      case none.raw =>
        cases hrb : readBytes n payload with
        | none => rw [hrb] at h; exact absurd h (by simp)
        | some p =>
          obtain ⟨bytes, r⟩ := p
          rw [hrb] at h
          simp only [Except.ok.injEq, Prod.mk.injEq] at h
          obtain ⟨hcp, -, -⟩ := h
          rw [← hcp]
          exact readBytes_ok hrb
      case none.statestream =>
        cases hsd : ssDecode ss n payload with
        | error e => rw [hsd] at h; exact absurd h (by simp)
        | ok p =>
          obtain ⟨ssd, r⟩ := p
          rw [hsd] at h
          simp only [Except.ok.injEq, Prod.mk.injEq] at h
          obtain ⟨hcp, -, -⟩ := h
          rw [← hcp]
          exact ssLoop_ok_length hsd
      case zlib.raw =>
        cases hz : zd1 payload with
        | none => rw [hz] at h; exact absurd h (by simp)
        | some p =>
          obtain ⟨out, r⟩ := p
          rw [hz] at h
          dsimp only at h
          by_cases hlt : n < out.length
          case pos => rw [if_pos hlt] at h; exact absurd h (by simp)
          case neg =>
            rw [if_neg hlt] at h
            simp only [Except.ok.injEq, Prod.mk.injEq] at h
            obtain ⟨hcp, -, -⟩ := h
            rw [← hcp]
            simp only [List.length_append, List.length_replicate]
            omega
      case zlib.statestream =>
        cases hz : zd1 payload with
        | none => rw [hz] at h; exact absurd h (by simp)
        | some p =>
          obtain ⟨out, r⟩ := p
          rw [hz] at h
          dsimp only at h
          cases hsd : ssDecode ss n out with
          | error e => rw [hsd] at h; exact absurd h (by simp)
          | ok q =>
            obtain ⟨ssd, r2⟩ := q
            rw [hsd] at h
            simp only [Except.ok.injEq, Prod.mk.injEq] at h
            obtain ⟨hcp, -, -⟩ := h
            rw [← hcp]
            exact ssLoop_ok_length hsd
      case zstd.raw =>
        cases hz : zd2 payload with
        | none => rw [hz] at h; exact absurd h (by simp)
        | some p =>
          obtain ⟨out, r⟩ := p
          rw [hz] at h
          dsimp only at h
          by_cases hlt : n < out.length
          case pos => rw [if_pos hlt] at h; exact absurd h (by simp)
          case neg =>
            rw [if_neg hlt] at h
            simp only [Except.ok.injEq, Prod.mk.injEq] at h
            obtain ⟨hcp, -, -⟩ := h
            rw [← hcp]
            simp only [List.length_append, List.length_replicate]
            omega
      case zstd.statestream =>
        cases hz : zd2 payload with
        | none => rw [hz] at h; exact absurd h (by simp)
        | some p =>
          obtain ⟨out, r⟩ := p
          rw [hz] at h
          dsimp only at h
          cases hsd : ssDecode ss n out with
          | error e => rw [hsd] at h; exact absurd h (by simp)
          | ok q =>
            obtain ⟨ssd, r2⟩ := q
            rw [hsd] at h
            simp only [Except.ok.injEq, Prod.mk.injEq] at h
            obtain ⟨hcp, -, -⟩ := h
            rw [← hcp]
            exact ssLoop_ok_length hsd

/-- A serialized regular frame record (token `'f'`) parses back. -/
theorem readFrame_regular
    (zd1 zd2 : List Nat → Option (List Nat × List Nat)) (dec : ReplayDecoder)
    (frame : Frame) (br : Nat) (kevs : List KeyData) (ievs : List InputData)
    (rest : List Nat) (hver : dec.header.version = 2)
    (hk : kevs.length < 2 ^ 8) (hi : ievs.length < 2 ^ 16)
    (hkWF : ∀ k ∈ kevs, k.modf < 2 ^ 16 ∧ k.code < 2 ^ 32 ∧ k.chr < 2 ^ 32)
    (hiWF : ∀ i ∈ ievs, i.id < 2 ^ 16 ∧ -(2 ^ 15) ≤ i.val ∧ i.val < 2 ^ 15) :
    readFrame zd1 zd2 dec frame
      (toLE 4 br ++ [kevs.length] ++ kevs.flatMap keyEventBytes
        ++ toLE 2 ievs.length ++ ievs.flatMap inputEventBytes ++ [102] ++ rest)
      = .ok ({ dec with frame_number := dec.frame_number + 1 },
          Frame.mk kevs ievs [] .none .raw, rest) := by
  simp only [List.append_assoc, List.cons_append, List.nil_append]
  simp only [readFrame, hver]
  rw [if_neg (by norm_num)]
  rw [if_pos (by norm_num)]
  rw [readBytes_append (toLE_length 4 br)]
  dsimp only [Option.map, readByte]
  rw [readKeyEvents_append kevs _ hkWF]
  dsimp only
  rw [readLE_append_of_lt (by omega)]
  dsimp only
  rw [readInputEvents_append ievs _ hiWF]
  dsimp only [readByte]
  rw [if_pos rfl]

/-- A serialized `Checkpoint2` frame record (token `'C'`) parses back:
the checkpoint bytes come from `decode_checkpoint`, and the
compression/encoding metadata comes from the caller's `frame`, not from
the bytes stored in the record. -/
theorem readFrame_checkpoint2
    (zd1 zd2 : List Nat → Option (List Nat × List Nat)) (dec : ReplayDecoder)
    (frame : Frame) (br : Nat) (kevs : List KeyData) (ievs : List InputData)
    (cpInput cp : List Nat) (ss2 : Ctx) (rest : List Nat)
    (hver : dec.header.version = 2)
    (hk : kevs.length < 2 ^ 8) (hi : ievs.length < 2 ^ 16)
    (hkWF : ∀ k ∈ kevs, k.modf < 2 ^ 16 ∧ k.code < 2 ^ 32 ∧ k.chr < 2 ^ 32)
    (hiWF : ∀ i ∈ ievs, i.id < 2 ^ 16 ∧ -(2 ^ 15) ≤ i.val ∧ i.val < 2 ^ 15)
    (hcp : decodeCheckpoint zd1 zd2 dec.ss_state cpInput = .ok (cp, ss2, rest)) :
    readFrame zd1 zd2 dec frame
      (toLE 4 br ++ [kevs.length] ++ kevs.flatMap keyEventBytes
        ++ toLE 2 ievs.length ++ ievs.flatMap inputEventBytes ++ [67] ++ cpInput)
      = .ok (ReplayDecoder.mk dec.header dec.initial_state
            (dec.frame_number + 1) ss2,
          Frame.mk kevs ievs cp frame.checkpoint_compression
            frame.checkpoint_encoding, rest) := by
  simp only [List.append_assoc, List.cons_append, List.nil_append]
  simp only [readFrame, hver]
  rw [if_neg (by norm_num)]
  rw [if_pos (by norm_num)]
  rw [readBytes_append (toLE_length 4 br)]
  dsimp only [Option.map, readByte]
  rw [readKeyEvents_append kevs _ hkWF]
  dsimp only
  rw [readLE_append_of_lt (by omega)]
  dsimp only
  rw [readInputEvents_append ievs _ hiWF]
  dsimp only [readByte]
  rw [if_neg (by norm_num)]
  rw [if_neg (by norm_num)]
  rw [if_pos rfl]
  rw [hcp]

/-- The compression discriminant byte round-trips. -/
theorem compressionOfByte_compressionByte (comp : Compression) :
    compressionOfByte (compressionByte comp) = some comp := by
  cases comp <;> rfl

/-- The v2 header serialization is 40 bytes. -/
theorem headerBytesV2_length (v2 : HeaderV2) :
    (headerBytesV2 v2).length = 40 := by
  simp [headerBytesV2, toLE_length]

/-- `read_header` recovers every field of a written v2 header whose
fields fit their wire widths. -/
theorem readHeader_headerBytesV2 (v2 : HeaderV2) (rest : List Nat)
    (hcrc : v2.base.content_crc < 2 ^ 32)
    (hiss : v2.base.initial_state_size < 2 ^ 32)
    (hid : v2.base.identifier < 2 ^ 64) (hfc : v2.frame_count < 2 ^ 32)
    (hbs : v2.block_size < 2 ^ 32) (hsbs : v2.superblock_size < 2 ^ 32)
    (hcci : v2.checkpoint_commit_interval < 2 ^ 8)
    (hcct : v2.checkpoint_commit_threshold < 2 ^ 8) :
    readHeader (headerBytesV2 v2 ++ rest)
      = .ok (.v2 ⟨⟨2, v2.base.content_crc, v2.base.initial_state_size,
          v2.base.identifier⟩, v2.frame_count, v2.block_size,
          v2.superblock_size, v2.checkpoint_commit_interval,
          v2.checkpoint_commit_threshold, v2.checkpoint_compression⟩,
        rest) := by
  have hcb : compressionByte v2.checkpoint_compression < 4 := by
    cases v2.checkpoint_compression <;> norm_num [compressionByte]
  simp only [headerBytesV2, List.append_assoc]
  simp only [readHeader, readLEx]
  rw [readLE_append_of_lt (by norm_num [MAGIC])]
  dsimp only
  rw [if_neg (by simp)]
  rw [readLE_append_of_lt (by norm_num)]
  dsimp only
  rw [if_neg (by norm_num)]
  rw [readLE_append_of_lt (by omega)]
  dsimp only
  rw [readLE_append_of_lt (by omega)]
  dsimp only
  rw [readLE_append_of_lt (by omega)]
  dsimp only
  rw [if_neg (by norm_num)]
  rw [readLE_append_of_lt (by omega)]
  dsimp only
  rw [readLE_append_of_lt (by omega)]
  dsimp only
  rw [readLE_append_of_lt (by omega)]
  dsimp only
  rw [readLE_append_of_lt (show v2.checkpoint_commit_interval * 2 ^ 24
    + v2.checkpoint_commit_threshold * 2 ^ 16
    + compressionByte v2.checkpoint_compression * 2 ^ 8 < 256 ^ 4 by omega)]
  dsimp only
  have hdiv : (v2.checkpoint_commit_interval * 2 ^ 24
      + v2.checkpoint_commit_threshold * 2 ^ 16
      + compressionByte v2.checkpoint_compression * 2 ^ 8) / 2 ^ 8 % 2 ^ 8
    = compressionByte v2.checkpoint_compression := by omega
  rw [hdiv, compressionOfByte_compressionByte]
  dsimp only
  have h24 : (v2.checkpoint_commit_interval * 2 ^ 24
      + v2.checkpoint_commit_threshold * 2 ^ 16
      + compressionByte v2.checkpoint_compression * 2 ^ 8) / 2 ^ 24
    = v2.checkpoint_commit_interval := by omega
  have h16 : (v2.checkpoint_commit_interval * 2 ^ 24
      + v2.checkpoint_commit_threshold * 2 ^ 16
      + compressionByte v2.checkpoint_compression * 2 ^ 8) / 2 ^ 16 % 2 ^ 8
    = v2.checkpoint_commit_threshold := by omega
  rw [h24, h16]

/-- Wire-width well-formedness of a state-stream context's indexes. -/
def SSWF (ctx : Ctx) : Prop :=
  ctx.block_index.object_size = ctx.block_size ∧
  ctx.superblock_index.object_size = ctx.superblock_size ∧
  ctx.block_index.objects.length ≤ 2 ^ 32 ∧
  ctx.superblock_index.objects.length ≤ 2 ^ 32

/-- The encoder and decoder state-stream contexts agree on configuration
and on both indexes (their `last_state` / `last_superseq` may differ). -/
def SSSync (ctxE ctxD : Ctx) : Prop :=
  ctxD.block_size = ctxE.block_size ∧
  ctxD.superblock_size = ctxE.superblock_size ∧
  ctxD.block_index = ctxE.block_index ∧
  ctxD.superblock_index = ctxE.superblock_index

/-- A successful state-stream encode preserves the configuration, the
index object sizes, and the `u32` index-size bounds. -/
theorem encodeCheckpointSS_inv {ctx ctx2 : Ctx} {S bytes : List Nat}
    {frame : Nat} (hwf : SSWF ctx)
    (h : encodeCheckpointSS ctx S frame = some (ctx2, bytes)) :
    ctx2.block_size = ctx.block_size ∧
    ctx2.superblock_size = ctx.superblock_size ∧ SSWF ctx2 := by
  obtain ⟨hob, hos, hlb, hls⟩ := hwf
  simp only [encodeCheckpointSS] at h
  split at h
  case isFalse => exact absurd h (by simp)
  case isTrue hg =>
    simp only [Option.bind_eq_some, Option.map_eq_some'] at h
    obtain ⟨⟨bi2, ids, toks⟩, hins, h2⟩ := h
    obtain ⟨⟨si2, sids, stoks⟩, hins2, h3⟩ := h2
    split at h3
    case isFalse => exact absurd h3 (by simp)
    case isTrue hbl =>
      simp only [Option.some.injEq, Prod.mk.injEq] at h3
      obtain ⟨hc2, -⟩ := h3
      obtain ⟨-, hsz1, hlen1, -, -, -⟩ := insertObjs_spec hlb hins
      obtain ⟨-, hsz2, hlen2, -, -, -⟩ := insertObjs_spec hls hins2
      rw [← hc2]
      exact ⟨rfl, rfl, by rw [hsz1, hob], by rw [hsz2, hos],
        hlen1, hlen2⟩

/-- Decoding an encoded checkpoint record: the routing reads back the
record header, undoes the compression (via the decompressor laws), runs
the state-stream decoder, and reconstructs exactly the checkpoint bytes,
leaving the synchronized context. -/
theorem decodeCheckpoint_record (zc zsc : List Nat → List Nat)
    (zd1 zd2 : List Nat → Option (List Nat × List Nat))
    (hz1 : ∀ bs rest, zd1 (zc bs ++ rest) = some (bs, rest))
    (hz2 : ∀ bs rest, zd2 (zsc bs ++ rest) = some (bs, rest))
    (comp : Compression) {ctxE ctxE2 : Ctx} (ls lq : List Nat)
    {S ssBytes : List Nat} (rest : List Nat) {frame : Nat}
    (hbs : 0 < ctxE.block_size) (hsbs : 0 < ctxE.superblock_size)
    (hwf : SSWF ctxE) (hS32 : S.length < 2 ^ 32)
    (henc : encodeCheckpointSS ctxE S frame = some (ctxE2, ssBytes)) :
    decodeCheckpoint zd1 zd2
        (Ctx.mk ctxE.block_size ctxE.superblock_size ls lq
          ctxE.block_index ctxE.superblock_index)
        ([compressionByte comp, 1] ++ toLE 4 S.length ++ toLE 4 ssBytes.length
          ++ toLE 4 (ccPayload zc zsc comp ssBytes).length
          ++ (ccPayload zc zsc comp ssBytes ++ rest))
      = .ok (S, Ctx.mk ctxE.block_size ctxE.superblock_size S
          ctxE2.last_superseq ctxE2.block_index ctxE2.superblock_index,
        rest) := by
  obtain ⟨hob, hos, hlb, hls⟩ := hwf
  have hsd : ssDecode (Ctx.mk ctxE.block_size ctxE.superblock_size ls lq
        ctxE.block_index ctxE.superblock_index) S.length (ssBytes ++ rest)
      = .ok (Ctx.mk ctxE.block_size ctxE.superblock_size S
          ctxE2.last_superseq ctxE2.block_index ctxE2.superblock_index,
        rest) :=
    ssRoundtrip hbs hsbs hob hos hlb hls henc
  have hsd0 : ssDecode (Ctx.mk ctxE.block_size ctxE.superblock_size ls lq
        ctxE.block_index ctxE.superblock_index) S.length ssBytes
      = .ok (Ctx.mk ctxE.block_size ctxE.superblock_size S
          ctxE2.last_superseq ctxE2.block_index ctxE2.superblock_index,
        []) := by
    have h := @ssRoundtrip ctxE ctxE2 ls lq S ssBytes [] frame
      hbs hsbs hob hos hlb hls henc
    rw [List.append_nil] at h
    exact h
  simp only [List.append_assoc, List.cons_append, List.nil_append]
  simp only [decodeCheckpoint, readByte]
  rw [compressionOfByte_compressionByte]
  dsimp only
  rw [show encodingOfByte 1 = some Encoding.statestream from rfl]
  dsimp only
  rw [readLE_append_of_lt (by omega)]
  dsimp only
  rw [readLE_append]
  dsimp only
  rw [readLE_append]
  dsimp only
  cases comp
  case none =>
    simp only [ccPayload]
    rw [hsd]
  case zlib =>
    simp only [ccPayload]
    rw [hz1]
    dsimp only
    rw [hsd0]
  case zstd =>
    simp only [ccPayload]
    rw [hz2]
    dsimp only
    rw [hsd0]

/-- Writing at the cursor when the cursor sits at the end of the data
appends. -/
theorem WFile.write_end (f : WFile) (bs : List Nat) (hpos : f.pos = f.data.length) :
    f.write bs = ⟨f.data ++ bs, (f.data ++ bs).length⟩ := by
  simp [WFile.write, hpos, storeAt_append_end, List.length_append]

/-- Layout of one frame record as `write_frame` appends it (cursor at end
of data): backref, key events, input events, then either the plain `'f'`
token or `'C'` plus a full checkpoint record. -/
theorem writeFrame_spec (zc zsc : List Nat → List Nat)
    (enc enc2 : ReplayEncoder) (f f2 : WFile) (fr : Frame)
    (hpos : f.pos = f.data.length)
    (h : writeFrame zc zsc enc f fr = .ok (enc2, f2)) :
    fr.key_events.length < 2 ^ 8 ∧ fr.input_events.length < 2 ^ 16 ∧
    f2.pos = f2.data.length ∧
    ((fr.checkpoint_bytes = [] ∧
      enc2 = ReplayEncoder.mk enc.header (enc.frame_number + 1) f.pos
        enc.ss_state enc.finished ∧
      f2.data = f.data ++ (toLE 4 (f.pos - enc.last_pos)
        ++ [fr.key_events.length] ++ fr.key_events.flatMap keyEventBytes
        ++ toLE 2 fr.input_events.length
        ++ fr.input_events.flatMap inputEventBytes ++ [102])) ∨
     (fr.checkpoint_bytes ≠ [] ∧ ∃ ss2 ssBytes,
      encodeCheckpointSS enc.ss_state fr.checkpoint_bytes enc.frame_number
        = some (ss2, ssBytes) ∧
      fr.checkpoint_bytes.length < 2 ^ 32 ∧
      enc2 = ReplayEncoder.mk enc.header (enc.frame_number + 1) f.pos ss2
        enc.finished ∧
      f2.data = f.data ++ (toLE 4 (f.pos - enc.last_pos)
        ++ [fr.key_events.length] ++ fr.key_events.flatMap keyEventBytes
        ++ toLE 2 fr.input_events.length
        ++ fr.input_events.flatMap inputEventBytes ++ [67]
        ++ ([compressionByte enc.header.checkpoint_compression, 1]
          ++ toLE 4 fr.checkpoint_bytes.length ++ toLE 4 ssBytes.length
          ++ toLE 4 (ccPayload zc zsc
              enc.header.checkpoint_compression ssBytes).length
          ++ ccPayload zc zsc enc.header.checkpoint_compression ssBytes)))) := by
  simp only [writeFrame] at h
  split at h
  case isFalse => exact absurd h (by simp)
  case isTrue hbr =>
  split at h
  case isFalse => exact absurd h (by simp)
  case isTrue hk =>
  split at h
  case isFalse => exact absurd h (by simp)
  case isTrue hi =>
  refine ⟨hk, hi, ?_⟩
  rw [WFile.write_end f _ hpos] at h
  rw [WFile.write_end (WFile.mk (f.data ++ toLE 4 (f.pos - enc.last_pos))
    ((f.data ++ toLE 4 (f.pos - enc.last_pos)).length)) _ rfl] at h
  rw [WFile.write_end (WFile.mk ((f.data ++ toLE 4 (f.pos - enc.last_pos))
      ++ ([fr.key_events.length] ++ fr.key_events.flatMap keyEventBytes))
    (((f.data ++ toLE 4 (f.pos - enc.last_pos))
      ++ ([fr.key_events.length]
        ++ fr.key_events.flatMap keyEventBytes)).length)) _ rfl] at h
  split at h
  case isTrue hcp =>
    rw [WFile.write_end _ _ rfl] at h
    simp only [Except.ok.injEq, Prod.mk.injEq] at h
    obtain ⟨henc2, hf2⟩ := h
    constructor
    · rw [← hf2]
    refine Or.inl ⟨hcp, ?_, ?_⟩
    · rw [← henc2]
    · rw [← hf2]
      simp [List.append_assoc]
  case isFalse hcp =>
    rw [WFile.write_end _ _ rfl] at h
    split at h
    case h_1 e heq => exact absurd h (by simp)
    case h_2 encW fW heq =>
      simp only [Except.ok.injEq, Prod.mk.injEq] at h
      obtain ⟨henc2, hf2⟩ := h
      obtain ⟨ss2, ssBytes, hss, hencW, hdata, hposW⟩ :=
        encodeCheckpointW_spec zc zsc enc encW _ fW
          fr.checkpoint_bytes enc.frame_number heq
      dsimp only at hdata hposW
      rw [storeAt_append_end] at hdata
      have hcp32 : fr.checkpoint_bytes.length < 2 ^ 32 := by
        by_contra hc
        simp only [encodeCheckpointW] at heq
        rw [if_neg hc] at heq
        exact absurd heq (by simp)
      refine ⟨?_, Or.inr ⟨hcp, ss2, ssBytes, hss, hcp32, ?_, ?_⟩⟩
      · rw [← hf2, hposW, hdata]
        simp only [List.length_append, List.length_cons, List.length_nil,
          toLE_length]
        omega
      · rw [← henc2, hencW]
      · rw [← hf2, hdata]
        simp [List.append_assoc]

/-- A context synchronized with `e` is `e`'s configuration and indexes
around its own `last_state` / `last_superseq`. -/
theorem SSSync.eq_mk {e d : Ctx} (h : SSSync e d) :
    d = Ctx.mk e.block_size e.superblock_size d.last_state d.last_superseq
      e.block_index e.superblock_index := by
  obtain ⟨h1, h2, h3, h4⟩ := h
  cases d
  dsimp only at h1 h2 h3 h4 ⊢
  rw [h1, h2, h3, h4]

/-- Frame-stream roundtrip: the frames `write_frame` appends parse back
with `read_frame` in order, semantically unchanged, for any decoder whose
state-stream context is synchronized with the encoder's. -/
theorem writeFrames_roundtrip (zc zsc : List Nat → List Nat)
    (zd1 zd2 : List Nat → Option (List Nat × List Nat))
    (hz1 : ∀ bs rest, zd1 (zc bs ++ rest) = some (bs, rest))
    (hz2 : ∀ bs rest, zd2 (zsc bs ++ rest) = some (bs, rest)) :
    ∀ (frames : List Frame) (encE encE2 : ReplayEncoder) (f f2 : WFile),
    f.pos = f.data.length →
    0 < encE.ss_state.block_size → 0 < encE.ss_state.superblock_size →
    SSWF encE.ss_state →
    (∀ fr ∈ frames, Frame.WF fr) →
    writeFrames zc zsc encE f frames = .ok (encE2, f2) →
    encE2.header = encE.header ∧
    encE2.frame_number = encE.frame_number + frames.length ∧
    encE2.finished = encE.finished ∧
    f2.pos = f2.data.length ∧
    0 < encE2.ss_state.block_size ∧ 0 < encE2.ss_state.superblock_size ∧
    SSWF encE2.ss_state ∧
    ∃ tb, f2.data = f.data ++ tb ∧
      ∀ (dec : ReplayDecoder) (rest : List Nat),
        dec.header.version = 2 →
        SSSync encE.ss_state dec.ss_state →
        ∃ dec2 frames2,
          readFrames zd1 zd2 dec (tb ++ rest) frames.length
            = .ok (dec2, frames2, rest) ∧
          frames2.map Frame.sem = frames.map Frame.sem ∧
          dec2.header = dec.header ∧
          dec2.initial_state = dec.initial_state ∧
          SSSync encE2.ss_state dec2.ss_state := by
  intro frames
  induction frames with
  | nil =>
    intro encE encE2 f f2 hpos hbs hsbs hwf hWF h
    simp only [writeFrames, Except.ok.injEq, Prod.mk.injEq] at h
    obtain ⟨h1, h2⟩ := h
    subst h1 h2
    refine ⟨rfl, by simp, rfl, hpos, hbs, hsbs, hwf, [], by simp, ?_⟩
    intro dec rest hver hsync
    exact ⟨dec, [], by simp [readFrames], rfl, rfl, rfl, hsync⟩
  | cons fr frs ih =>
    intro encE encE2 f f2 hpos hbs hsbs hwf hWF h
    simp only [writeFrames] at h
    split at h
    case h_1 e heq => exact absurd h (by simp)
    case h_2 enc1 f1 heq =>
      obtain ⟨hk, hi, hpos1, hcase⟩ :=
        writeFrame_spec zc zsc encE enc1 f f1 fr hpos heq
      rcases hcase with ⟨hcpe, henc1, hdata1⟩ | ⟨hcpne, ss2, ssBytes, hss,
          hcp32, henc1, hdata1⟩
      · subst henc1
        obtain ⟨ihh, ihfn, ihfin, ihpos, ihbs, ihsbs, ihwf, tb, ihdata, ihdec⟩ :=
          ih (ReplayEncoder.mk encE.header (encE.frame_number + 1) f.pos
              encE.ss_state encE.finished) encE2 f1 f2 hpos1 hbs hsbs hwf
            (fun x hx => hWF x (by simp [hx])) h
        refine ⟨ihh, by rw [ihfn]; simp; omega, by rw [ihfin], ihpos, ihbs,
          ihsbs, ihwf,
          (toLE 4 (f.pos - encE.last_pos)
            ++ [fr.key_events.length] ++ fr.key_events.flatMap keyEventBytes
            ++ toLE 2 fr.input_events.length
            ++ fr.input_events.flatMap inputEventBytes ++ [102]) ++ tb,
          by rw [ihdata, hdata1, List.append_assoc], ?_⟩
        intro dec rest hver hsync
        obtain ⟨hwk, hwi⟩ := hWF fr (by simp)
        have hrf := readFrame_regular zd1 zd2 dec default
          (f.pos - encE.last_pos) fr.key_events fr.input_events (tb ++ rest)
          hver hk hi hwk hwi
        obtain ⟨dec2, frames2, hrd, hsem, hdh, hdi, hds⟩ :=
          ihdec (ReplayDecoder.mk dec.header dec.initial_state
            (dec.frame_number + 1) dec.ss_state) rest hver hsync
        refine ⟨dec2, Frame.mk fr.key_events fr.input_events [] .none .raw
          :: frames2, ?_, ?_, hdh, hdi, hds⟩
        · simp only [readFrames]
          rw [show ((toLE 4 (f.pos - encE.last_pos)
              ++ [fr.key_events.length] ++ fr.key_events.flatMap keyEventBytes
              ++ toLE 2 fr.input_events.length
              ++ fr.input_events.flatMap inputEventBytes ++ [102]) ++ tb)
              ++ rest
            = toLE 4 (f.pos - encE.last_pos)
              ++ [fr.key_events.length] ++ fr.key_events.flatMap keyEventBytes
              ++ toLE 2 fr.input_events.length
              ++ fr.input_events.flatMap inputEventBytes ++ [102]
              ++ (tb ++ rest) by simp [List.append_assoc]]
          rw [hrf]
          dsimp only
          rw [show ({ dec with frame_number := dec.frame_number + 1 }
              : ReplayDecoder)
            = ReplayDecoder.mk dec.header dec.initial_state
              (dec.frame_number + 1) dec.ss_state from rfl]
          rw [hrd]
        · simp only [List.map_cons, hsem, Frame.sem, hcpe]
      · subst henc1
        obtain ⟨hbs2, hsbs2, hwf2⟩ := encodeCheckpointSS_inv hwf hss
        obtain ⟨ihh, ihfn, ihfin, ihpos, ihbs, ihsbs, ihwf, tb, ihdata, ihdec⟩ :=
          ih (ReplayEncoder.mk encE.header (encE.frame_number + 1) f.pos
              ss2 encE.finished) encE2 f1 f2 hpos1
            (by dsimp only; rw [hbs2]; exact hbs)
            (by dsimp only; rw [hsbs2]; exact hsbs)
            hwf2 (fun x hx => hWF x (by simp [hx])) h
        refine ⟨ihh, by rw [ihfn]; simp; omega, by rw [ihfin], ihpos, ihbs,
          ihsbs, ihwf,
          (toLE 4 (f.pos - encE.last_pos)
            ++ [fr.key_events.length] ++ fr.key_events.flatMap keyEventBytes
            ++ toLE 2 fr.input_events.length
            ++ fr.input_events.flatMap inputEventBytes ++ [67]
            ++ ([compressionByte encE.header.checkpoint_compression, 1]
              ++ toLE 4 fr.checkpoint_bytes.length ++ toLE 4 ssBytes.length
              ++ toLE 4 (ccPayload zc zsc
                  encE.header.checkpoint_compression ssBytes).length
              ++ ccPayload zc zsc encE.header.checkpoint_compression ssBytes))
            ++ tb,
          by rw [ihdata, hdata1, List.append_assoc], ?_⟩
        intro dec rest hver hsync
        obtain ⟨hwk, hwi⟩ := hWF fr (by simp)
        have hdc := decodeCheckpoint_record zc zsc zd1 zd2 hz1 hz2
          encE.header.checkpoint_compression dec.ss_state.last_state
          dec.ss_state.last_superseq (tb ++ rest) hbs hsbs hwf hcp32 hss
        rw [← SSSync.eq_mk hsync] at hdc
        have hrf := readFrame_checkpoint2 zd1 zd2 dec default
          (f.pos - encE.last_pos) fr.key_events fr.input_events
          ([compressionByte encE.header.checkpoint_compression, 1]
            ++ toLE 4 fr.checkpoint_bytes.length ++ toLE 4 ssBytes.length
            ++ toLE 4 (ccPayload zc zsc
                encE.header.checkpoint_compression ssBytes).length
            ++ (ccPayload zc zsc encE.header.checkpoint_compression ssBytes
              ++ (tb ++ rest)))
          fr.checkpoint_bytes
          (Ctx.mk encE.ss_state.block_size encE.ss_state.superblock_size
            fr.checkpoint_bytes ss2.last_superseq ss2.block_index
            ss2.superblock_index)
          (tb ++ rest) hver hk hi hwk hwi hdc
        have hsync2 : SSSync ss2
            (Ctx.mk encE.ss_state.block_size encE.ss_state.superblock_size
              fr.checkpoint_bytes ss2.last_superseq ss2.block_index
              ss2.superblock_index) := by
          exact ⟨by dsimp only; rw [hbs2], by dsimp only; rw [hsbs2],
            rfl, rfl⟩
        obtain ⟨dec2, frames2, hrd, hsem, hdh, hdi, hds⟩ :=
          ihdec (ReplayDecoder.mk dec.header dec.initial_state
            (dec.frame_number + 1)
            (Ctx.mk encE.ss_state.block_size encE.ss_state.superblock_size
              fr.checkpoint_bytes ss2.last_superseq ss2.block_index
              ss2.superblock_index)) rest hver hsync2
        refine ⟨dec2, Frame.mk fr.key_events fr.input_events
          fr.checkpoint_bytes (default : Frame).checkpoint_compression
          (default : Frame).checkpoint_encoding :: frames2, ?_, ?_, hdh,
          hdi, hds⟩
        · simp only [readFrames]
          rw [show (((toLE 4 (f.pos - encE.last_pos)
              ++ [fr.key_events.length] ++ fr.key_events.flatMap keyEventBytes
              ++ toLE 2 fr.input_events.length
              ++ fr.input_events.flatMap inputEventBytes ++ [67]
              ++ ([compressionByte encE.header.checkpoint_compression, 1]
                ++ toLE 4 fr.checkpoint_bytes.length ++ toLE 4 ssBytes.length
                ++ toLE 4 (ccPayload zc zsc
                    encE.header.checkpoint_compression ssBytes).length
                ++ ccPayload zc zsc encE.header.checkpoint_compression
                  ssBytes)) ++ tb) ++ rest)
            = toLE 4 (f.pos - encE.last_pos)
              ++ [fr.key_events.length] ++ fr.key_events.flatMap keyEventBytes
              ++ toLE 2 fr.input_events.length
              ++ fr.input_events.flatMap inputEventBytes ++ [67]
              ++ ([compressionByte encE.header.checkpoint_compression, 1]
                ++ toLE 4 fr.checkpoint_bytes.length ++ toLE 4 ssBytes.length
                ++ toLE 4 (ccPayload zc zsc
                    encE.header.checkpoint_compression ssBytes).length
                ++ (ccPayload zc zsc encE.header.checkpoint_compression
                  ssBytes ++ (tb ++ rest))) by simp [List.append_assoc]]
          rw [hrf]
          dsimp only
          rw [hrd]
        · simp only [List.map_cons, hsem, Frame.sem]

theorem storeAt_nil (bs : List Nat) : storeAt [] 0 bs = bs := by
  simp [storeAt]

/-- What `ReplayEncoder::new` produces for a v2 header and a nonempty
initial state: the 40 header bytes (frame count 0, initial size patched
to the record length) followed by the initial checkpoint record, cursor
at the end, `last_pos` behind the record. -/
theorem ReplayEncoder.new_v2_spec (zc zsc : List Nat → List Nat)
    (v2 : HeaderV2) (initial : List Nat) (enc1 : ReplayEncoder) (f1 : WFile)
    (hver : v2.base.version = 2) (hinit : initial ≠ [])
    (h : ReplayEncoder.new zc zsc (.v2 v2) initial ⟨[], 0⟩ = .ok (enc1, f1)) :
    ∃ ss1 ssBytes,
      encodeCheckpointSS (Ctx.new v2.block_size v2.superblock_size) initial 0
        = some (ss1, ssBytes) ∧
      initial.length < 2 ^ 32 ∧
      14 + (ccPayload zc zsc v2.checkpoint_compression ssBytes).length
        < 2 ^ 32 ∧
      enc1 = ReplayEncoder.mk
        (.v2 ⟨⟨v2.base.version, v2.base.content_crc,
          14 + (ccPayload zc zsc v2.checkpoint_compression ssBytes).length,
          v2.base.identifier⟩, 0, v2.block_size, v2.superblock_size,
          v2.checkpoint_commit_interval, v2.checkpoint_commit_threshold,
          v2.checkpoint_compression⟩)
        0
        (40 + (14 + (ccPayload zc zsc v2.checkpoint_compression
          ssBytes).length))
        ss1 false ∧
      f1.data = headerBytesV2 ⟨⟨v2.base.version, v2.base.content_crc,
          14 + (ccPayload zc zsc v2.checkpoint_compression ssBytes).length,
          v2.base.identifier⟩, 0, v2.block_size, v2.superblock_size,
          v2.checkpoint_commit_interval, v2.checkpoint_commit_threshold,
          v2.checkpoint_compression⟩
        ++ ([compressionByte v2.checkpoint_compression, 1]
          ++ toLE 4 initial.length ++ toLE 4 ssBytes.length
          ++ toLE 4 (ccPayload zc zsc v2.checkpoint_compression
              ssBytes).length
          ++ ccPayload zc zsc v2.checkpoint_compression ssBytes) ∧
      f1.pos = f1.data.length := by
  simp only [ReplayEncoder.new] at h
  rw [if_neg (by simp [Header.version, hver])] at h
  simp only [writeHeader, Header.setFrameCount, Header.upgrade] at h
  rw [if_pos (show (0 : Nat) < 2 ^ 32 by norm_num)] at h
  rw [if_pos (show (0 : Nat) < 2 ^ 32 by norm_num)] at h
  dsimp only at h
  rw [if_neg hinit] at h
  simp only [encodeInitialCheckpoint] at h
  split at h
  case h_1 e heq => exact absurd h (by simp)
  case h_2 encW fW heq =>
    obtain ⟨ss1, ssBytes, hss, hencW, hdata, hposW⟩ :=
      encodeCheckpointW_spec zc zsc _ encW _ fW initial 0 heq
    have hcp32 : initial.length < 2 ^ 32 := by
      by_contra hc
      simp only [encodeCheckpointW] at heq
      rw [if_neg hc] at heq
      exact absurd heq (by simp)
    dsimp only [WFile.seek, Header.checkpoint_compression, Header.block_size,
      Header.superblock_size] at hss hencW hdata hposW h
    simp only [storeAt_nil] at hdata
    have hdata2 : fW.data = headerBytesV2
        ⟨v2.base, 0, v2.block_size, v2.superblock_size,
          v2.checkpoint_commit_interval, v2.checkpoint_commit_threshold,
          v2.checkpoint_compression⟩
        ++ ([compressionByte v2.checkpoint_compression, 1]
          ++ toLE 4 initial.length ++ toLE 4 ssBytes.length
          ++ toLE 4 (ccPayload zc zsc v2.checkpoint_compression
              ssBytes).length
          ++ ccPayload zc zsc v2.checkpoint_compression ssBytes) := by
      rw [hdata]
      rw [show (40 : Nat) = (headerBytesV2
        ⟨v2.base, 0, v2.block_size, v2.superblock_size,
          v2.checkpoint_commit_interval, v2.checkpoint_commit_threshold,
          v2.checkpoint_compression⟩).length
        from (headerBytesV2_length _).symm]
      rw [storeAt_append_end]
    rw [hposW] at h
    rw [show (40 : Nat) + 14
        + (ccPayload zc zsc v2.checkpoint_compression ssBytes).length - 40
      = 14 + (ccPayload zc zsc v2.checkpoint_compression ssBytes).length
      by omega] at h
    split at h
    case isFalse => exact absurd h (by simp)
    case isTrue hiss32 =>
    rw [hencW] at h
    dsimp only [Header.setInitialStateSize] at h
    simp only [writeHeader, Header.setFrameCount, Header.upgrade] at h
    rw [if_pos (show (0 : Nat) < 2 ^ 32 by norm_num)] at h
    rw [if_pos (show (0 : Nat) < 2 ^ 32 by norm_num)] at h
    dsimp only at h
    rw [hdata2] at h
    rw [storeAt_replace_front _ (by rw [headerBytesV2_length, headerBytesV2_length])] at h
    simp only [Except.ok.injEq, Prod.mk.injEq] at h
    obtain ⟨henc1, hf1⟩ := h
    refine ⟨ss1, ssBytes, hss, hcp32, hiss32, ?_, ?_, ?_⟩
    · rw [← henc1, hposW]
      simp [Nat.add_assoc]
      omega
    · rw [← hf1]
    · rw [← hf1, hposW]
      dsimp only
      simp only [List.length_append, List.length_cons, List.length_nil,
        toLE_length, headerBytesV2_length]
      omega

/-- `ReplayDecoder::new` on a parsed v2 header and a decodable initial
checkpoint record. -/
theorem ReplayDecoder.new_v2_of (zd1 zd2 : List Nat → Option (List Nat × List Nat))
    (input r rest : List Nat) (hv2 : HeaderV2) (bytes : List Nat) (ctx2 : Ctx)
    (hrh : readHeader input = .ok (.v2 hv2, r))
    (hdc : decodeCheckpoint zd1 zd2
      (Ctx.new hv2.block_size hv2.superblock_size) r = .ok (bytes, ctx2, rest)) :
    ReplayDecoder.new zd1 zd2 input
      = .ok (ReplayDecoder.mk (.v2 hv2) bytes 0 ctx2, rest) := by
  unfold ReplayDecoder.new
  rw [hrh]
  dsimp only
  rw [hdc]

/-- C1 (amended): full container roundtrip for a NONEMPTY initial state
and well-formed frames, with the frame comparison on the semantic fields
(`Frame.sem`): decoding the encoded bytes recovers the header (its
version byte written as 2, its `frame_count` rewritten by `finish` to the
number of frames written and its `initial_state_size` to the initial
record's length), the initial state, and semantically equal frames in
order.  The compressors are opaque; the decompressors are assumed to be
their stream inverses. -/
theorem claim_C1_container_roundtrip (zc zsc : List Nat → List Nat)
    (zd1 zd2 : List Nat → Option (List Nat × List Nat))
    (hz1 : ∀ bs rest, zd1 (zc bs ++ rest) = some (bs, rest))
    (hz2 : ∀ bs rest, zd2 (zsc bs ++ rest) = some (bs, rest))
    (v2 : HeaderV2) (initial : List Nat) (frames : List Frame)
    (encR : ReplayEncoder) (fR : WFile)
    (hver : v2.base.version = 2)
    (hbs : 0 < v2.block_size) (hsbs : 0 < v2.superblock_size)
    (hcrc : v2.base.content_crc < 2 ^ 32) (hid : v2.base.identifier < 2 ^ 64)
    (hbs32 : v2.block_size < 2 ^ 32) (hsbs32 : v2.superblock_size < 2 ^ 32)
    (hcci : v2.checkpoint_commit_interval < 2 ^ 8)
    (hcct : v2.checkpoint_commit_threshold < 2 ^ 8)
    (hfr32 : frames.length < 2 ^ 32)
    (hinit : initial ≠ [])
    (hWF : ∀ fr ∈ frames, Frame.WF fr)
    (henc : replayEncode zc zsc (.v2 v2) initial frames = .ok (encR, fR)) :
    ∃ iss dec dec2 frames2 rest2,
      ReplayDecoder.new zd1 zd2 fR.data = .ok (dec, rest2) ∧
      dec.header = .v2 ⟨⟨2, v2.base.content_crc, iss, v2.base.identifier⟩,
        frames.length, v2.block_size, v2.superblock_size,
        v2.checkpoint_commit_interval, v2.checkpoint_commit_threshold,
        v2.checkpoint_compression⟩ ∧
      dec.initial_state = initial ∧
      readFrames zd1 zd2 dec rest2 frames.length = .ok (dec2, frames2, []) ∧
      frames2.map Frame.sem = frames.map Frame.sem := by
  simp only [replayEncode] at henc
  split at henc
  case h_1 e heq => exact absurd henc (by simp)
  case h_2 enc1 f1 hnew =>
  obtain ⟨ss1, ssBytes, hss, hcp32, hiss32, henc1, hf1data, hf1pos⟩ :=
    ReplayEncoder.new_v2_spec zc zsc v2 initial enc1 f1 hver hinit hnew
  split at henc
  case h_1 e heq => exact absurd henc (by simp)
  case h_2 enc2w f2w hwrf =>
  have hssinv := encodeCheckpointSS_inv
    (show SSWF (Ctx.new v2.block_size v2.superblock_size) from
      ⟨rfl, rfl, by simp [Ctx.new, BlockIndex.new], by simp [Ctx.new, BlockIndex.new]⟩)
    hss
  obtain ⟨hss1bs, hss1sbs, hss1wf⟩ := hssinv
  have hbs1 : 0 < enc1.ss_state.block_size := by
    rw [henc1]
    dsimp only
    rw [hss1bs]
    exact hbs
  have hsbs1 : 0 < enc1.ss_state.superblock_size := by
    rw [henc1]
    dsimp only
    rw [hss1sbs]
    exact hsbs
  have hwf1 : SSWF enc1.ss_state := by
    rw [henc1]
    exact hss1wf
  obtain ⟨ihh, ihfn, ihfin, ihpos, ihbs2, ihsbs2, ihwf2, tb, ihdata, ihdec⟩ :=
    writeFrames_roundtrip zc zsc zd1 zd2 hz1 hz2 frames enc1 enc2w f1 f2w
      hf1pos hbs1 hsbs1 hwf1 hWF hwrf
  simp only [ReplayEncoder.finish] at henc
  rw [ihfin, henc1] at henc
  dsimp only at henc
  rw [if_neg (by simp)] at henc
  simp only [writeHeader] at henc
  rw [ihfn, henc1] at henc
  dsimp only at henc
  rw [Nat.zero_add frames.length] at henc
  rw [if_pos hfr32] at henc
  rw [ihh, henc1] at henc
  dsimp only [Header.setFrameCount, Header.upgrade] at henc
  rw [if_pos hfr32] at henc
  simp only [Except.ok.injEq, Prod.mk.injEq] at henc
  obtain ⟨hencR, hfR⟩ := henc
  have hdata : fR.data = headerBytesV2
      ⟨⟨v2.base.version, v2.base.content_crc,
        14 + (ccPayload zc zsc v2.checkpoint_compression ssBytes).length,
        v2.base.identifier⟩, frames.length, v2.block_size,
        v2.superblock_size, v2.checkpoint_commit_interval,
        v2.checkpoint_commit_threshold, v2.checkpoint_compression⟩
      ++ (([compressionByte v2.checkpoint_compression, 1]
        ++ toLE 4 initial.length ++ toLE 4 ssBytes.length
        ++ toLE 4 (ccPayload zc zsc v2.checkpoint_compression ssBytes).length
        ++ ccPayload zc zsc v2.checkpoint_compression ssBytes) ++ tb) := by
    rw [← hfR]
    dsimp only
    rw [ihdata, hf1data]
    rw [List.append_assoc]
    rw [storeAt_replace_front _ (by rw [headerBytesV2_length, headerBytesV2_length])]
  have hdc := decodeCheckpoint_record zc zsc zd1 zd2 hz1 hz2
    v2.checkpoint_compression ([] : List Nat) ([] : List Nat) tb
    hbs hsbs
    ⟨rfl, rfl, by simp [Ctx.new, BlockIndex.new],
      by simp [Ctx.new, BlockIndex.new]⟩
    hcp32 hss
  have hdc2 : decodeCheckpoint zd1 zd2
      (Ctx.new v2.block_size v2.superblock_size)
      (([compressionByte v2.checkpoint_compression, 1]
        ++ toLE 4 initial.length ++ toLE 4 ssBytes.length
        ++ toLE 4 (ccPayload zc zsc v2.checkpoint_compression ssBytes).length
        ++ ccPayload zc zsc v2.checkpoint_compression ssBytes) ++ tb)
      = .ok (initial, Ctx.mk v2.block_size v2.superblock_size initial
          ss1.last_superseq ss1.block_index ss1.superblock_index, tb) := by
    rw [show (([compressionByte v2.checkpoint_compression, 1]
        ++ toLE 4 initial.length ++ toLE 4 ssBytes.length
        ++ toLE 4 (ccPayload zc zsc v2.checkpoint_compression ssBytes).length
        ++ ccPayload zc zsc v2.checkpoint_compression ssBytes) ++ tb)
      = [compressionByte v2.checkpoint_compression, 1]
        ++ toLE 4 initial.length ++ toLE 4 ssBytes.length
        ++ toLE 4 (ccPayload zc zsc v2.checkpoint_compression ssBytes).length
        ++ (ccPayload zc zsc v2.checkpoint_compression ssBytes ++ tb)
      by simp [List.append_assoc]]
    exact hdc
  have hsync1 : SSSync enc1.ss_state
      (Ctx.mk v2.block_size v2.superblock_size initial ss1.last_superseq
        ss1.block_index ss1.superblock_index) := by
    rw [henc1]
    exact ⟨hss1bs.symm, hss1sbs.symm, rfl, rfl⟩
  obtain ⟨dec2, frames2, hrd, hsem, hdh, hdi, hds⟩ := ihdec
    (ReplayDecoder.mk
      (.v2 ⟨⟨2, v2.base.content_crc,
        14 + (ccPayload zc zsc v2.checkpoint_compression ssBytes).length,
        v2.base.identifier⟩, frames.length, v2.block_size,
        v2.superblock_size, v2.checkpoint_commit_interval,
        v2.checkpoint_commit_threshold, v2.checkpoint_compression⟩)
      initial 0
      (Ctx.mk v2.block_size v2.superblock_size initial ss1.last_superseq
        ss1.block_index ss1.superblock_index)) [] rfl hsync1
  rw [List.append_nil] at hrd
  refine ⟨14 + (ccPayload zc zsc v2.checkpoint_compression ssBytes).length,
    ReplayDecoder.mk
      (.v2 ⟨⟨2, v2.base.content_crc,
        14 + (ccPayload zc zsc v2.checkpoint_compression ssBytes).length,
        v2.base.identifier⟩, frames.length, v2.block_size,
        v2.superblock_size, v2.checkpoint_commit_interval,
        v2.checkpoint_commit_threshold, v2.checkpoint_compression⟩)
      initial 0
      (Ctx.mk v2.block_size v2.superblock_size initial ss1.last_superseq
        ss1.block_index ss1.superblock_index),
    dec2, frames2, tb, ?_, rfl, rfl, hrd, hsem⟩
  have hrh : readHeader fR.data
      = .ok (.v2 ⟨⟨2, v2.base.content_crc,
          14 + (ccPayload zc zsc v2.checkpoint_compression ssBytes).length,
          v2.base.identifier⟩, frames.length, v2.block_size,
          v2.superblock_size, v2.checkpoint_commit_interval,
          v2.checkpoint_commit_threshold, v2.checkpoint_compression⟩,
        ([compressionByte v2.checkpoint_compression, 1]
          ++ toLE 4 initial.length ++ toLE 4 ssBytes.length
          ++ toLE 4 (ccPayload zc zsc v2.checkpoint_compression
              ssBytes).length
          ++ ccPayload zc zsc v2.checkpoint_compression ssBytes) ++ tb) := by
    rw [hdata]
    exact readHeader_headerBytesV2
      ⟨⟨v2.base.version, v2.base.content_crc,
        14 + (ccPayload zc zsc v2.checkpoint_compression ssBytes).length,
        v2.base.identifier⟩, frames.length, v2.block_size,
        v2.superblock_size, v2.checkpoint_commit_interval,
        v2.checkpoint_commit_threshold, v2.checkpoint_compression⟩
      (([compressionByte v2.checkpoint_compression, 1]
        ++ toLE 4 initial.length ++ toLE 4 ssBytes.length
        ++ toLE 4 (ccPayload zc zsc v2.checkpoint_compression ssBytes).length
        ++ ccPayload zc zsc v2.checkpoint_compression ssBytes) ++ tb)
      hcrc hiss32 hid hfr32 hbs32 hsbs32 hcci hcct
  exact ReplayDecoder.new_v2_of zd1 zd2 fR.data _ tb _ initial _ hrh hdc2

/-- A self-delimiting compressor for concrete witnesses: a unary length
prefix (ones terminated by a zero) followed by the raw bytes. -/
def unaryComp (bs : List Nat) : List Nat :=
  List.replicate bs.length 1 ++ (0 :: bs)

/-- Count the unary prefix, then read that many bytes. -/
def unaryCount : List Nat → Nat → Option (List Nat × List Nat)
  | [], _ => Option.none
  | 0 :: r, n => readBytes n r
  | (_ + 1) :: r, n => unaryCount r (n + 1)

/-- Decompressor inverse of `unaryComp`. -/
def unaryDecomp (input : List Nat) : Option (List Nat × List Nat) :=
  unaryCount input 0

theorem unaryCount_replicate (k : Nat) :
    ∀ (n : Nat) (t : List Nat),
    unaryCount (List.replicate k 1 ++ (0 :: t)) n = readBytes (n + k) t := by
  induction k with
  | zero =>
    intro n t
    simp [unaryCount]
  | succ k ih =>
    intro n t
    rw [List.replicate_succ, List.cons_append]
    show unaryCount (List.replicate k 1 ++ (0 :: t)) (n + 1) = readBytes (n + (k + 1)) t
    rw [ih (n + 1) t]
    exact congrArg (fun m => readBytes m t) (by omega)

/-- The unary codec is a stream inverse for every payload. -/
theorem unaryDecomp_unaryComp (bs rest : List Nat) :
    unaryDecomp (unaryComp bs ++ rest) = some (bs, rest) := by
  unfold unaryDecomp unaryComp
  rw [List.append_assoc, List.cons_append]
  rw [unaryCount_replicate bs.length 0 (bs ++ rest)]
  rw [Nat.zero_add]
  exact readBytes_append rfl rest

/-! ## Claims about the replay container -/

/-- A header-parse error propagates through `ReplayDecoder::new`. -/
theorem ReplayDecoder.new_of_readHeader_error
    (zd1 zd2 : List Nat → Option (List Nat × List Nat))
    (input : List Nat) (e : ReplayError) (h : readHeader input = .error e) :
    ReplayDecoder.new zd1 zd2 input = .error e := by
  unfold ReplayDecoder.new
  rw [h]

/-- `read_header` rejects a correct magic followed by a version above 2. -/
theorem readHeader_version_err (v : Nat) (rest : List Nat)
    (hv : 2 < v) (hv32 : v < 2 ^ 32) :
    readHeader (toLE 4 MAGIC ++ (toLE 4 v ++ rest)) = .error (.version v) := by
  have h1 : readLEx 4 (toLE 4 MAGIC ++ (toLE 4 v ++ rest))
      = .ok (MAGIC, toLE 4 v ++ rest) := by
    unfold readLEx
    rw [readLE_append_of_lt (by norm_num [MAGIC])]
  have h2 : readLEx 4 (toLE 4 v ++ rest) = .ok (v, rest) := by
    unfold readLEx
    rw [readLE_append_of_lt (by omega)]
  unfold readHeader
  rw [h1]
  simp only [MAGIC]
  rw [if_neg (by norm_num)]
  rw [h2]
  dsimp only
  rw [if_pos hv]

/-- C9: the decoder rejects a wrong magic with `Magic(m)` and a version
above 2 with `Version(v)`; the encoder rejects any header whose version
is not 2 with `Version`. -/
theorem claim_C9_version_gate :
    (∀ (zd1 zd2 : List Nat → Option (List Nat × List Nat)) (m : Nat) (rest : List Nat),
      m < 2 ^ 32 → m ≠ MAGIC →
      ReplayDecoder.new zd1 zd2 (toLE 4 m ++ rest) = .error (.magic m)) ∧
    (∀ (zd1 zd2 : List Nat → Option (List Nat × List Nat)) (v : Nat) (rest : List Nat),
      2 < v → v < 2 ^ 32 →
      ReplayDecoder.new zd1 zd2 (toLE 4 MAGIC ++ (toLE 4 v ++ rest))
        = .error (.version v)) ∧
    (∀ (zc zsc : List Nat → List Nat) (header : Header) (initial : List Nat) (f : WFile),
      header.version ≠ 2 →
      ReplayEncoder.new zc zsc header initial f = .error (.version header.version)) := by
  have h2564 : (256 : Nat) ^ 4 = 2 ^ 32 := by norm_num
  refine ⟨?_, ?_, ?_⟩
  · intro zd1 zd2 m rest hm hne
    have h1 : readLEx 4 (toLE 4 m ++ rest) = .ok (m, rest) := by
      unfold readLEx
      rw [readLE_append_of_lt (by omega)]
    simp [ReplayDecoder.new, readHeader, h1, hne]
  · intro zd1 zd2 v rest hv hv32
    exact ReplayDecoder.new_of_readHeader_error zd1 zd2 _ _
      (readHeader_version_err v rest hv hv32)
  · intro zc zsc header initial f h
    simp [ReplayEncoder.new, h]

/-- Witness for C9: wrong magic 123, version 3 behind a correct magic,
and an encoder handed a version-0 header. -/
theorem claim_C9_witness :
    ReplayDecoder.new noDecomp noDecomp (toLE 4 123 ++ []) = .error (.magic 123) ∧
    ReplayDecoder.new noDecomp noDecomp (toLE 4 MAGIC ++ (toLE 4 3 ++ []))
      = .error (.version 3) ∧
    ReplayEncoder.new lenComp lenComp (.v0v1 ⟨0, 0, 0, 0⟩) [] ⟨[], 0⟩
      = .error (.version 0) :=
  ⟨claim_C9_version_gate.1 noDecomp noDecomp 123 [] (by norm_num) (by norm_num [MAGIC]),
    claim_C9_version_gate.2.1 noDecomp noDecomp 3 [] (by norm_num) (by norm_num),
    claim_C9_version_gate.2.2 lenComp lenComp (.v0v1 ⟨0, 0, 0, 0⟩) [] ⟨[], 0⟩
      (by norm_num [Header.version])⟩

/-- The S1 scenario header and the 40 bytes its header-only encode
produces (the encoder rewrites `frame_count` to the number of frames
actually written, 0). -/
def hdrS1 : Header :=
  .v2 ⟨⟨2, 2199475946, 2531, 1761326589⟩, 6383, 128, 16, 4, 2, .none⟩

/-- The bytes of the header-only S1 file. -/
def bytesS1 : List Nat :=
  headerBytesV2 ⟨⟨2, 2199475946, 2531, 1761326589⟩, 0, 128, 16, 4, 2, .none⟩

/-- C6 counterexample: writing the header-only S1 replay produces
exactly the 40 header bytes, and reopening them with the decoder fails
with an IO error (a v2 decoder unconditionally expects an initial
checkpoint record), so the claimed round-trip does not happen. -/
theorem claim_C6_counterexample :
    (replayEncode lenComp lenComp hdrS1 [] []).map (fun r => r.2.data) = .ok bytesS1 ∧
    ReplayDecoder.new lenDecomp lenDecomp bytesS1 = .error .io :=
  ⟨rfl, rfl⟩

/-- C6 (amended): the S1 header-only encode yields a 40-byte file whose
header-parsing phase recovers `content_crc`, `identifier`,
`initial_state_size`, `block_size`, `superblock_size`, the commit
interval/threshold and the compression unchanged, and `frame_count = 0`
(rewritten by the encoder to the number of frames written); the full
reopen itself fails because the decoder demands an initial checkpoint. -/
theorem claim_C6_header_fields :
    (replayEncode lenComp lenComp hdrS1 [] []).map (fun r => r.2.data) = .ok bytesS1 ∧
    readHeader bytesS1
      = .ok (.v2 ⟨⟨2, 2199475946, 2531, 1761326589⟩, 0, 128, 16, 4, 2, .none⟩, []) :=
  ⟨rfl, rfl⟩

/-- C10: every checkpoint record written by `ReplayEncoder` (the initial
checkpoint and every per-frame `Checkpoint2` record go through
`encode_checkpoint`) carries encoding byte 1 (`Statestream`) whatever the
frame says: the payload is always the state-stream encoder's bytes routed
through the header's compressor, so the `Raw` arms of the routing are
never taken and only the compression byte varies. -/
theorem claim_C10_encoding_statestream
    (zc zsc : List Nat → List Nat) (enc enc2 : ReplayEncoder) (f f2 : WFile)
    (cp : List Nat) (frame : Nat)
    (h : encodeCheckpointW zc zsc enc f cp frame = .ok (enc2, f2)) :
    ∃ ss2 ssBytes,
      encodeCheckpointSS enc.ss_state cp frame = some (ss2, ssBytes) ∧
      enc2 = ReplayEncoder.mk enc.header enc.frame_number enc.last_pos ss2
        enc.finished ∧
      f2.data = storeAt f.data f.pos
        ([compressionByte enc.header.checkpoint_compression, 1]
          ++ toLE 4 cp.length ++ toLE 4 ssBytes.length
          ++ toLE 4 (ccPayload zc zsc enc.header.checkpoint_compression
              ssBytes).length
          ++ ccPayload zc zsc enc.header.checkpoint_compression ssBytes) ∧
      f2.pos = f.pos + 14
        + (ccPayload zc zsc enc.header.checkpoint_compression ssBytes).length :=
  encodeCheckpointW_spec zc zsc enc enc2 f f2 cp frame h

/-- A tiny v2 header and encoder state for the C10 witness. -/
def hdrC10 : Header := .v2 ⟨⟨2, 0, 0, 0⟩, 0, 2, 2, 4, 2, .none⟩

/-- Encoder about to write a checkpoint record for the C10 witness. -/
def encC10 : ReplayEncoder := ⟨hdrC10, 0, 0, Ctx.new 2 2, false⟩

/-- Updated encoder after the C10 witness write. -/
def encC10r : ReplayEncoder :=
  ⟨hdrC10, 0, 0, Ctx.mk 2 2 [] [1] ⟨[[0, 0], [1, 2], [3, 0]], 2⟩
    ⟨[[0, 0], [1, 2]], 2⟩, false⟩

/-- File contents after the C10 witness write: compression byte 0,
encoding byte 1, sizes 3/22/22, then the 22 state-stream bytes. -/
def fC10r : WFile :=
  ⟨[0, 1, 3, 0, 0, 0, 22, 0, 0, 0, 22, 0, 0, 0,
    0, 0, 1, 1, 196, 2, 1, 2, 1, 2, 196, 2, 3, 0, 2, 1, 146, 1, 2, 3, 145, 1], 36⟩

/-- Witness for C10: the record written for checkpoint `[1, 2, 3]` on a
fresh 2/2 context carries encoding byte 1 and the state-stream payload. -/
theorem claim_C10_witness :
    ∃ ss2 ssBytes,
      encodeCheckpointSS encC10.ss_state [1, 2, 3] 0 = some (ss2, ssBytes) ∧
      encC10r = ReplayEncoder.mk encC10.header encC10.frame_number
        encC10.last_pos ss2 encC10.finished ∧
      fC10r.data = storeAt (WFile.mk [] 0).data (WFile.mk [] 0).pos
        ([compressionByte encC10.header.checkpoint_compression, 1]
          ++ toLE 4 ([1, 2, 3] : List Nat).length ++ toLE 4 ssBytes.length
          ++ toLE 4 (ccPayload lenComp lenComp
              encC10.header.checkpoint_compression ssBytes).length
          ++ ccPayload lenComp lenComp encC10.header.checkpoint_compression
              ssBytes) ∧
      fC10r.pos = (WFile.mk [] 0).pos + 14
        + (ccPayload lenComp lenComp encC10.header.checkpoint_compression
            ssBytes).length :=
  claim_C10_encoding_statestream lenComp lenComp encC10 encC10r
    (WFile.mk [] 0) fC10r [1, 2, 3] 0 (by rfl)

/-- A small v2 header (block 2, superblock 2) used by concrete runs. -/
def hdrS2 : Header := .v2 ⟨⟨2, 0, 0, 0⟩, 0, 2, 2, 4, 2, .none⟩

/-- The 22 state-stream bytes encoding checkpoint `[1, 2, 3]` on a fresh
2/2 context. -/
def ssBytes22 : List Nat :=
  [0, 0, 1, 1, 196, 2, 1, 2, 1, 2, 196, 2, 3, 0, 2, 1, 146, 1, 2, 3, 145, 1]

/-- A `Checkpoint2` record: compression byte 0, encoding byte 1
(`Statestream`), sizes 3/22/22, then the state-stream payload. -/
def recC4 : List Nat := [0, 1] ++ toLE 4 3 ++ toLE 4 22 ++ toLE 4 22 ++ ssBytes22

/-- Fresh decoder over the 2/2 header for concrete frame reads. -/
def decC4 : ReplayDecoder := ⟨hdrS2, [], 0, Ctx.new 2 2⟩

/-- The state-stream context after decoding `recC4`. -/
def ctxC4 : Ctx :=
  Ctx.mk 2 2 [1, 2, 3] [1] ⟨[[0, 0], [1, 2], [3, 0]], 2⟩ ⟨[[0, 0], [1, 2]], 2⟩

/-- C4 counterexample: a frame record whose `Checkpoint2` record stores
encoding byte 1 (`Statestream`), yet the frame `read_frame` returns keeps
the caller frame's default `Raw` encoding and `None` compression — the
stored discriminant bytes are not copied into the frame. -/
theorem claim_C4_counterexample :
    readFrame lenDecomp lenDecomp decC4 default
        (toLE 4 0 ++ [0] ++ toLE 2 0 ++ [67] ++ recC4)
      = .ok (ReplayDecoder.mk hdrS2 [] 1 ctxC4,
          Frame.mk [] [] [1, 2, 3] .none .raw, []) ∧
    recC4.getD 1 0 = 1 ∧ encodingOfByte 1 = some .statestream ∧
    Encoding.raw ≠ Encoding.statestream :=
  ⟨rfl, rfl, rfl, by decide⟩

/-- C4 (amended): after `read_frame` returns on a `Checkpoint2` record,
`frame.checkpoint_bytes` holds exactly `uncompressed_unencoded_size`
bytes of the reconstructed state (first conjunct, over every routing that
succeeds); but `checkpoint_compression` / `checkpoint_encoding` come from
the caller's frame unchanged, not from the discriminant bytes stored in
the record (second conjunct). -/
theorem claim_C4_checkpoint_fields :
    (∀ (zd1 zd2 : List Nat → Option (List Nat × List Nat)) (ss : Ctx)
       (cb eb n a b : Nat) (payload cp : List Nat) (ss2 : Ctx) (rest : List Nat),
      n < 2 ^ 32 → a < 2 ^ 32 → b < 2 ^ 32 →
      decodeCheckpoint zd1 zd2 ss
          ([cb, eb] ++ toLE 4 n ++ toLE 4 a ++ toLE 4 b ++ payload)
        = .ok (cp, ss2, rest) →
      cp.length = n) ∧
    (∀ (zd1 zd2 : List Nat → Option (List Nat × List Nat))
       (dec : ReplayDecoder) (frame : Frame) (br : Nat) (kevs : List KeyData)
       (ievs : List InputData) (cpInput cp : List Nat) (ss2 : Ctx)
       (rest : List Nat),
      dec.header.version = 2 →
      kevs.length < 2 ^ 8 → ievs.length < 2 ^ 16 →
      (∀ k ∈ kevs, k.modf < 2 ^ 16 ∧ k.code < 2 ^ 32 ∧ k.chr < 2 ^ 32) →
      (∀ i ∈ ievs, i.id < 2 ^ 16 ∧ -(2 ^ 15) ≤ i.val ∧ i.val < 2 ^ 15) →
      decodeCheckpoint zd1 zd2 dec.ss_state cpInput = .ok (cp, ss2, rest) →
      readFrame zd1 zd2 dec frame
          (toLE 4 br ++ [kevs.length] ++ kevs.flatMap keyEventBytes
            ++ toLE 2 ievs.length ++ ievs.flatMap inputEventBytes
            ++ [67] ++ cpInput)
        = .ok (ReplayDecoder.mk dec.header dec.initial_state
              (dec.frame_number + 1) ss2,
            Frame.mk kevs ievs cp frame.checkpoint_compression
              frame.checkpoint_encoding, rest)) :=
  ⟨fun zd1 zd2 ss cb eb n a b payload cp ss2 rest hn ha hb h =>
      decodeCheckpoint_ok_length zd1 zd2 ss cb eb n a b payload cp ss2 rest
        hn ha hb h,
    fun zd1 zd2 dec frame br kevs ievs cpInput cp ss2 rest hver hk hi
        hkWF hiWF hcp =>
      readFrame_checkpoint2 zd1 zd2 dec frame br kevs ievs cpInput cp ss2 rest
        hver hk hi hkWF hiWF hcp⟩

/-- Witness for C4: the record `recC4` (sizes 3/22/22) reconstructs a
3-byte checkpoint, and reading the surrounding frame keeps the caller
frame's metadata. -/
theorem claim_C4_witness :
    (([1, 2, 3] : List Nat).length = 3) ∧
    readFrame lenDecomp lenDecomp decC4 default
        (toLE 4 0 ++ [0] ++ toLE 2 0 ++ [67] ++ recC4)
      = .ok (ReplayDecoder.mk decC4.header decC4.initial_state
            (decC4.frame_number + 1) ctxC4,
          Frame.mk [] [] [1, 2, 3] (default : Frame).checkpoint_compression
            (default : Frame).checkpoint_encoding, []) :=
  ⟨claim_C4_checkpoint_fields.1 lenDecomp lenDecomp (Ctx.new 2 2) 0 1 3 22 22
      ssBytes22 [1, 2, 3] ctxC4 [] (by norm_num) (by norm_num) (by norm_num)
      (by rfl),
    claim_C4_checkpoint_fields.2 lenDecomp lenDecomp decC4 default 0 [] []
      recC4 [1, 2, 3] ctxC4 [] rfl (by norm_num) (by norm_num)
      (by simp) (by simp) (by rfl)⟩

/-- C5: `write_frame` is fatal with `TooManyKeyEvents` past 255 key
events and with `TooManyInputEvents` past 65535 input events; but
`write_header` never returns `TooManyFrames`: `set_frame_count` truncates
the frame number with `unwrap_or_default` first, so a frame number past
`u32` is silently written as `frame_count = 0` and the write succeeds
(the divergence of the claim's third part). -/
theorem claim_C5_count_limits :
    (∀ (zc zsc : List Nat → List Nat) (enc : ReplayEncoder) (f : WFile)
       (fr : Frame),
      f.pos - enc.last_pos < 2 ^ 32 → 2 ^ 8 ≤ fr.key_events.length →
      writeFrame zc zsc enc f fr = .error .tooManyKeyEvents) ∧
    (∀ (zc zsc : List Nat → List Nat) (enc : ReplayEncoder) (f : WFile)
       (fr : Frame),
      f.pos - enc.last_pos < 2 ^ 32 → fr.key_events.length < 2 ^ 8 →
      2 ^ 16 ≤ fr.input_events.length →
      writeFrame zc zsc enc f fr = .error .tooManyInputEvents) ∧
    (∀ (enc : ReplayEncoder) (f : WFile), 2 ^ 32 ≤ enc.frame_number →
      ∃ enc2 f2, writeHeader enc f = .ok (enc2, f2) ∧
        enc2.header.frame_count = some 0) := by
  refine ⟨?_, ?_, ?_⟩
  · intro zc zsc enc f fr hpos hk
    simp only [writeFrame]
    rw [if_pos hpos, if_neg (by omega)]
  · intro zc zsc enc f fr hpos hk hi
    simp only [writeFrame]
    rw [if_pos hpos, if_pos hk, if_neg (by omega)]
  · intro enc f hfr
    simp only [writeHeader]
    rw [if_neg (show ¬ enc.frame_number < 2 ^ 32 by omega)]
    simp only [Header.setFrameCount, Header.upgrade]
    rw [if_pos (by norm_num)]
    refine ⟨_, _, rfl, ?_⟩
    simp [Header.frame_count]

/-- Witness for C5: 256 key events error, 65536 input events error, and a
frame number of `2^32` writes a header with `frame_count = 0` instead of
failing with `TooManyFrames`. -/
theorem claim_C5_witness :
    writeFrame lenComp lenComp (ReplayEncoder.mk hdrS2 0 0 (Ctx.new 2 2) false)
        (WFile.mk [] 0)
        (Frame.mk (List.replicate 256 ⟨0, 0, 0, 0⟩) [] [] .none .raw)
      = .error .tooManyKeyEvents ∧
    writeFrame lenComp lenComp (ReplayEncoder.mk hdrS2 0 0 (Ctx.new 2 2) false)
        (WFile.mk [] 0)
        (Frame.mk [] (List.replicate 65536 ⟨0, 0, 0, 0, 0⟩) [] .none .raw)
      = .error .tooManyInputEvents ∧
    ∃ enc2 f2,
      writeHeader (ReplayEncoder.mk hdrS2 (2 ^ 32) 0 (Ctx.new 2 2) false)
          (WFile.mk [] 0)
        = .ok (enc2, f2) ∧ enc2.header.frame_count = some 0 :=
  ⟨claim_C5_count_limits.1 lenComp lenComp _ _ _ (by norm_num)
      (by show (256 : Nat) ≤ (List.replicate 256 (KeyData.mk 0 0 0 0)).length
          rw [List.length_replicate]),
    claim_C5_count_limits.2.1 lenComp lenComp _ _ _ (by norm_num)
      (by show ([] : List KeyData).length < 256
          norm_num)
      (by show (65536 : Nat) ≤ (List.replicate 65536 (InputData.mk 0 0 0 0 0)).length
          rw [List.length_replicate]),
    claim_C5_count_limits.2.2 _ _ (by norm_num)⟩

/-- C1 counterexample: an EMPTY initial state breaks the round-trip.  The
encoder skips the initial checkpoint record for an empty initial state
(`ReplayEncoder::new`), but a v2 `ReplayDecoder::new` unconditionally
decodes one, so reopening the written header-only bytes fails with IO. -/
theorem claim_C1_counterexample :
    (replayEncode lenComp lenComp hdrS2 [] []).map (fun r => r.2.data)
      = .ok (headerBytesV2 ⟨⟨2, 0, 0, 0⟩, 0, 2, 2, 4, 2, .none⟩) ∧
    ReplayDecoder.new lenDecomp lenDecomp
      (headerBytesV2 ⟨⟨2, 0, 0, 0⟩, 0, 2, 2, 4, 2, .none⟩) = .error .io :=
  ⟨rfl, rfl⟩

/-- Header of the C1 witness replay (compression `zlib`, modelled by the
unary codec). -/
def v2W : HeaderV2 := ⟨⟨2, 7, 0, 9⟩, 5, 2, 2, 4, 2, .zlib⟩

/-- First witness frame: one key event, one input event with a negative
`val`, no checkpoint. -/
def fr1W : Frame := ⟨[⟨1, 2, 3, 4⟩], [⟨0, 1, 2, 3, -5⟩], [], .none, .raw⟩

/-- Second witness frame: a 2-byte checkpoint. -/
def fr2W : Frame := ⟨[], [], [9, 8], .none, .raw⟩

/-- Encoder state after the C1 witness encode. -/
def encC1W : ReplayEncoder :=
  ⟨.v2 ⟨⟨2, 7, 59, 9⟩, 2, 2, 2, 4, 2, .zlib⟩, 2, 127,
    Ctx.mk 2 2 [] [2] ⟨[[0, 0], [1, 2], [3, 0], [9, 8]], 2⟩
      ⟨[[0, 0], [1, 2], [3, 0]], 2⟩, true⟩

/-- The 182 bytes of the C1 witness replay file. -/
def fC1W : WFile :=
  ⟨[50, 86, 83, 66, 2, 0, 0, 0, 7, 0, 0, 0, 59, 0, 0, 0, 9, 0, 0, 0, 0, 0,
    0, 0, 2, 0, 0, 0, 2, 0, 0, 0, 2, 0, 0, 0, 0, 1, 2, 4, 1, 1, 3, 0, 0, 0,
    22, 0, 0, 0, 45, 0, 0, 0, 1, 1, 1, 1, 1, 1, 1, 1, 1, 1, 1, 1, 1, 1, 1,
    1, 1, 1, 1, 1, 1, 1, 0, 0, 0, 1, 1, 196, 2, 1, 2, 1, 2, 196, 2, 3, 0,
    2, 1, 146, 1, 2, 3, 145, 1, 0, 0, 0, 0, 1, 1, 0, 2, 0, 3, 0, 0, 0, 4,
    0, 0, 0, 1, 0, 0, 1, 2, 0, 3, 0, 251, 255, 102, 28, 0, 0, 0, 0, 0, 0,
    67, 1, 1, 2, 0, 0, 0, 16, 0, 0, 0, 33, 0, 0, 0, 1, 1, 1, 1, 1, 1, 1, 1,
    1, 1, 1, 1, 1, 1, 1, 1, 0, 0, 1, 1, 3, 196, 2, 9, 8, 2, 2, 146, 3, 0,
    3, 145, 2], 182⟩

set_option maxRecDepth 8000 in
/-- Witness for C1: a two-frame replay (one plain frame with events, one
checkpoint frame) over a zlib-compressed (unary-codec) v2 header with
initial state `[1, 2, 3]` decodes back: header fields, initial state, and
semantically equal frames. -/
theorem claim_C1_witness :
    ∃ iss dec dec2 frames2 rest2,
      ReplayDecoder.new unaryDecomp unaryDecomp fC1W.data = .ok (dec, rest2) ∧
      dec.header = .v2 ⟨⟨2, v2W.base.content_crc, iss, v2W.base.identifier⟩,
        ([fr1W, fr2W] : List Frame).length, v2W.block_size,
        v2W.superblock_size, v2W.checkpoint_commit_interval,
        v2W.checkpoint_commit_threshold, v2W.checkpoint_compression⟩ ∧
      dec.initial_state = [1, 2, 3] ∧
      readFrames unaryDecomp unaryDecomp dec rest2
        ([fr1W, fr2W] : List Frame).length = .ok (dec2, frames2, []) ∧
      frames2.map Frame.sem = ([fr1W, fr2W] : List Frame).map Frame.sem :=
  claim_C1_container_roundtrip unaryComp unaryComp unaryDecomp unaryDecomp
    unaryDecomp_unaryComp unaryDecomp_unaryComp v2W [1, 2, 3] [fr1W, fr2W]
    encC1W fC1W rfl (by norm_num [v2W]) (by norm_num [v2W])
    (by norm_num [v2W]) (by norm_num [v2W]) (by norm_num [v2W])
    (by norm_num [v2W]) (by norm_num [v2W]) (by norm_num [v2W])
    (by norm_num) (by simp)
    (by intro fr hfr
        simp only [List.mem_cons, List.not_mem_nil, or_false] at hfr
        rcases hfr with rfl | rfl
        · exact ⟨by decide, by decide⟩
        · exact ⟨by decide, by decide⟩)
    (by rfl)
